import Mathlib

/-!
# TACO builder: the blueprint-to-render pipeline

A shallow embedding of `taco-builder-script.js`.  JavaScript strings are Lean
strings (sequences of characters); the algorithms that scan a string work on
its character list.  The form controls that the live preview reads are an
explicit list of named controls in document order.  Code that can throw
returns `Except Stop`.

The file has two parts: the definitions, translated from the source, and
then the theorems about them.
-/

set_option autoImplicit false

namespace Taco

/-! ## Part 1: definitions -/

/-! ### Strings -/

/-- The character `$`, which starts a replacement pattern in `String.prototype.replace`. -/
def dollar : Char := Char.ofNat 36

/-- The character `&`. -/
def ampersand : Char := Char.ofNat 38

/-- The apostrophe character. -/
def apostrophe : Char := Char.ofNat 39

/-- The grave accent character. -/
def graveAccent : Char := Char.ofNat 96

/-- The opening brace. -/
def lbrace : Char := Char.ofNat 123

/-- The closing brace. -/
def rbrace : Char := Char.ofNat 125

/-- The opening parenthesis. -/
def lparen : Char := Char.ofNat 40

/-- The two opening braces of a placeholder. -/
def openBraces : String := "\x7b\x7b"

/-- The two closing braces of a placeholder. -/
def closeBraces : String := "\x7d\x7d"

/-- ECMAScript `WhiteSpace` and `LineTerminator` code points: what `String.prototype.trim`
strips and what `\s` matches. -/
def isJsWhitespace (c : Char) : Bool :=
  let n := c.toNat
  n == 0x09 || n == 0x0A || n == 0x0B || n == 0x0C || n == 0x0D || n == 0x20 ||
  n == 0xA0 || n == 0x1680 || (decide (0x2000 ≤ n) && decide (n ≤ 0x200A)) ||
  n == 0x2028 || n == 0x2029 || n == 0x202F || n == 0x205F || n == 0x3000 || n == 0xFEFF

/-- `String.prototype.trim` on a character list. -/
def jsTrimChars (s : List Char) : List Char :=
  ((s.dropWhile isJsWhitespace).reverse.dropWhile isJsWhitespace).reverse

/-- `String.prototype.trim`. -/
def jsTrim (s : String) : String := String.mk (jsTrimChars s.data)

/-- The loop of `Array.prototype.join`: `acc` is the text built so far and `first` tells
whether no element has been appended yet (the separator goes before every element but the
first). -/
def jsJoinLoop (sep : String) : String → Bool → List String → String
  | acc, _, [] => acc
  | acc, true, x :: xs => jsJoinLoop sep (acc ++ x) false xs
  | acc, false, x :: xs => jsJoinLoop sep (acc ++ sep ++ x) false xs

/-- `Array.prototype.join(sep)` on an array of strings. -/
def jsJoin (sep : String) (xs : List String) : String := jsJoinLoop sep "" true xs

/-- The expression `s || fallback` on strings: the empty string is falsy. -/
def jsOrElse (s fallback : String) : String := if s = "" then fallback else s

/-- The pieces of `String.prototype.split(sep)` for a one-character separator. -/
def jsSplitChars (sep : Char) : List Char → List (List Char)
  | [] => [[]]
  | c :: rest =>
    if c = sep then [] :: jsSplitChars sep rest
    else
      match jsSplitChars sep rest with
      | [] => [[c]]
      | w :: ws => (c :: w) :: ws

/-- `String.prototype.split(sep)` for a one-character separator. -/
def jsSplit (sep : Char) (s : String) : List String :=
  (jsSplitChars sep s.data).map String.mk

/-- ASCII word characters, the class `\w`. -/
def isWordChar (c : Char) : Bool := c.isAlphanum || c == Char.ofNat 95

/-- ECMAScript `LineTerminator` code points, which `.` does not match. -/
def isLineTerminator (c : Char) : Bool :=
  let n := c.toNat
  n == 0x0A || n == 0x0D || n == 0x2028 || n == 0x2029

/-! ### Identifier deriver (`toCamelCase`, lines 95-100) -/

/-- The first `replace` of `toCamelCase`: the expression matches one character at a time, an
upper-case ASCII letter or a word character that starts the string or follows a non-word
character; the callback lower-cases the match at index 0 and upper-cases every other
match.  `prev` is the character before the current one. -/
def camelCaseScan : Nat → Option Char → List Char → List Char
  | _, _, [] => []
  | index, prev, c :: rest =>
    let isMatch := c.isUpper || (isWordChar c && !(prev.any isWordChar))
    (if isMatch then (if index == 0 then c.toLower else c.toUpper) else c) ::
      camelCaseScan (index + 1) (some c) rest

/-- The function `toCamelCase`: the scan above, then every run of whitespace removed. -/
def toCamelCase (str : String) : String :=
  if str = "" then ""
  else String.mk ((camelCaseScan 0 none str.data).filter fun c => !isJsWhitespace c)

/-! ### Markdown-lite parser (`parseSimpleMarkdown`, lines 108-117) -/

/-- Replacing every occurrence of one character by a text: the three escaping passes. -/
def replaceChar (c : Char) (replacement : List Char) (text : List Char) : List Char :=
  text.flatMap fun d => if d = c then replacement else [d]

/-- The lazy group `(.*?)` followed by the character `close`: the text up to the first
`close`, provided no line terminator comes before it, and the text after that `close`. -/
def lazyUntil (close : Char) : List Char → Option (List Char × List Char)
  | [] => none
  | c :: rest =>
    if c = close then some ([], rest)
    else if isLineTerminator c then none
    else (lazyUntil close rest).map fun r => (c :: r.1, r.2)

/-- A global `replace` whose expression is `delim`, a lazy group, `delim`, and whose
replacement wraps the group in a tag.  `skip` counts the characters that still belong to
the last match. -/
def expandDelimited (delim : Char) (openTag closeTag : List Char) :
    Nat → List Char → List Char
  | _, [] => []
  | skip + 1, _ :: rest => expandDelimited delim openTag closeTag skip rest
  | 0, c :: rest =>
    if c = delim then
      match lazyUntil delim rest with
      | some (inner, _) =>
        openTag ++ inner ++ closeTag ++
          expandDelimited delim openTag closeTag (inner.length + 1) rest
      | none => c :: expandDelimited delim openTag closeTag 0 rest
    else c :: expandDelimited delim openTag closeTag 0 rest

/-- The part of the link expression after the opening bracket: a lazy group, a closing
bracket, an opening parenthesis, a lazy group, a closing parenthesis.  The result is the
link text, the url and the number of characters matched. -/
def linkBody : List Char → Option (List Char × List Char × Nat)
  | [] => none
  | c :: rest =>
    let here : Option (List Char × List Char × Nat) :=
      if c = Char.ofNat 93 then
        match rest with
        | d :: more =>
          if d = Char.ofNat 40 then
            (lazyUntil (Char.ofNat 41) more).map fun r => ([], r.1, r.1.length + 3)
          else none
        | [] => none
      else none
    match here with
    | some r => some r
    | none =>
      if isLineTerminator c then none
      else (linkBody rest).map fun r => (c :: r.1, r.2.1, r.2.2 + 1)

/-- The last `replace` of `parseSimpleMarkdown`: every link becomes an anchor element. -/
def expandLinks : Nat → List Char → List Char
  | _, [] => []
  | skip + 1, _ :: rest => expandLinks skip rest
  | 0, c :: rest =>
    if c = Char.ofNat 91 then
      match linkBody rest with
      | some (text, url, len) =>
        "<a href=\"".data ++ url ++ "\" target=\"_blank\" rel=\"noopener noreferrer\">".data ++
          text ++ "</a>".data ++ expandLinks len rest
      | none => c :: expandLinks 0 rest
    else c :: expandLinks 0 rest

/-- The function `parseSimpleMarkdown`. -/
def parseSimpleMarkdown (text : String) : String :=
  if text = "" then ""
  else
    let escaped :=
      replaceChar (Char.ofNat 62) "&gt;".data
        (replaceChar (Char.ofNat 60) "&lt;".data
          (replaceChar ampersand "&amp;".data text.data))
    let bold := expandDelimited (Char.ofNat 42) "<strong>".data "</strong>".data 0 escaped
    let italic := expandDelimited (Char.ofNat 95) "<em>".data "</em>".data 0 bold
    String.mk (expandLinks 0 italic)

/-! ### Data model -/

/-- An entry of a field's `options`: `{ group, value }`. -/
structure FieldOption where
  group : String
  value : String
deriving DecidableEq, Repr

/-- A field of the blueprint, with `type`, `id` and `label` strings as the add/edit dialog
writes them.  `options` and `hoverInfo` are properties that a field object may lack
(`none`); a missing `isMultiSelect` or `required` is falsy and a missing `placeholder` is
the empty string, which the code treats alike. -/
structure Field where
  type : String
  id : String
  label : String
  required : Bool
  placeholder : String
  options : Option (List FieldOption)
  isMultiSelect : Bool
  hoverInfo : Option String
deriving DecidableEq, Repr

/-- The blueprint `formBlueprint`: `id` is the database key, `none` for an unsaved form. -/
structure Blueprint where
  id : Option Nat
  formName : String
  formSubtitle : String
  fields : List Field
deriving DecidableEq, Repr

/-- A text field with the given id and label, not required and without placeholder text. -/
def textField (id label : String) : Field :=
  { type := "text", id := id, label := label, required := false, placeholder := "",
    options := none, isMultiSelect := false, hoverInfo := none }

/-- A static-text field with the given id and label, without hover text. -/
def staticTextField (id label : String) : Field :=
  { type := "static-text", id := id, label := label, required := false, placeholder := "",
    options := none, isMultiSelect := false, hoverInfo := none }

/-- A checkbox field with the given id, label and option values, not required. -/
def checkboxField (id label : String) (values : List String) : Field :=
  { type := "checkbox", id := id, label := label, required := false, placeholder := "",
    options := some (values.map fun v => { group := "General", value := v }),
    isMultiSelect := false, hoverInfo := none }

/-! ### Template compilation (`renderOutputPreview`, lines 435-438) -/

/-- The placeholder text of a field id: the id between two pairs of braces. -/
def placeholder (id : String) : String := openBraces ++ id ++ closeBraces

/-- The template line of a field: the template literal with the label, a colon, a blank and
the placeholder. -/
def templateLine (field : Field) : String := field.label ++ ": " ++ placeholder field.id

/-- The value of `outputTemplate`:
`fields.filter(type !== 'static-text').map(line).join('\n')`. -/
def outputTemplate (fields : List Field) : String :=
  jsJoin "\n" ((fields.filter fun field => field.type != "static-text").map templateLine)

/-! ### Outcomes of code that can throw -/

/-- Why a computation gives no result.  `syntaxError` and `typeError` are the JavaScript
exceptions of those names, `referenceError` carries the unbound identifier.  `outsideModel`
is not a behaviour of the program: it marks inputs on which this development does not
describe the platform (a regular expression source that `newPlaceholderRegExp` does not
cover, a selector built from an id that is not plain selector text), and no theorem below
draws a conclusion from it. -/
inductive Stop where
  | syntaxError
  | typeError
  | referenceError (name : String)
  | outsideModel
deriving DecidableEq, Repr

deriving instance DecidableEq for Except

/-! ### The regular expression of a placeholder and `String.prototype.replace` -/

/-- An id made of word characters whose first character (when there is one) is not a digit.
For such an id the pattern source of the placeholder contains no syntax character
other than braces, and no brace of it starts a quantifier (a brace quantifier needs a digit
right after its opening brace), so under the non-unicode (Annex B) grammar every character
of the source is a pattern character that matches itself. -/
def isSimpleId (id : String) : Bool :=
  id.data.all isWordChar && !(id.data.head?.any Char.isDigit)

/-- An id made of word characters and opening parentheses, with at least one parenthesis: each
parenthesis opens a group that the source never closes. -/
def hasUnterminatedGroup (id : String) : Bool :=
  id.data.all (fun c => isWordChar c || c == lparen) && id.data.any (fun c => c == lparen)

/-- The result of `new RegExp` on the placeholder of `id`, with the flag `g`: the literal
character sequence that the expression matches when the id is simple, a `SyntaxError` when
the id leaves a group open, and otherwise a source outside this model. -/
def newPlaceholderRegExp (id : String) : Except Stop (List Char) :=
  if isSimpleId id then .ok (placeholder id).data
  else if hasUnterminatedGroup id then .error .syntaxError
  else .error .outsideModel

/-- The abstract operation `GetSubstitution` for a match without capture groups: in the
replacement text, `$$` stands for a dollar sign, `$&` for the matched text, a dollar and a
grave accent for the text before the match, a dollar and an apostrophe for the text after
it; every other character, a dollar followed by anything else included, stands for
itself. -/
def getSubstitution (matched before after : List Char) : List Char → List Char
  | [] => []
  | [c] => [c]
  | c :: d :: rest =>
    if c = dollar then
      if d = dollar then dollar :: getSubstitution matched before after rest
      else if d = ampersand then matched ++ getSubstitution matched before after rest
      else if d = graveAccent then before ++ getSubstitution matched before after rest
      else if d = apostrophe then after ++ getSubstitution matched before after rest
      else c :: getSubstitution matched before after (d :: rest)
    else c :: getSubstitution matched before after (d :: rest)

/-- The scan of `text.replace(re, replacement)` for a global expression that matches the
non-empty literal `pat`: `before` is the text already passed, `skip` the number of
characters that still belong to the last match.  At a position outside a match the
expression matches exactly when `pat` starts there; the match is replaced by the expansion
of the replacement and the search resumes right after it. -/
def replaceScan (pat replacement : List Char) : Nat → List Char → List Char → List Char
  | _, _, [] => []
  | skip + 1, before, c :: rest => replaceScan pat replacement skip (before ++ [c]) rest
  | 0, before, c :: rest =>
    if pat.isPrefixOf (c :: rest) then
      getSubstitution pat before ((c :: rest).drop pat.length) replacement ++
        replaceScan pat replacement (pat.length - 1) (before ++ [c]) rest
    else c :: replaceScan pat replacement 0 (before ++ [c]) rest

/-- The call `text.replace(re, replacement)` for a global literal expression. -/
def jsReplaceAll (pat replacement text : List Char) : List Char :=
  replaceScan pat replacement 0 [] text

/-! ### The controls of the live preview form -/

/-- The kinds of element that carry a `name` attribute inside `previewFormContainer`. -/
inductive ControlKind where
  | text
  | textarea
  | hidden
  | checkbox
deriving DecidableEq, Repr

/-- A named element of the preview form with its current state. -/
structure Control where
  kind : ControlKind
  name : String
  value : String
  checked : Bool
deriving DecidableEq, Repr

/-- The named elements of `previewFormContainer`, in document order. -/
abbrev FormState := List Control

/-- A text that, put between double quotes in a CSS selector, is a string with exactly that
content: it has no double quote, backslash, line break, form feed or null character.  The
selectors that the code builds from a field id mean "the attribute equals the id" only for
such ids; with other ids the selector is invalid or means something else, and the
development does not describe it. -/
def isPlainSelectorText (s : String) : Bool :=
  s.data.all fun c =>
    !(c == Char.ofNat 34 || c == Char.ofNat 92 || c == Char.ofNat 10 || c == Char.ofNat 13 ||
      c == Char.ofNat 12 || c == Char.ofNat 0)

/-- The call `previewFormContainer.querySelector` with the attribute selector on `name`:
the first element with that name, if any. -/
def querySelectorByName (form : FormState) (name : String) : Except Stop (Option Control) :=
  if isPlainSelectorText name then .ok (form.find? fun el => el.name == name)
  else .error .outsideModel

/-- The call `previewFormContainer.querySelectorAll` for the `input` elements with the given
name in state `:checked`: the checked checkboxes with that name, in document order. -/
def querySelectorAllChecked (form : FormState) (name : String) :
    Except Stop (List Control) :=
  if isPlainSelectorText name then
    .ok (form.filter fun el => el.kind == .checkbox && el.name == name && el.checked)
  else .error .outsideModel

/-! ### Substitution (`renderOutputPreview`, lines 440-466) -/

/-- The variable `value` of one iteration of the loop over the fields (lines 446-459). -/
def previewValue (form : FormState) (field : Field) : Except Stop String :=
  if field.type == "checkbox" then
    match querySelectorAllChecked form field.id with
    | .ok checkedCheckboxes =>
      let checkedValues := checkedCheckboxes.map fun cb => cb.value
      .ok (if checkedValues.length > 0 then jsJoin ", " checkedValues else "None")
    | .error e => .error e
  else
    match querySelectorByName form field.id with
    | .ok (some inputElement) =>
      .ok (if jsTrim inputElement.value != "" then inputElement.value else "N/A")
    | .ok none => .ok "N/A"
    | .error e => .error e

/-- The statement `output = output.replace(new RegExp(...,'g'), value)` of line 463. -/
def substitutePlaceholder (id value output : String) : Except Stop String := do
  let pat ← newPlaceholderRegExp id
  pure (String.mk (jsReplaceAll pat value.data output.data))

/-- One iteration of the loop over the fields: a static-text field leaves the output as it
is, every other field substitutes its value. -/
def substituteField (form : FormState) (output : String) (field : Field) :
    Except Stop String :=
  if field.type == "static-text" then pure output
  else
    match previewValue form field with
    | .ok value => substitutePlaceholder field.id value output
    | .error e => .error e

/-- The loop `formBlueprint.fields.forEach` of line 443, started on `output`. -/
def substituteFields (form : FormState) : List Field → String → Except Stop String
  | [], output => pure output
  | field :: rest, output =>
    match substituteField form output field with
    | .ok next => substituteFields form rest next
    | .error e => .error e

/-- The text that `renderOutputPreview` writes to the preview pane. -/
def renderOutputPreview (fields : List Field) (form : FormState) : Except Stop String :=
  substituteFields form fields (outputTemplate fields)

/-! ### Pieces: a reading of an output text as literal text and placeholders

These definitions are not in the source.  They describe the shape of the text that the
substitution loop works on, and the theorems of Part 2 relate the loop to them. -/

/-- A piece of output text: literal text, or the placeholder of an id. -/
inductive Piece where
  | text (s : List Char)
  | hole (id : String)
deriving DecidableEq, Repr

/-- The characters of a piece. -/
def Piece.chars : Piece → List Char
  | .text s => s
  | .hole id => (placeholder id).data

/-- The text that a list of pieces stands for. -/
def flattenPieces : List Piece → List Char
  | [] => []
  | p :: ps => p.chars ++ flattenPieces ps

/-- A piece is plain when its literal text has no opening brace and its placeholder has a
simple id. -/
def Piece.plain : Piece → Bool
  | .text s => !s.contains lbrace
  | .hole id => isSimpleId id

/-- Filling the placeholders of `id` with the text `v`. -/
def Piece.fill (id : String) (v : List Char) : Piece → Piece
  | .text s => .text s
  | .hole y => if y = id then .text v else .hole y

/-- The pieces of the template line of a field: the label with its colon and blank, then
the placeholder. -/
def linePieces (field : Field) : List Piece :=
  [.text (field.label ++ ": ").data, .hole field.id]

/-- The pieces of the lines after the first: each line comes after a line feed. -/
def followingLinePieces : List Field → List Piece
  | [] => []
  | field :: rest => Piece.text "\n".data :: (linePieces field ++ followingLinePieces rest)

/-- The pieces of the lines of a list of fields, with a line feed between two lines. -/
def joinedLinePieces : List Field → List Piece
  | [] => []
  | field :: rest => linePieces field ++ followingLinePieces rest

/-- The pieces of the compiled template. -/
def templatePieces (fields : List Field) : List Piece :=
  joinedLinePieces (fields.filter fun field => field.type != "static-text")

/-- What the passes of the given fields, in order, make of a piece when `value` gives the
value of each field: a placeholder is filled by the first non-static field that has its
id, with that field's value. -/
def Piece.resolve (value : Field → String) : List Field → Piece → Piece
  | [], p => p
  | field :: rest, p =>
    if field.type == "static-text" then Piece.resolve value rest p
    else Piece.resolve value rest (p.fill field.id (value field).data)

/-- The value of a field in a form when its queries succeed, the empty string otherwise. -/
def valueOrEmpty (form : FormState) (field : Field) : String :=
  match previewValue form field with
  | .ok value => value
  | .error _ => ""

/-! ### Renderer dispatch, live mode (`renderFormPreview`, lines 171-184, and the
`createPreview...` functions, lines 187-427) -/

/-- A DOM node as the live renderers build it: an element with the properties that the
code sets on it (in the order it sets them) and its children, or a text node. -/
inductive Node where
  | element (tag : String) (props : List (String × String)) (children : List Node)
  | text (content : String)

/-- The call `parent.appendChild(child)`. -/
def Node.appendChild : Node → Node → Node
  | .element tag props children, child => .element tag props (children ++ [child])
  | .text content, _ => .text content

/-- The suffix that marks a required field in a label. -/
def requiredMark (field : Field) : String := if field.required then " *" else ""

/-- The function `createFieldWrapper`: a `div` with the label of the field. -/
def createFieldWrapper (field : Field) : Node :=
  .element "div" [("className", "form-group")]
    [.element "label" [("for", "preview-" ++ field.id)]
      [.text (field.label ++ requiredMark field)]]

/-- The function `createPreviewInput`, the Text renderer of live mode. -/
def createPreviewInput (field : Field) : Node :=
  (createFieldWrapper field).appendChild
    (.element "input"
      [("id", "preview-" ++ field.id), ("name", field.id), ("type", "text"),
        ("placeholder", field.placeholder)] [])

/-- The function `createPreviewTextarea`. -/
def createPreviewTextarea (field : Field) : Node :=
  (createFieldWrapper field).appendChild
    (.element "textarea"
      [("id", "preview-" ++ field.id), ("name", field.id), ("rows", "3"),
        ("placeholder", field.placeholder)] [])

/-- The function `createPreviewStaticText`: the label text and, when `hoverInfo` is a
non-empty string, the info icon whose tooltip holds the parsed hover text as HTML. -/
def createPreviewStaticText (field : Field) : Node :=
  let wrapper : Node :=
    .element "div"
      [("className", "label-wrapper"), ("style.alignItems", "center"),
        ("style.marginBottom", "1.5rem")]
      [.element "p" [("className", "static-text-element")] [.text field.label]]
  match field.hoverInfo with
  | some hoverInfo =>
    if hoverInfo = "" then wrapper
    else
      wrapper.appendChild
        (.element "span" [("className", "info-icon")]
          [.text "i",
            .element "span"
              [("className", "tooltip-text"), ("innerHTML", parseSimpleMarkdown hoverInfo)] []])
  | none => wrapper

/-- The option list of a field for the loops guarded by
`field.options && field.options.length > 0`. -/
def optionsOrEmpty (field : Field) : List FieldOption := field.options.getD []

/-- The function `createPreviewCheckboxGroup`. -/
def createPreviewCheckboxGroup (field : Field) : Node :=
  .element "fieldset" [("className", "form-group")]
    [.element "legend" [] [.text (field.label ++ requiredMark field)],
      .element "div" [("className", "checkbox-group")]
        ((optionsOrEmpty field).map fun opt =>
          let checkboxId := "preview-" ++ field.id ++ "-" ++ toCamelCase opt.value
          .element "div" []
            [.element "input"
                [("type", "checkbox"), ("id", checkboxId), ("name", field.id),
                  ("value", opt.value)] [],
              .element "label" [("for", checkboxId)] [.text opt.value]])]

/-- The option elements of a searchable select. -/
def searchableOptions (field : Field) : Node :=
  .element "div" [("className", "searchable-select-options")]
    ((optionsOrEmpty field).map fun opt =>
      .element "div" [("className", "searchable-select-option"), ("dataset.value", opt.value)]
        [.text opt.value])

/-- The function `createPreviewSelect`: the tag selector of a multi-select field, or the
searchable dropdown of a single-select field; both end in the hidden input that holds the
committed value. -/
def createPreviewSelect (field : Field) : Node :=
  let wrapper := createFieldWrapper field
  let hiddenInput : Node :=
    .element "input" [("type", "hidden"), ("id", "preview-" ++ field.id), ("name", field.id)] []
  if field.isMultiSelect then
    let visibleInput : Node :=
      .element "input"
        [("type", "text"), ("className", "searchable-select-input"),
          ("id", "search-input-for-" ++ field.id),
          ("placeholder", jsOrElse field.placeholder "Search to add..."),
          ("autocomplete", "off")] []
    let container : Node :=
      .element "div" [("className", "searchable-select-container")]
        [visibleInput, searchableOptions field]
    let button : Node :=
      .element "button"
        [("className", "secondary"), ("type", "button"), ("dataset.action", "add-tag"),
          ("dataset.fieldId", field.id)] [.text "Add"]
    let inputGroup : Node :=
      .element "div" [("className", "tag-selector-input-group")] [container, button]
    let tagContainer : Node :=
      .element "div" [("className", "tag-container"), ("id", "tags-for-" ++ field.id)] []
    let removeAllBtn : Node :=
      .element "button"
        [("type", "button"), ("className", "remove-all-tags-btn"),
          ("title", "Remove all selected options"), ("dataset.action", "remove-all-tags"),
          ("dataset.fieldId", field.id)] [.text "Clear All"]
    let tagAreaWrapper : Node :=
      .element "div" [("className", "tag-area-wrapper")] [tagContainer, removeAllBtn]
    ((wrapper.appendChild inputGroup).appendChild tagAreaWrapper).appendChild hiddenInput
  else
    let visibleInput : Node :=
      .element "input"
        [("type", "text"), ("className", "searchable-select-input"),
          ("placeholder", jsOrElse field.placeholder "Search and select..."),
          ("autocomplete", "off")] []
    wrapper.appendChild
      (.element "div" [("className", "searchable-select-container")]
        [visibleInput, hiddenInput, searchableOptions field])

/-- The own properties of the object `fieldRenderers`. -/
def fieldRenderers : List (String × (Field → Node)) :=
  [("static-text", createPreviewStaticText),
    ("checkbox", createPreviewCheckboxGroup),
    ("textarea", createPreviewTextarea),
    ("searchable-dropdown", createPreviewSelect),
    ("text", createPreviewInput)]

/-- The names of the properties that an object literal inherits from `Object.prototype`
(the standard ones and those of Annex B).  A lookup with one of these keys does not give
`undefined` but an inherited member, which is not a renderer. -/
def objectPrototypeKeys : List String :=
  ["constructor", "hasOwnProperty", "isPrototypeOf", "propertyIsEnumerable", "toLocaleString",
    "toString", "valueOf", "__proto__", "__defineGetter__", "__defineSetter__",
    "__lookupGetter__", "__lookupSetter__"]

/-- The body of the loop of `renderFormPreview` for one field: the renderer is
`fieldRenderers[field.type] || fieldRenderers['text']` and its result is appended to the
container.  With an inherited key the lookup is truthy, and either the call or
`appendChild` (whose argument is then not a node) throws a `TypeError`. -/
def renderPreviewField (field : Field) : Except Stop Node :=
  match fieldRenderers.lookup field.type with
  | some renderer => .ok (renderer field)
  | none =>
    if objectPrototypeKeys.contains field.type then .error .typeError
    else .ok (createPreviewInput field)

/-- The children that the loop of `renderFormPreview` gives the container. -/
def renderPreviewFields : List Field → Except Stop (List Node)
  | [] => .ok []
  | field :: rest =>
    match renderPreviewField field with
    | .ok node =>
      match renderPreviewFields rest with
      | .ok nodes => .ok (node :: nodes)
      | .error e => .error e
    | .error e => .error e

/-! ### Renderer dispatch, export mode (`generateStandaloneHtml`, lines 1440-1485) -/

/-- The entry `'text'` of `exportFieldRenderers`, the Text renderer of export mode. -/
def exportText (field : Field) : String :=
  "<div class=\"form-group\"><label for=\"" ++ field.id ++ "\">" ++ field.label ++
    requiredMark field ++ "</label><input type=\"text\" id=\"" ++ field.id ++
    "\" name=\"" ++ field.id ++ "\" placeholder=\"" ++ field.placeholder ++ "\"></div>"

/-- The entry `'textarea'` of `exportFieldRenderers`. -/
def exportTextarea (field : Field) : String :=
  "<div class=\"form-group\"><label for=\"" ++ field.id ++ "\">" ++ field.label ++
    requiredMark field ++ "</label><textarea id=\"" ++ field.id ++ "\" name=\"" ++
    field.id ++ "\" rows=\"3\" placeholder=\"" ++ field.placeholder ++ "\"></textarea></div>"

/-- The entry `'static-text'` of `exportFieldRenderers`. -/
def exportStaticText (field : Field) : String :=
  match field.hoverInfo with
  | some hoverInfo =>
    if hoverInfo = "" then "<p class=\"static-text-element\">" ++ field.label ++ "</p>"
    else
      let parsedInfo := parseSimpleMarkdown hoverInfo
      let iconHtml :=
        "<span class=\"info-icon\">i<span class=\"tooltip-text\">" ++ parsedInfo ++
          "</span></span>"
      "<div class=\"label-wrapper\" style=\"align-items: center; margin-bottom: 1.5rem;\"><p class=\"static-text-element\" style=\"margin: 0; flex-grow: 1;\">" ++
        field.label ++ "</p>" ++ iconHtml ++ "</div>"
  | none => "<p class=\"static-text-element\">" ++ field.label ++ "</p>"

/-- The entry `'searchable-dropdown'` of `exportFieldRenderers`.  `field.options.map`
throws a `TypeError` when the field has no `options`. -/
def exportDropdown (field : Field) : Except Stop String :=
  match field.options with
  | none => .error .typeError
  | some options =>
    let optionsHtml :=
      jsJoin "" (options.map fun opt =>
        "<option value=\"" ++ opt.value ++ "\">" ++ opt.value ++ "</option>")
    if field.isMultiSelect then
      let selectHtml :=
        "<select id=\"select-for-" ++ field.id ++
          "\" style=\"flex-grow: 1;\"><option value=\"\" disabled selected>" ++
          jsOrElse field.placeholder "Select..." ++ "</option>" ++ optionsHtml ++ "</select>"
      let buttonHtml :=
        "<button type=\"button\" class=\"secondary\" data-action=\"add-tag\" data-field-id=\"" ++
          field.id ++ "\">Add</button>"
      let tagAreaHtml :=
        "<div class=\"tag-area-wrapper\">\n                                            <div class=\"tag-container\" id=\"tags-for-" ++
          field.id ++
          "\"></div>\n                                            <button type=\"button\" class=\"remove-all-tags-btn\" data-action=\"remove-all-tags\" data-field-id=\"" ++
          field.id ++ "\">Clear All</button>\n                                         </div>"
      let hiddenInputHtml :=
        "<input type=\"hidden\" id=\"" ++ field.id ++ "\" name=\"" ++ field.id ++ "\">"
      .ok ("<div class=\"form-group\">\n                                <label for=\"select-for-" ++
        field.id ++ "\">" ++ field.label ++ requiredMark field ++
        "</label>\n                                <div class=\"tag-selector-input-group\">" ++
        selectHtml ++ buttonHtml ++ "</div>\n                                " ++ tagAreaHtml ++
        "\n                                " ++ hiddenInputHtml ++
        "\n                            </div>")
    else
      let selectHtml :=
        "<select id=\"" ++ field.id ++ "\" name=\"" ++ field.id ++
          "\"><option value=\"\" disabled selected>" ++ jsOrElse field.placeholder "Select..." ++
          "</option>" ++ optionsHtml ++ "</select>"
      .ok ("<div class=\"form-group\"><label for=\"" ++ field.id ++ "\">" ++ field.label ++
        requiredMark field ++ "</label>" ++ selectHtml ++ "</div>")

/-- The entry `'checkbox'` of `exportFieldRenderers`.  `field.options.map` throws a
`TypeError` when the field has no `options`. -/
def exportCheckbox (field : Field) : Except Stop String :=
  match field.options with
  | none => .error .typeError
  | some options =>
    let checkboxes :=
      jsJoin "" (options.map fun opt =>
        "<div><input type=\"checkbox\" id=\"" ++ field.id ++ "-" ++ toCamelCase opt.value ++
          "\" name=\"" ++ field.id ++ "\" value=\"" ++ opt.value ++ "\"><label for=\"" ++
          field.id ++ "-" ++ toCamelCase opt.value ++ "\">" ++ opt.value ++ "</label></div>")
    .ok ("<fieldset class=\"form-group\"><legend>" ++ field.label ++ requiredMark field ++
      "</legend><div class=\"checkbox-group\">" ++ checkboxes ++ "</div></fieldset>")

/-- The own properties of the object `exportFieldRenderers`. -/
def exportFieldRenderers : List (String × (Field → Except Stop String)) :=
  [("text", fun field => .ok (exportText field)),
    ("textarea", fun field => .ok (exportTextarea field)),
    ("static-text", fun field => .ok (exportStaticText field)),
    ("searchable-dropdown", exportDropdown),
    ("checkbox", exportCheckbox)]

/-- The callback of `generateFormFieldsHtml` for one field, as `join` then turns its result
into text: the renderer is `exportFieldRenderers[field.type]`, or a function that returns
the empty string when the lookup gives `undefined`.  Of the inherited keys, `constructor`
returns its argument (the field object, whose text is `[object Object]`), `toString`
called without a receiver returns `[object Undefined]`, and the others throw a
`TypeError`. -/
def exportFieldHtml (field : Field) : Except Stop String :=
  match exportFieldRenderers.lookup field.type with
  | some renderer => renderer field
  | none =>
    if field.type = "constructor" then .ok "[object Object]"
    else if field.type = "toString" then .ok "[object Undefined]"
    else if objectPrototypeKeys.contains field.type then .error .typeError
    else .ok ""

/-- The results of the callback of `generateFormFieldsHtml` for all fields. -/
def exportFieldsHtml : List Field → Except Stop (List String)
  | [] => .ok []
  | field :: rest =>
    match exportFieldHtml field with
    | .ok html =>
      match exportFieldsHtml rest with
      | .ok htmls => .ok (html :: htmls)
      | .error e => .error e
    | .error e => .error e

/-- The function `generateFormFieldsHtml`: the markup of the fields joined with line feeds. -/
def generateFormFieldsHtml (fields : List Field) : Except Stop String :=
  match exportFieldsHtml fields with
  | .ok htmls => .ok (jsJoin "\n" htmls)
  | .error e => .error e

/-- The function `generateStandaloneHtml`.  Its result is one template literal.  The
substitutions of that literal are evaluated in order when the function runs: the form
name and subtitle, the call `generateFormFieldsHtml()`, the two `JSON.stringify` calls,
and, in the text of the embedded `generateOutput` (line 1572), the substitution
`field.id`, whose dollar sign is not escaped.  No scope around the literal binds the
identifier `field` (the function's own names are `blueprint`, `outputTemplateString`,
`exportFieldRenderers` and `generateFormFieldsHtml`, and the enclosing callback declares
no `field`), so evaluating that substitution throws a `ReferenceError` and the function
never returns a document. -/
def generateStandaloneHtml (blueprint : Blueprint) : Except Stop String :=
  match generateFormFieldsHtml blueprint.fields with
  | .ok _ => .error (.referenceError "field")
  | .error e => .error e

/-! ### The value resolution of the embedded `generateOutput` (lines 1562-1571) -/

/-- An element of the exported document: its `id`, its `name`, whether it is a checkbox
input, its `value` property (`none` when the element has none) and its checked state. -/
structure DocElement where
  id : String
  name : String
  isCheckbox : Bool
  value : Option String
  checked : Bool
deriving DecidableEq, Repr

/-- The call `document.getElementById`: the first element with the id. -/
def getElementById (doc : List DocElement) (id : String) : Option DocElement :=
  doc.find? fun el => el.id == id

/-- The variable `value` of one iteration of the loop of the embedded `generateOutput`: for
a checkbox field the joined values of the checked inputs of the group, or `None` when that
text is empty; otherwise the value of the element whose id is the field id when it is
non-empty, or `N/A`. -/
def generateOutputValue (doc : List DocElement) (field : Field) : Except Stop String :=
  if field.type == "checkbox" then
    if isPlainSelectorText field.id then
      let checked :=
        jsJoin ", "
          ((doc.filter fun el => el.isCheckbox && el.name == field.id && el.checked).map
            fun el => el.value.getD "")
      .ok (jsOrElse checked "None")
    else .error .outsideModel
  else
    match getElementById doc field.id with
    | some element =>
      match element.value with
      | some v => .ok (if v != "" then v else "N/A")
      | none => .ok "N/A"
    | none => .ok "N/A"

/-! ### The add action of a multi-select field (click handler, lines 636-675) -/

/-- The state that the add action reads and writes: the value of the search input
`#search-input-for-<id>`, the value of the hidden input `#preview-<id>`, the values of the
tags in `#tags-for-<id>` in order, and the notification shown last (its message and
whether it is an error).  The three elements are created together with the Add button.
A tag is the element that the add action appends for a value; its text is written through
`innerHTML`, so the list describes the tags only for values without a `<`. -/
structure TagSelector where
  searchValue : String
  hiddenValue : String
  tags : List String
  notification : Option (String × Bool)
deriving DecidableEq, Repr

/-- A text that continues a CSS identifier as itself: ASCII letters, digits, underscores and
hyphens.  The id selectors that the click handler builds from a field id name the elements
with exactly that id only for such ids. -/
def isSelectorIdentText (s : String) : Bool :=
  s.data.all fun c => isWordChar c || c == Char.ofNat 45

/-- The message of the warning for a value that is not an option. -/
def invalidOptionMessage (valueToAdd : String) : String :=
  "\"" ++ valueToAdd ++ "\" is not a valid option."

/-- The branch `if (addTagButton)` of the click handler for the button of `fieldId`, when
the three id selectors find their elements (ids that do not continue a CSS identifier are
outside the model).  Nothing happens when the search input is empty.  Otherwise the trimmed input is checked
against the options of the first field of the blueprint with that id
(`field.options.some` throws a `TypeError` when that field has no `options`); a value
that is not an option raises the warning and returns.  A valid value that is not yet among
the comma-separated committed values is appended as a tag and to the hidden input (a value
with a `<` is outside the model: `innerHTML` may read it as markup); the search input is
then reset. -/
def addTag (fields : List Field) (fieldId : String) (s : TagSelector) :
    Except Stop TagSelector :=
  if !isSelectorIdentText fieldId then .error .outsideModel
  else if s.searchValue = "" then .ok s
  else
    let valueToAdd := jsTrim s.searchValue
    let warned : TagSelector :=
      { s with notification := some (invalidOptionMessage valueToAdd, true) }
    match fields.find? fun f => f.id == fieldId with
    | none => .ok warned
    | some field =>
      match field.options with
      | none => .error .typeError
      | some options =>
        if !(options.any fun opt => opt.value == valueToAdd) then .ok warned
        else
          let currentValues :=
            if s.hiddenValue = "" then [] else jsSplit (Char.ofNat 44) s.hiddenValue
          if currentValues.contains valueToAdd then .ok { s with searchValue := "" }
          else if valueToAdd.data.contains (Char.ofNat 60) then .error .outsideModel
          else
            .ok { s with
              tags := s.tags ++ [valueToAdd]
              hiddenValue := jsJoin "," (currentValues ++ [valueToAdd])
              searchValue := "" }

/-! ### Reference notions for the identifier deriver

These definitions are not in the source; the theorems about `toCamelCase` compare it with
them. -/

/-- A word with its first character in lower case. -/
def lowerFirst : List Char → List Char
  | [] => []
  | c :: cs => c.toLower :: cs

/-- A word with its first character in upper case. -/
def upperFirst : List Char → List Char
  | [] => []
  | c :: cs => c.toUpper :: cs

/-- Two characters are the same up to the case of an ASCII letter. -/
def sameUpToCase (a b : Char) : Prop :=
  a = b ∨ (a.isAlpha = true ∧ b.isAlpha = true ∧ a.toLower = b.toLower)

instance (a b : Char) : Decidable (sameUpToCase a b) := by
  unfold sameUpToCase; infer_instance

/-! ### A sequence of add actions

A scenario, not a function of the source: the user types a text into the search input and
presses Add, for each text of a list in turn. -/

/-- The comma, which separates the committed values of a multi-select field. -/
def comma : Char := Char.ofNat 44

/-- The state of a multi-select field right after rendering: empty search input, empty hidden
input, no tag, no notification. -/
def emptyTagSelector : TagSelector :=
  { searchValue := "", hiddenValue := "", tags := [], notification := none }

/-- Typing each text of the list into the search input and pressing Add after each. -/
def addTags (fields : List Field) (fieldId : String) :
    List String → TagSelector → Except Stop TagSelector
  | [], s => .ok s
  | typed :: rest, s =>
    match addTag fields fieldId { s with searchValue := typed } with
    | .ok next => addTags fields fieldId rest next
    | .error e => .error e

/-! ### Reference notions for the markdown-lite parser

The escaping the parser is meant to perform, named `esc` in the description of the
parser, the tags the parser writes, and the shape of a text that is built from harmless
characters and whole segments written by the parser. -/

def lessThan : Char := Char.ofNat 60

def greaterThan : Char := Char.ofNat 62

/-- The escaping of one character. -/
def escapeChar (c : Char) : List Char :=
  if c = ampersand then "&amp;".data
  else if c = lessThan then "&lt;".data
  else if c = greaterThan then "&gt;".data
  else [c]

/-- The escaping `esc`: every character is escaped on its own, in one pass. -/
def escapeHtml (text : List Char) : List Char :=
  text.flatMap escapeChar

/-- The tags of the parser: each is the start of an element or a whole closing tag. -/
def parserTags : List (List Char) :=
  ["<strong>".data, "</strong>".data, "<em>".data, "</em>".data, "<a href=\"".data,
   "</a>".data]

/-- The end of the anchor's opening tag, after the url. -/
def anchorTail : List Char :=
  "\" target=\"_blank\" rel=\"noopener noreferrer\">".data

/-- A text made of characters other than the two angle brackets and of whole segments
from `segs`. -/
inductive Segmented (segs : List (List Char)) : List Char → Prop
  | nil : Segmented segs []
  | char (c : Char) (rest : List Char) :
      c ≠ lessThan → c ≠ greaterThan → Segmented segs rest → Segmented segs (c :: rest)
  | seg (s rest : List Char) :
      s ∈ segs → Segmented segs rest → Segmented segs (s ++ rest)

/-- The escaping `esc` on strings. -/
def esc (text : String) : String :=
  String.mk (escapeHtml text.data)

/-! ### Export and import of a blueprint as JSON (`exportAsJson`, lines 1353-1369;
`handleFileImport`, lines 1371-1412)

A file's content is modelled by the JSON value it denotes: `JSON.stringify` followed by
`JSON.parse` gives back the value, and a text that is not JSON makes `JSON.parse` throw.
The variable `formBlueprint` holds a JavaScript object, which after an import carries
whatever values the imported document had; it is modelled as a JSON value. -/

/-- A JSON value.  The members of an object are in insertion order. -/
inductive JsonValue where
  | null
  | bool (b : Bool)
  | number (n : Int)
  | string (s : String)
  | array (items : List JsonValue)
  | object (members : List (String × JsonValue))

/-- An option `{ group, value }` as a JavaScript object. -/
def FieldOption.toJson (o : FieldOption) : JsonValue :=
  .object [("group", .string o.group), ("value", .string o.value)]

/-- A field as the JavaScript object that `addNewField` (lines 498-515) creates and the
edit dialog (lines 909-947) fills in: `options` is present for the types that have
options, `isMultiSelect` for a searchable dropdown, `hoverInfo` when there is some. -/
def Field.toJson (f : Field) : JsonValue :=
  .object
    ([("label", .string f.label), ("id", .string f.id), ("type", .string f.type),
      ("required", .bool f.required), ("placeholder", .string f.placeholder)] ++
     (match f.options with
      | some options => [("options", .array (options.map FieldOption.toJson))]
      | none => []) ++
     (if f.type = "searchable-dropdown" ∨ f.isMultiSelect = true then
        [("isMultiSelect", .bool f.isMultiSelect)]
      else []) ++
     (match f.hoverInfo with
      | some info => [("hoverInfo", .string info)]
      | none => []))

/-- A blueprint as the JavaScript object held by `formBlueprint` (lines 15-20). -/
def Blueprint.toJson (b : Blueprint) : JsonValue :=
  .object
    [("id", match b.id with
            | some key => .number key
            | none => .null),
     ("formName", .string b.formName),
     ("formSubtitle", .string b.formSubtitle),
     ("fields", .array (b.fields.map Field.toJson))]

/-- The statement `delete object.key`. -/
def deleteMember (key : String) : JsonValue → JsonValue
  | .object members => .object (members.filter fun member => member.1 != key)
  | value => value

/-- The content of the file that `exportAsJson` writes: a copy of the blueprint made by
`JSON.parse(JSON.stringify(formBlueprint))`, without its `id`. -/
def exportAsJson (formBlueprint : JsonValue) : JsonValue :=
  deleteMember "id" formBlueprint

/-- Reading one of the members `formName`, `fields` and `formSubtitle` of the imported
document: reading a member of `null` throws a `TypeError`; an object has the member or
not; an array, a string, a number and a boolean have no member of these names. -/
def importedMember (name : String) : JsonValue → Except Stop (Option JsonValue)
  | .null => .error .typeError
  | .object members => .ok (members.lookup name)
  | _ => .ok none

/-- Truthiness of a value, `undefined` for an absent member being falsy. -/
def isTruthy : Option JsonValue → Bool
  | none => false
  | some .null => false
  | some (.bool b) => b
  | some (.number n) => n != 0
  | some (.string s) => s != ""
  | some _ => true

def defaultSubtitle : String := "A custom-built template for call outputs."

def importSucceeded : String := "Blueprint imported successfully! Remember to save it."

def importFailed : String := "Import failed. File may be corrupt or not a valid blueprint."

/-- The blueprint in memory and the notification on display. -/
structure BuilderState where
  formBlueprint : JsonValue
  notification : Option (String × Bool)

/-- The `catch` block of `handleFileImport`: the failure notification. -/
def importCatch (state : BuilderState) : BuilderState :=
  { state with notification := some (importFailed, true) }

/-- The update of the page after the blueprint was loaded (lines 1394-1399).  Without
fields each of the three render functions takes its branch for an empty form; with
fields the outcome of rendering them is `renderFields`. -/
def updateAfterImport (renderFields : List JsonValue → Except Stop Unit)
    (fields : List JsonValue) : Except Stop Unit :=
  if fields.isEmpty then .ok () else renderFields fields

/-- The `onload` handler of `handleFileImport`, given the outcome `parsed` of
`JSON.parse` on the file's text. -/
def handleFileImport (renderFields : List JsonValue → Except Stop Unit)
    (parsed : Except Stop JsonValue) (state : BuilderState) : BuilderState :=
  match parsed with
  | .error _ => importCatch state
  | .ok importedData =>
    match importedMember "formName" importedData with
    | .ok (some (.string formName)) =>
      match importedMember "fields" importedData with
      | .ok (some (.array fields)) =>
        match importedMember "formSubtitle" importedData with
        | .ok formSubtitle =>
          let loaded : BuilderState :=
            { state with
              formBlueprint :=
                .object
                  [("id", .null),
                   ("formName", .string formName),
                   ("formSubtitle",
                     if isTruthy formSubtitle then formSubtitle.getD .null
                     else .string defaultSubtitle),
                   ("fields", .array fields)] }
          match updateAfterImport renderFields fields with
          | .ok _ => { loaded with notification := some (importSucceeded, false) }
          | .error _ => importCatch loaded
        | .error _ => importCatch state
      | _ => importCatch state
    | _ => importCatch state


/-! ### The remove actions of a multi-select field (click handler, lines 677-705) -/

/-- The branch `if (removeTagButton)` of the click handler for the remove button of the
tag at position `index` among the displayed tags of `fieldId` (no such button exists
beyond the last tag).  The tag element is removed, and the committed values other than the
tag's value are joined into the hidden input. -/
def removeTag (fieldId : String) (index : Nat) (s : TagSelector) : Except Stop TagSelector :=
  if !isSelectorIdentText fieldId then .error .outsideModel
  else
    match s.tags.get? index with
    | none => .ok s
    | some valueToRemove =>
      let currentValues :=
        if s.hiddenValue = "" then [] else jsSplit (Char.ofNat 44) s.hiddenValue
      .ok { s with
        tags := s.tags.eraseIdx index
        hiddenValue := jsJoin "," (currentValues.filter fun v => v != valueToRemove) }

/-- The branch `if (removeAllButton)` of the click handler: the tag container and the hidden
input are emptied. -/
def removeAllTags (fieldId : String) (s : TagSelector) : Except Stop TagSelector :=
  if !isSelectorIdentText fieldId then .error .outsideModel
  else .ok { s with tags := [], hiddenValue := "" }

/-- A click on one of the three buttons of a tag selector: Add with the text typed into
the search input, the remove button of the tag at a position, or Clear all. -/
inductive TagAction where
  | add (typed : String)
  | remove (index : Nat)
  | removeAll
deriving DecidableEq, Repr

/-- The effect of one click. -/
def tagAction (fields : List Field) (fieldId : String) (s : TagSelector) :
    TagAction → Except Stop TagSelector
  | .add typed => addTag fields fieldId { s with searchValue := typed }
  | .remove index => removeTag fieldId index s
  | .removeAll => removeAllTags fieldId s

/-- The effect of a sequence of clicks. -/
def tagActions (fields : List Field) (fieldId : String) :
    List TagAction → TagSelector → Except Stop TagSelector
  | [], s => .ok s
  | action :: rest, s =>
    match tagAction fields fieldId s action with
    | .ok next => tagActions fields fieldId rest next
    | .error e => .error e

/-! ### The add/edit dialog (`addNewField`, lines 497-516; `openEditModal`, lines 776-815;
the click handler of `modalSaveBtn`, lines 910-953) -/

/-- The inputs of the dialog: the value of `modalFieldLabelInput`, the checked state of
`modalFieldRequired` and of `modalFieldIsMultiSelect`, and the values of
`modalHoverInfoTextarea` and `modalPlaceholderInput`. -/
structure ModalInputs where
  label : String
  required : Bool
  isMultiSelect : Bool
  hoverInfo : String
  placeholder : String
deriving DecidableEq, Repr

/-- The dialog while it is open: the object under edit, its position in the blueprint
(`none` for the index -1 of a new field), the inputs, and `sharedWith`, the positions of
`formBlueprint.fields` whose element is the object under edit itself.  `openEditModal`
edits a copy, which no position holds; after a save whose `render()` threw, the dialog is
still open on the object that the save has put into the array. -/
structure EditModal where
  currentlyEditingField : Field
  currentlyEditingIndex : Option Nat
  inputs : ModalInputs
  sharedWith : List Nat
deriving DecidableEq, Repr

/-- The object `newField` of `addNewField`: required unless the type is static text, with
an empty option list for the two types that have options. -/
def newField (type : String) : Field :=
  { label := ""
    id := ""
    type := type
    required := if type = "static-text" then false else true
    placeholder := ""
    options := if type = "searchable-dropdown" ∨ type = "checkbox" then some [] else none
    isMultiSelect := false
    hoverInfo := none }

/-- The function `openEditModal`: the field is copied, and the inputs that belong to its
type are filled from it; the other inputs keep what they held. -/
def openEditModal (inputs : ModalInputs) (field : Field) (index : Option Nat) : EditModal :=
  { currentlyEditingField := field
    currentlyEditingIndex := index
    inputs :=
      { label := field.label
        required := field.required
        isMultiSelect :=
          if field.type = "searchable-dropdown" then field.isMultiSelect
          else inputs.isMultiSelect
        hoverInfo :=
          if field.type = "static-text" then field.hoverInfo.getD "" else inputs.hoverInfo
        placeholder :=
          if field.type = "text" ∨ field.type = "textarea" then field.placeholder
          else inputs.placeholder }
    sharedWith := [] }

/-- The function `addNewField`: the dialog opened on a new field of the given type. -/
def addNewField (inputs : ModalInputs) (type : String) : EditModal :=
  openEditModal inputs (newField type) none

/-- What the save handler leaves behind: the field list of the blueprint, the text of the
alert, if it raised one, and the dialog, if it is still open (`closeEditModal` sets
`currentlyEditingField` to `null`). -/
structure SaveResult where
  fields : List Field
  alert : Option String
  modal : Option EditModal
deriving DecidableEq, Repr

/-- The field that the save handler makes of the object under edit with the inputs
(lines 919-941), for the trimmed label `newLabel`. -/
def editedField (modal : EditModal) (newLabel : String) : Field :=
  let named : Field :=
    { modal.currentlyEditingField with
      label := newLabel
      id := toCamelCase newLabel
      required := modal.inputs.required }
  let selected : Field :=
    if named.type = "searchable-dropdown" then
      { named with isMultiSelect := modal.inputs.isMultiSelect }
    else named
  let hovered : Field :=
    if selected.type = "static-text" then
      let hoverInfo := jsTrim modal.inputs.hoverInfo
      if hoverInfo ≠ "" then { selected with hoverInfo := some hoverInfo }
      else { selected with hoverInfo := none }
    else selected
  if hovered.type = "text" ∨ hovered.type = "textarea" then
    { hovered with placeholder := modal.inputs.placeholder }
  else if hovered.type = "searchable-dropdown" then
    { hovered with placeholder := "Select " ++ newLabel ++ "..." }
  else hovered

/-- The writes of lines 919-941 go to the object under edit: every position of the array
that holds this object shows the edited field. -/
def writeShared (positions : List Nat) (field : Field) (fields : List Field) : List Field :=
  positions.foldl (fun shown position => shown.set position field) fields

/-- The function `render` (lines 472-477) as far as it can throw: `renderFieldList` only
writes markup, `renderFormPreview` builds the element of every field, and
`renderOutputPreview` substitutes the values of `form`, the controls of the preview form
that has just been built. -/
def render (form : FormState) (fields : List Field) : Except Stop Unit :=
  match renderPreviewFields fields with
  | .error e => .error e
  | .ok _ =>
    match renderOutputPreview fields form with
    | .ok _ => .ok ()
    | .error e => .error e

/-- The click handler of `modalSaveBtn`; `form` is the preview form that `render()` builds.
An empty trimmed label raises the alert and returns.  Otherwise the object under edit is
written, then pushed for a new field and assigned at its index for an existing one (an
index beyond the length would leave holes in the array, which a list does not describe).
When `render()` returns, `closeEditModal()` closes the dialog; when it throws, the handler
ends there and the dialog stays open on the object that the array now holds. -/
def modalSave (form : FormState) (modal : EditModal) (fields : List Field) :
    Except Stop SaveResult :=
  let newLabel := jsTrim modal.inputs.label
  if newLabel = "" then
    .ok { fields := fields, alert := some "Field Label cannot be empty.", modal := some modal }
  else
    let field := editedField modal newLabel
    let written := writeShared modal.sharedWith field fields
    let position := (modal.currentlyEditingIndex.getD written.length)
    if position > written.length then .error .outsideModel
    else
      let committed :=
        if position < written.length then written.set position field else written ++ [field]
      match render form committed with
      | .ok _ => .ok { fields := committed, alert := none, modal := none }
      | .error .outsideModel => .error .outsideModel
      | .error _ =>
        .ok { fields := committed
              alert := none
              modal :=
                some { modal with
                  currentlyEditingField := field
                  sharedWith := modal.sharedWith ++ [position] } }

/-! ### Duplication (`handleDuplicateBlueprint`, lines 1194-1219) -/

/-- The assignment `object.key = value`: an existing member keeps its place, a new one
comes last. -/
def setMember (key : String) (value : JsonValue) (members : List (String × JsonValue)) :
    List (String × JsonValue) :=
  if members.any fun member => member.1 == key then
    members.map fun member => if member.1 == key then (member.1, value) else member
  else members ++ [(key, value)]

/-- The text that a template literal makes of a value, for the values whose text this
development describes: an absent member, `null`, a boolean and a string. -/
def templateText : Option JsonValue → Except Stop String
  | none => .ok "undefined"
  | some .null => .ok "null"
  | some (.bool b) => .ok (if b then "true" else "false")
  | some (.string s) => .ok s
  | some _ => .error .outsideModel

/-- The call `render()` on a blueprint: reading the length of `fields` or calling its
`forEach` throws a `TypeError` unless `fields` is an array. -/
def renderBlueprint (renderFields : List JsonValue → Except Stop Unit)
    (members : List (String × JsonValue)) : Except Stop Unit :=
  match members.lookup "fields" with
  | some (.array fields) => updateAfterImport renderFields fields
  | _ => .error .typeError

def duplicateNeedsBlueprint : String := "Please load a blueprint to duplicate."

def duplicated : String :=
  "Blueprint duplicated. You can now edit and save it as a new blueprint."

/-- The function `handleDuplicateBlueprint`.  The variable `formBlueprint` always holds an
object; other values are outside the model.  With a null `id` the function notifies and
returns.  Otherwise the copy made by `JSON.parse(JSON.stringify(formBlueprint))` gets a
null `id` and the new `formName` and becomes the blueprint; the result is the state in
which the function ends, with the closing notification when `render()` did not throw. -/
def handleDuplicateBlueprint (renderFields : List JsonValue → Except Stop Unit)
    (state : BuilderState) : Except Stop BuilderState :=
  match state.formBlueprint with
  | .object members =>
    match members.lookup "id" with
    | some .null => .ok { state with notification := some (duplicateNeedsBlueprint, true) }
    | _ =>
      match templateText (members.lookup "formName") with
      | .ok formName =>
        let newBlueprint :=
          setMember "formName" (.string (formName ++ " (Copy)")) (setMember "id" .null members)
        let loaded : BuilderState := { state with formBlueprint := .object newBlueprint }
        match renderBlueprint renderFields newBlueprint with
        | .ok _ => .ok { loaded with notification := some (duplicated, false) }
        | .error _ => .ok loaded
      | .error e => .error e
  | _ => .error .outsideModel

/-! ### Log entries (`logCase`, lines 993-1036) -/

/-- A value recorded for a field: the value of its control, or the values of the checked
boxes of a checkbox group. -/
inductive LogValue where
  | text (value : String)
  | list (values : List String)
deriving DecidableEq, Repr

/-- A log entry.  `timestamp` is the text that `toISOString` gives for the entry's date, and
`data` the members of the object `data` in insertion order. -/
structure LogEntry where
  blueprintId : Nat
  timestamp : String
  data : List (String × LogValue)
  fullOutput : String
deriving DecidableEq, Repr

/-- The assignment `logEntry.data[id] = value` on the object literal `data`.  With the key
`__proto__` the assignment does not create a member, which the development does not
describe. -/
def recordValue (id : String) (value : LogValue) (data : List (String × LogValue)) :
    Except Stop (List (String × LogValue)) :=
  if id = "__proto__" then .error .outsideModel
  else if data.any fun member => member.1 == id then
    .ok (data.map fun member => if member.1 == id then (member.1, value) else member)
  else .ok (data ++ [(id, value)])

/-- The loop of `logCase` that fills `data` (lines 1015-1024): a checkbox group records
the values of its checked boxes, every other non-static field the value of its control
when the form has one. -/
def recordData (form : FormState) :
    List Field → List (String × LogValue) → Except Stop (List (String × LogValue))
  | [], data => .ok data
  | field :: rest, data =>
    if field.type == "static-text" then recordData form rest data
    else
      match querySelectorByName form field.id with
      | .error e => .error e
      | .ok element =>
        if field.type == "checkbox" then
          match querySelectorAllChecked form field.id with
          | .error e => .error e
          | .ok checked =>
            match recordValue field.id (.list (checked.map fun cb => cb.value)) data with
            | .ok next => recordData form rest next
            | .error e => .error e
        else
          match element with
          | some el =>
            match recordValue field.id (.text el.value) data with
            | .ok next => recordData form rest next
            | .error e => .error e
          | none => recordData form rest data

/-- The function `clearPreviewForm` on the controls: every box is unchecked and every
other control gets the empty value. -/
def clearPreviewForm (form : FormState) : FormState :=
  form.map fun el =>
    if el.kind == .checkbox then { el with checked := false } else { el with value := "" }

/-- What `logCase` reads and writes: the text content of `previewOutput`, the controls of
the preview form, the table `caseLogs`, the text on the clipboard, if one was written, and
the notification shown last. -/
structure CaseState where
  previewOutput : String
  form : FormState
  caseLogs : List LogEntry
  clipboard : Option String
  notification : Option (String × Bool)
deriving DecidableEq, Repr

/-- What the surroundings decide in a run of `logCase`: the date, whether `caseLogs.add`,
`clipboard.writeText` and the reload of the log list succeed. -/
structure LogEnvironment where
  now : String
  addSucceeds : Bool
  writeSucceeds : Bool
  reloadSucceeds : Bool
deriving DecidableEq, Repr

def outputPlaceholderText : String := "Your output template will be previewed here."

def loggedMessage : String := "Copied to clipboard and logged!"

def logErrorMessage : String := "Error logging case."

/-- The function `logCase`.  Without a saved blueprint or without an output it notifies
and returns.  Otherwise it builds the entry from the text of the preview pane and the
values in the form; inside the `try` block it adds the entry, writes the text to the
clipboard, notifies, clears the form (which renders the output again, line 466) and
reloads the log list; an exception in that block leads to the error notification. -/
def logCase (blueprint : Blueprint) (env : LogEnvironment) (state : CaseState) :
    Except Stop CaseState :=
  match blueprint.id with
  | none =>
    .ok { state with
      notification := some ("Please save the blueprint before logging cases.", true) }
  | some blueprintId =>
    let outputText := state.previewOutput
    if outputText = "" ∨ outputText = outputPlaceholderText then
      .ok { state with notification := some ("Output is empty, nothing to log.", true) }
    else
      match recordData state.form blueprint.fields [] with
      | .error e => .error e
      | .ok data =>
        let logEntry : LogEntry :=
          { blueprintId := blueprintId, timestamp := env.now, data := data,
            fullOutput := outputText }
        let failed (s : CaseState) : CaseState :=
          { s with notification := some (logErrorMessage, true) }
        if !env.addSucceeds then .ok (failed state)
        else
          let added : CaseState := { state with caseLogs := state.caseLogs ++ [logEntry] }
          if !env.writeSucceeds then .ok (failed added)
          else
            let copied : CaseState :=
              { added with
                clipboard := some outputText
                notification := some (loggedMessage, false) }
            let cleared : CaseState := { copied with form := clearPreviewForm copied.form }
            match renderOutputPreview blueprint.fields cleared.form with
            | .error _ => .ok (failed cleared)
            | .ok output =>
              let rendered : CaseState := { cleared with previewOutput := output }
              if !env.reloadSucceeds then .ok (failed rendered) else .ok rendered

/-! ### The CSV export of the log history (`downloadLogHistory`, lines 1221-1262) -/

/-- The text of a recorded value in a cell: an array is joined with a semicolon and a
blank. -/
def LogValue.asText : LogValue → String
  | .text value => value
  | .list values => jsJoin "; " values

/-- The expression `log.data[field.id] || ''` and the join of an array, as text.  A key
that `data` does not have but `Object.prototype` has gives an inherited function, whose
text the development does not describe. -/
def recordedText (log : LogEntry) (id : String) : Except Stop String :=
  match log.data.lookup id with
  | some value => .ok value.asText
  | none => if objectPrototypeKeys.contains id then .error .outsideModel else .ok ""

/-- The quoting of a cell: every double quote is doubled and the text is put between
double quotes. -/
def csvQuote (value : String) : String :=
  "\"" ++ String.mk (replaceChar (Char.ofNat 34) "\"\"".data value.data) ++ "\""

/-- The cells that the loop over the fields pushes for a log entry. -/
def logCells (log : LogEntry) : List Field → Except Stop (List String)
  | [] => .ok []
  | field :: rest =>
    if field.type == "static-text" then logCells log rest
    else
      match recordedText log field.id with
      | .error e => .error e
      | .ok value =>
        match logCells log rest with
        | .ok cells => .ok (csvQuote value :: cells)
        | .error e => .error e

/-- The row of a log entry: the timestamp, the cells and the quoted full output, joined
with commas. -/
def logRow (fields : List Field) (log : LogEntry) : Except Stop String :=
  match logCells log fields with
  | .ok cells => .ok (jsJoin "," ([log.timestamp] ++ cells ++ [csvQuote log.fullOutput]))
  | .error e => .error e

/-- The rows of the log entries, each followed by a line feed. -/
def logRows (fields : List Field) : List LogEntry → Except Stop String
  | [] => .ok ""
  | log :: rest =>
    match logRow fields log with
    | .error e => .error e
    | .ok row =>
      match logRows fields rest with
      | .ok rows => .ok (row ++ "\n" ++ rows)
      | .error e => .error e

/-- The outcome of `downloadLogHistory`: a notification, or the content of the file. -/
inductive Download where
  | notified (message : String)
  | file (csvContent : String)
deriving DecidableEq, Repr

/-- The function `downloadLogHistory`, given the entries `allLogs` that the query for the
blueprint's logs returns. -/
def downloadLogHistory (blueprint : Blueprint) (allLogs : List LogEntry) :
    Except Stop Download :=
  match blueprint.id with
  | none => .ok (.notified "Please save and select a blueprint to download its logs.")
  | some _ =>
    if allLogs.isEmpty then .ok (.notified "No logs for this blueprint to download.")
    else
      let headers :=
        ["Timestamp"] ++
          ((blueprint.fields.filter fun f => f.type != "static-text").map fun f => f.label) ++
          ["Full Output"]
      match logRows blueprint.fields allLogs with
      | .ok rows => .ok (.file (jsJoin "," headers ++ "\n" ++ rows))
      | .error e => .error e

/-! ### Reference notion: reading a quoted CSV cell

This definition is not in the source; it is the unquoting that the quoting is compared
with. -/

/-- The text of a quoted cell after its opening quote: a doubled quote stands for a
quote, and a single quote must be the last character. -/
def csvUnquoteBody : List Char → Option (List Char)
  | [] => none
  | [c] => if c = Char.ofNat 34 then some [] else none
  | c :: d :: rest =>
    if c = Char.ofNat 34 then
      if d = Char.ofNat 34 then (csvUnquoteBody rest).map fun r => Char.ofNat 34 :: r
      else none
    else (csvUnquoteBody (d :: rest)).map fun r => c :: r

/-- The text that a quoted CSV cell stands for, if the cell is well formed. -/
def csvUnquote (cell : String) : Option String :=
  match cell.data with
  | c :: rest =>
    if c = Char.ofNat 34 then (csvUnquoteBody rest).map String.mk else none
  | [] => none


/-! ## Part 2: theorems -/

/-! ### Template compilation -/

theorem jsJoinLoop_false (sep acc : String) (xs : List String) :
    jsJoinLoop sep acc false xs = String.intercalate.go acc sep xs := by
  induction xs generalizing acc with
  | nil => rfl
  | cons x xs ih => simp [jsJoinLoop, String.intercalate.go, ih]

theorem jsJoin_eq_intercalate (sep : String) (xs : List String) :
    jsJoin sep xs = String.intercalate sep xs := by
  cases xs with
  | nil => rfl
  | cons x xs => simp [jsJoin, jsJoinLoop, String.intercalate, jsJoinLoop_false]

/-- C1: the compiled template is the template lines (label, colon, blank, placeholder of the
id) of exactly the fields whose type is not `static-text`, in field order, joined with one
line feed; it is the empty string when every field is static text; and the three fields
Name (id `a`), a static text and Case (id `c`) compile to the two lines of the example. -/
theorem outputTemplate_compiles (fields : List Field) :
    outputTemplate fields =
        String.intercalate "\n"
          ((fields.filter fun f => decide (f.type ≠ "static-text")).map
            fun f => f.label ++ ": " ++ ("\x7b\x7b" ++ f.id ++ "\x7d\x7d")) ∧
      outputTemplate (fields.filter fun f => decide (f.type = "static-text")) = "" ∧
      outputTemplate
          [textField "a" "Name", staticTextField "b" "Note", textField "c" "Case"] =
        "Name: \x7b\x7ba\x7d\x7d\nCase: \x7b\x7bc\x7d\x7d" := by
  refine ⟨?_, ?_, by decide⟩
  · rw [outputTemplate, jsJoin_eq_intercalate]
    congr 1
    have h : (fun field : Field => field.type != "static-text") =
        fun f => decide (f.type ≠ "static-text") := by
      funext f; by_cases hf : f.type = "static-text" <;> simp [hf]
    rw [h]
    rfl
  · rw [outputTemplate, List.filter_filter]
    have h : (fun a : Field => (a.type != "static-text" && decide (a.type = "static-text"))) =
        fun _ => false := by
      funext f; by_cases hf : f.type = "static-text" <;> simp [hf]
    rw [h]; simp; rfl

/-! ### The replacement scan -/

theorem getSubstitution_of_no_dollar (m b a : List Char) (r : List Char)
    (h : dollar ∉ r) : getSubstitution m b a r = r := by
  induction r with
  | nil => rfl
  | cons c t ih =>
    cases t with
    | nil => rfl
    | cons d rest =>
      have hc : c ≠ dollar := fun hc => h (by simp [hc])
      have ht : dollar ∉ d :: rest := fun hd => h (List.mem_cons_of_mem _ hd)
      rw [getSubstitution, if_neg hc, ih ht]

theorem replaceScan_succ (pat repl : List Char) (k : Nat) (before : List Char) (c : Char)
    (rest : List Char) :
    replaceScan pat repl (k + 1) before (c :: rest) =
      replaceScan pat repl k (before ++ [c]) rest := by
  rw [replaceScan]

theorem replaceScan_zero (pat repl before : List Char) (c : Char) (rest : List Char) :
    replaceScan pat repl 0 before (c :: rest) =
      if pat.isPrefixOf (c :: rest) then
        getSubstitution pat before ((c :: rest).drop pat.length) repl ++
          replaceScan pat repl (pat.length - 1) (before ++ [c]) rest
      else c :: replaceScan pat repl 0 (before ++ [c]) rest := by
  rw [replaceScan]

theorem replaceScan_skip (pat repl : List Char) (u before t : List Char) :
    replaceScan pat repl u.length before (u ++ t) = replaceScan pat repl 0 (before ++ u) t := by
  induction u generalizing before with
  | nil => simp
  | cons c u ih =>
    rw [List.length_cons, List.cons_append, replaceScan_succ, ih]
    simp

theorem replaceScan_match (p : Char) (ps repl before t : List Char) :
    replaceScan (p :: ps) repl 0 before ((p :: ps) ++ t) =
      getSubstitution (p :: ps) before t repl ++
        replaceScan (p :: ps) repl 0 (before ++ (p :: ps)) t := by
  have hpre : (p :: ps).isPrefixOf (p :: (ps ++ t)) = true := by
    rw [List.isPrefixOf_iff_prefix]; exact ⟨t, rfl⟩
  have hdrop : (p :: (ps ++ t)).drop (p :: ps).length = t := by simp
  rw [List.cons_append, replaceScan_zero, if_pos hpre, hdrop, List.length_cons,
    Nat.add_sub_cancel, replaceScan_skip]
  simp

theorem replaceScan_step (pat repl before : List Char) (c : Char) (rest : List Char)
    (h : pat.isPrefixOf (c :: rest) = false) :
    replaceScan pat repl 0 before (c :: rest) =
      c :: replaceScan pat repl 0 (before ++ [c]) rest := by
  rw [replaceScan_zero, h]; simp

theorem replaceScan_free (p : Char) (ps repl : List Char) (s before t : List Char)
    (h : p ∉ s) :
    replaceScan (p :: ps) repl 0 before (s ++ t) =
      s ++ replaceScan (p :: ps) repl 0 (before ++ s) t := by
  induction s generalizing before with
  | nil => simp
  | cons c s ih =>
    have hc : c ≠ p := fun hc => h (by simp [hc])
    have hs : p ∉ s := fun hp => h (List.mem_cons_of_mem _ hp)
    have hpre : (p :: ps).isPrefixOf (c :: (s ++ t)) = false := by
      simp [List.isPrefixOf, Ne.symm hc]
    rw [List.cons_append, replaceScan_step _ _ _ _ _ hpre, ih _ hs]
    simp

/-! ### Placeholders of simple ids -/

theorem placeholder_data (id : String) :
    (placeholder id).data = lbrace :: lbrace :: (id.data ++ [rbrace, rbrace]) := by
  simp [placeholder, openBraces, closeBraces, String.data_append]
  decide

theorem isWordChar_ne_lbrace (c : Char) (h : isWordChar c = true) : c ≠ lbrace := by
  intro hc; subst hc; revert h; decide

theorem isWordChar_ne_rbrace (c : Char) (h : isWordChar c = true) : c ≠ rbrace := by
  intro hc; subst hc; revert h; decide

theorem isSimpleId_word (id : String) (h : isSimpleId id = true) :
    ∀ c ∈ id.data, isWordChar c = true := by
  simp only [isSimpleId, Bool.and_eq_true, List.all_eq_true] at h
  exact h.1

theorem lbrace_not_mem_of_simple (id : String) (h : isSimpleId id = true) :
    lbrace ∉ id.data := fun hm =>
  isWordChar_ne_lbrace _ (isSimpleId_word id h _ hm) rfl

theorem rbrace_not_mem_of_simple (id : String) (h : isSimpleId id = true) :
    rbrace ∉ id.data := fun hm =>
  isWordChar_ne_rbrace _ (isSimpleId_word id h _ hm) rfl

theorem eq_of_closed_isPrefix (a b u w : List Char) (ha : rbrace ∉ a) (hb : rbrace ∉ b)
    (h : a ++ rbrace :: u <+: b ++ rbrace :: w) : a = b := by
  induction a generalizing b with
  | nil =>
    cases b with
    | nil => rfl
    | cons c b =>
      exfalso
      obtain ⟨r, hr⟩ := h
      simp at hr
      exact hb (by simp [hr.1])
  | cons x a ih =>
    cases b with
    | nil =>
      exfalso
      obtain ⟨r, hr⟩ := h
      simp at hr
      exact ha (by simp [hr.1])
    | cons c b =>
      obtain ⟨r, hr⟩ := h
      simp at hr
      have hab : a = b := by
        apply ih b (fun hm => ha (List.mem_cons_of_mem _ hm))
          (fun hm => hb (List.mem_cons_of_mem _ hm))
        exact ⟨r, by simpa using hr.2⟩
      rw [hr.1, hab]

theorem placeholder_isPrefixOf (id y : String) (t : List Char) (hid : isSimpleId id = true)
    (hy : isSimpleId y = true) (hne : y ≠ id) :
    (placeholder id).data.isPrefixOf ((placeholder y).data ++ t) = false := by
  rw [Bool.eq_false_iff]
  intro h
  rw [List.isPrefixOf_iff_prefix, placeholder_data, placeholder_data] at h
  obtain ⟨r, hr⟩ := h
  simp at hr
  have : id.data = y.data :=
    eq_of_closed_isPrefix id.data y.data [rbrace] (rbrace :: t)
      (rbrace_not_mem_of_simple id hid) (rbrace_not_mem_of_simple y hy)
      ⟨r, by simpa using hr⟩
  exact hne (String.ext this.symm)

theorem replaceScan_other_hole (id y : String) (repl before t : List Char)
    (hid : isSimpleId id = true) (hy : isSimpleId y = true) (hne : y ≠ id) :
    replaceScan (placeholder id).data repl 0 before ((placeholder y).data ++ t) =
      (placeholder y).data ++
        replaceScan (placeholder id).data repl 0 (before ++ (placeholder y).data) t := by
  have h0 := placeholder_isPrefixOf id y t hid hy hne
  rw [placeholder_data y] at h0 ⊢
  simp only [List.cons_append] at h0 ⊢
  rw [replaceScan_step _ _ _ _ _ h0]
  have h1 : (placeholder id).data.isPrefixOf (lbrace :: (y.data ++ [rbrace, rbrace] ++ t)) =
      false := by
    rw [placeholder_data id]
    cases hyd : y.data with
    | nil =>
      have hne : (lbrace == rbrace) = false := by decide
      simp [List.isPrefixOf, hne]
    | cons c cs =>
      have hc : c ≠ lbrace :=
        isWordChar_ne_lbrace c (isSimpleId_word y hy c (by simp [hyd]))
      simp [List.isPrefixOf, Ne.symm hc]
  rw [replaceScan_step _ _ _ _ _ h1]
  have hfree : lbrace ∉ y.data ++ [rbrace, rbrace] := by
    simp only [List.mem_append, not_or]
    exact ⟨lbrace_not_mem_of_simple y hy, by decide⟩
  rw [placeholder_data id, replaceScan_free _ _ _ _ _ _ hfree]
  simp

/-! ### One pass over a text made of plain pieces -/

theorem flattenPieces_append (ps qs : List Piece) :
    flattenPieces (ps ++ qs) = flattenPieces ps ++ flattenPieces qs := by
  induction ps with
  | nil => rfl
  | cons p ps ih => simp [flattenPieces, ih]

theorem replaceScan_pieces (id : String) (v : List Char) (hid : isSimpleId id = true)
    (hv : dollar ∉ v) (ps : List Piece) (hps : ∀ p ∈ ps, p.plain = true)
    (before : List Char) :
    replaceScan (placeholder id).data v 0 before (flattenPieces ps) =
      flattenPieces (ps.map (Piece.fill id v)) := by
  induction ps generalizing before with
  | nil => rfl
  | cons p ps ih =>
    have hrest : ∀ q ∈ ps, q.plain = true := fun q hq => hps q (List.mem_cons_of_mem _ hq)
    have hp := hps p (List.mem_cons_self _ _)
    cases p with
    | text s =>
      have hs : lbrace ∉ s := by simpa [Piece.plain] using hp
      simp only [flattenPieces, List.map_cons, Piece.fill, Piece.chars]
      rw [placeholder_data, replaceScan_free _ _ _ _ _ _ hs, ← placeholder_data, ih hrest]
    | hole y =>
      have hy : isSimpleId y = true := by simpa [Piece.plain] using hp
      simp only [flattenPieces, List.map_cons, Piece.fill, Piece.chars]
      by_cases hyid : y = id
      · subst hyid
        rw [if_pos rfl]
        simp only [Piece.chars]
        have hm := replaceScan_match lbrace (lbrace :: (y.data ++ [rbrace, rbrace])) v before
          (flattenPieces ps)
        rw [← placeholder_data] at hm
        rw [hm, getSubstitution_of_no_dollar _ _ _ _ hv, ih hrest]
      · rw [if_neg hyid, replaceScan_other_hole id y v before _ hid hy hyid, ih hrest]

/-! ### The compiled template as pieces -/

theorem jsJoinLoop_lines_data (acc : String) (fs : List Field) :
    (jsJoinLoop "\n" acc false (fs.map templateLine)).data =
      acc.data ++ flattenPieces (followingLinePieces fs) := by
  induction fs generalizing acc with
  | nil => simp [jsJoinLoop, followingLinePieces, flattenPieces]
  | cons f rest ih =>
    simp [jsJoinLoop, followingLinePieces, flattenPieces, ih, linePieces, Piece.chars,
      templateLine, String.data_append, flattenPieces_append]

theorem jsJoin_lines_data (fs : List Field) :
    (jsJoin "\n" (fs.map templateLine)).data = flattenPieces (joinedLinePieces fs) := by
  cases fs with
  | nil => rfl
  | cons f rest =>
    simp [jsJoin, jsJoinLoop, joinedLinePieces, jsJoinLoop_lines_data, flattenPieces_append,
      linePieces, flattenPieces, Piece.chars, templateLine, String.data_append]

theorem outputTemplate_data (fields : List Field) :
    (outputTemplate fields).data = flattenPieces (templatePieces fields) :=
  jsJoin_lines_data _

theorem outputTemplate_eq_mk (fields : List Field) :
    outputTemplate fields = String.mk (flattenPieces (templatePieces fields)) :=
  String.ext (outputTemplate_data fields)

theorem mem_followingLinePieces (fs : List Field) (p : Piece)
    (h : p ∈ followingLinePieces fs) :
    p = .text "\n".data ∨ ∃ f ∈ fs, p = .text (f.label ++ ": ").data ∨ p = .hole f.id := by
  induction fs with
  | nil => simp [followingLinePieces] at h
  | cons f rest ih =>
    simp only [followingLinePieces, linePieces, List.mem_cons, List.mem_append,
      List.cons_append, List.nil_append] at h
    rcases h with h | h | h | h
    · exact Or.inl h
    · exact Or.inr ⟨f, List.mem_cons_self _ _, Or.inl h⟩
    · exact Or.inr ⟨f, List.mem_cons_self _ _, Or.inr h⟩
    · rcases ih h with h | ⟨g, hg, h⟩
      · exact Or.inl h
      · exact Or.inr ⟨g, List.mem_cons_of_mem _ hg, h⟩

theorem mem_joinedLinePieces (fs : List Field) (p : Piece) (h : p ∈ joinedLinePieces fs) :
    p = .text "\n".data ∨ ∃ f ∈ fs, p = .text (f.label ++ ": ").data ∨ p = .hole f.id := by
  cases fs with
  | nil => simp [joinedLinePieces] at h
  | cons f rest =>
    simp only [joinedLinePieces, linePieces, List.mem_cons, List.mem_append,
      List.cons_append, List.nil_append] at h
    rcases h with h | h | h
    · exact Or.inr ⟨f, List.mem_cons_self _ _, Or.inl h⟩
    · exact Or.inr ⟨f, List.mem_cons_self _ _, Or.inr h⟩
    · rcases mem_followingLinePieces rest p h with h | ⟨g, hg, h⟩
      · exact Or.inl h
      · exact Or.inr ⟨g, List.mem_cons_of_mem _ hg, h⟩

theorem mem_templatePieces (fields : List Field) (p : Piece) (h : p ∈ templatePieces fields) :
    p = .text "\n".data ∨
      ∃ f ∈ fields, f.type ≠ "static-text" ∧
        (p = .text (f.label ++ ": ").data ∨ p = .hole f.id) := by
  rcases mem_joinedLinePieces _ p h with h | ⟨f, hf, h⟩
  · exact Or.inl h
  · rw [List.mem_filter] at hf
    exact Or.inr ⟨f, hf.1, by simpa using hf.2, h⟩

theorem templatePieces_plain (fields : List Field)
    (hid : ∀ f ∈ fields, f.type ≠ "static-text" → isSimpleId f.id = true)
    (hlabel : ∀ f ∈ fields, f.type ≠ "static-text" → lbrace ∉ f.label.data) :
    ∀ p ∈ templatePieces fields, p.plain = true := by
  intro p hp
  rcases mem_templatePieces fields p hp with h | ⟨f, hf, hns, h | h⟩
  · subst h; decide
  · subst h
    have := hlabel f hf hns
    simp only [Piece.plain, String.data_append, Bool.not_eq_true', List.contains_eq_any_beq,
      List.any_eq_false, List.mem_append, beq_iff_eq]
    intro c hc heq
    rcases hc with hc | hc
    · exact this (heq ▸ hc)
    · subst heq; revert hc; decide
  · subst h
    exact hid f hf hns

/-! ### The substitution loop on plain pieces -/

theorem substitutePlaceholder_pieces (id : String) (value : String) (ps : List Piece)
    (hid : isSimpleId id = true) (hv : dollar ∉ value.data)
    (hps : ∀ p ∈ ps, p.plain = true) :
    substitutePlaceholder id value (String.mk (flattenPieces ps)) =
      .ok (String.mk (flattenPieces (ps.map (Piece.fill id value.data)))) := by
  unfold substitutePlaceholder newPlaceholderRegExp
  rw [if_pos hid]
  show Except.ok (String.mk (replaceScan (placeholder id).data value.data 0 []
    (flattenPieces ps))) = _
  rw [replaceScan_pieces id value.data hid hv ps hps]

theorem Piece.fill_plain (id : String) (v : List Char) (hv : lbrace ∉ v) (p : Piece)
    (hp : p.plain = true) : (p.fill id v).plain = true := by
  cases p with
  | text s => exact hp
  | hole y =>
    simp only [Piece.fill]
    split
    · simpa [Piece.plain] using hv
    · exact hp

theorem substituteFields_pieces (form : FormState) (value : Field → String)
    (fs : List Field) (ps : List Piece)
    (hfs : ∀ f ∈ fs, f.type ≠ "static-text" →
      isSimpleId f.id = true ∧ previewValue form f = .ok (value f) ∧
        dollar ∉ (value f).data ∧ lbrace ∉ (value f).data)
    (hps : ∀ p ∈ ps, p.plain = true) :
    substituteFields form fs (String.mk (flattenPieces ps)) =
      .ok (String.mk (flattenPieces (ps.map (Piece.resolve value fs)))) := by
  induction fs generalizing ps with
  | nil => simp [substituteFields, Piece.resolve, pure, Except.pure]
  | cons f rest ih =>
    have hrest : ∀ g ∈ rest, g.type ≠ "static-text" →
        isSimpleId g.id = true ∧ previewValue form g = .ok (value g) ∧
          dollar ∉ (value g).data ∧ lbrace ∉ (value g).data :=
      fun g hg => hfs g (List.mem_cons_of_mem _ hg)
    by_cases hst : f.type = "static-text"
    · have hres : Piece.resolve value (f :: rest) = Piece.resolve value rest := by
        funext p; simp [Piece.resolve, hst]
      simp only [substituteFields, substituteField, hst, beq_self_eq_true, if_true, pure,
        Except.pure]
      rw [ih ps hrest hps, hres]
    · obtain ⟨hid, hval, hd, hl⟩ := hfs f (List.mem_cons_self _ _) hst
      have hres : Piece.resolve value (f :: rest) =
          Piece.resolve value rest ∘ Piece.fill f.id (value f).data := by
        funext p; simp [Piece.resolve, hst]
      have hbeq : (f.type == "static-text") = false := by simpa using hst
      simp only [substituteFields, substituteField, hbeq, if_false, Bool.false_eq_true, hval]
      rw [substitutePlaceholder_pieces f.id _ ps hid hd hps]
      simp only []
      rw [ih _ hrest]
      · rw [List.map_map, hres]
      · intro p hp
        obtain ⟨q, hq, rfl⟩ := List.mem_map.mp hp
        exact Piece.fill_plain _ _ hl q (hps q hq)

theorem Piece.resolve_text (value : Field → String) (fs : List Field) (s : List Char) :
    Piece.resolve value fs (.text s) = .text s := by
  induction fs with
  | nil => rfl
  | cons f rest ih =>
    simp only [Piece.resolve, Piece.fill]
    split <;> exact ih

theorem Piece.resolve_hole (value : Field → String) (fs : List Field) (y : String)
    (h : ∃ f ∈ fs, f.type ≠ "static-text" ∧ f.id = y) :
    ∃ g ∈ fs, g.type ≠ "static-text" ∧ g.id = y ∧
      Piece.resolve value fs (.hole y) = .text (value g).data := by
  induction fs with
  | nil => obtain ⟨f, hf, _⟩ := h; simp at hf
  | cons f rest ih =>
    by_cases hst : f.type = "static-text"
    · have hrest : ∃ g ∈ rest, g.type ≠ "static-text" ∧ g.id = y := by
        obtain ⟨g, hg, hgs, hgy⟩ := h
        rcases List.mem_cons.mp hg with rfl | hg
        · exact absurd hst hgs
        · exact ⟨g, hg, hgs, hgy⟩
      obtain ⟨g, hg, hgs, hgy, hres⟩ := ih hrest
      exact ⟨g, List.mem_cons_of_mem _ hg, hgs, hgy, by simpa [Piece.resolve, hst] using hres⟩
    · by_cases hy : y = f.id
      · refine ⟨f, List.mem_cons_self _ _, hst, hy.symm, ?_⟩
        simp [Piece.resolve, hst, Piece.fill, hy, Piece.resolve_text]
      · have hrest : ∃ g ∈ rest, g.type ≠ "static-text" ∧ g.id = y := by
          obtain ⟨g, hg, hgs, hgy⟩ := h
          rcases List.mem_cons.mp hg with rfl | hg
          · exact absurd hgy.symm hy
          · exact ⟨g, hg, hgs, hgy⟩
        obtain ⟨g, hg, hgs, hgy, hres⟩ := ih hrest
        exact ⟨g, List.mem_cons_of_mem _ hg, hgs, hgy,
          by simpa [Piece.resolve, hst, Piece.fill, hy] using hres⟩

theorem not_mem_flattenPieces (c : Char) (qs : List Piece)
    (h : ∀ q ∈ qs, ∃ s, q = .text s ∧ c ∉ s) : c ∉ flattenPieces qs := by
  induction qs with
  | nil => simp [flattenPieces]
  | cons q qs ih =>
    obtain ⟨s, rfl, hs⟩ := h q (List.mem_cons_self _ _)
    simp only [flattenPieces, Piece.chars, List.mem_append, not_or]
    exact ⟨hs, ih fun q hq => h q (List.mem_cons_of_mem _ hq)⟩

/-! ### Values read from the form -/

theorem isPlainSelectorText_of_simple (id : String) (h : isSimpleId id = true) :
    isPlainSelectorText id = true := by
  simp only [isPlainSelectorText, List.all_eq_true]
  intro c hc
  have hw := isSimpleId_word id h c hc
  have key : ∀ d : Char, (d == Char.ofNat 34 || d == Char.ofNat 92 || d == Char.ofNat 10 ||
      d == Char.ofNat 13 || d == Char.ofNat 12 || d == Char.ofNat 0) = true →
      isWordChar d = false := by
    intro d hd
    simp only [Bool.or_eq_true, beq_iff_eq] at hd
    rcases hd with ((((hd | hd) | hd) | hd) | hd) | hd <;> subst hd <;> decide
  cases hq : (c == Char.ofNat 34 || c == Char.ofNat 92 || c == Char.ofNat 10 ||
      c == Char.ofNat 13 || c == Char.ofNat 12 || c == Char.ofNat 0) with
  | false => rfl
  | true => rw [key c hq] at hw; exact absurd hw (by decide)

theorem not_mem_jsJoinLoop (c : Char) (sep acc : String) (first : Bool) (xs : List String)
    (hsep : c ∉ sep.data) (hacc : c ∉ acc.data) (hxs : ∀ x ∈ xs, c ∉ x.data) :
    c ∉ (jsJoinLoop sep acc first xs).data := by
  induction xs generalizing acc first with
  | nil => simpa [jsJoinLoop] using hacc
  | cons x xs ih =>
    have hx := hxs x (List.mem_cons_self _ _)
    have hrest : ∀ y ∈ xs, c ∉ y.data := fun y hy => hxs y (List.mem_cons_of_mem _ hy)
    cases first with
    | true =>
      rw [jsJoinLoop]
      exact ih _ _ (by simp [String.data_append, hacc, hx]) hrest
    | false =>
      rw [jsJoinLoop]
      exact ih _ _ (by simp [String.data_append, hacc, hx, hsep]) hrest

theorem previewValue_of_plain (c : Char) (form : FormState) (field : Field)
    (hplain : isPlainSelectorText field.id = true)
    (hc : c ≠ Char.ofNat 78 ∧ c ≠ Char.ofNat 47 ∧ c ≠ Char.ofNat 65 ∧ c ≠ Char.ofNat 111 ∧
      c ≠ Char.ofNat 110 ∧ c ≠ Char.ofNat 101 ∧ c ≠ Char.ofNat 44 ∧ c ≠ Char.ofNat 32)
    (hform : ∀ el ∈ form, c ∉ el.value.data) :
    ∃ v, previewValue form field = .ok v ∧ c ∉ v.data := by
  obtain ⟨h1, h2, h3, h4, h5, h6, h7, h8⟩ := hc
  have hNA : c ∉ "N/A".data := by
    intro h
    have : c = Char.ofNat 78 ∨ c = Char.ofNat 47 ∨ c = Char.ofNat 65 := by simpa using h
    rcases this with h | h | h <;> contradiction
  have hNone : c ∉ "None".data := by
    intro h
    have : c = Char.ofNat 78 ∨ c = Char.ofNat 111 ∨ c = Char.ofNat 110 ∨ c = Char.ofNat 101 := by
      simpa using h
    rcases this with h | h | h | h <;> contradiction
  have hsep : c ∉ ", ".data := by
    intro h
    have : c = Char.ofNat 44 ∨ c = Char.ofNat 32 := by simpa using h
    rcases this with h | h <;> contradiction
  unfold previewValue querySelectorAllChecked querySelectorByName
  rw [if_pos hplain, if_pos hplain]
  split
  · refine ⟨_, rfl, ?_⟩
    split
    · apply not_mem_jsJoinLoop c ", " "" true _ hsep (by simp)
      intro x hx
      simp only [List.mem_map, List.mem_filter] at hx
      obtain ⟨el, ⟨hel, _⟩, rfl⟩ := hx
      exact hform el hel
    · exact hNone
  · cases hfind : form.find? (fun el => el.name == field.id) with
    | none => exact ⟨_, rfl, hNA⟩
    | some el =>
      refine ⟨_, rfl, ?_⟩
      split
      · exact hform el (List.mem_of_find?_eq_some hfind)
      · exact hNA

theorem valueOrEmpty_spec (form : FormState) (field : Field) (v : String)
    (h : previewValue form field = .ok v) : valueOrEmpty form field = v := by
  simp [valueOrEmpty, h]

/-! ### Substitution: placeholder closure (C2) -/

/-- C2, counterexample: the user types the placeholder of field `a` into field `a`; the
substitution inserts it and the output contains the token of a field of the blueprint. -/
theorem renderOutputPreview_keeps_typed_placeholder :
    renderOutputPreview [textField "a" "Name"]
        [{ kind := .text, name := "a", value := "\x7b\x7ba\x7d\x7d", checked := false }] =
      .ok "Name: \x7b\x7ba\x7d\x7d" ∧
    (placeholder "a").data <:+: "Name: \x7b\x7ba\x7d\x7d".data := by
  refine ⟨by decide, ?_⟩
  exact ⟨"Name: ".data, [], by decide⟩

/-- C2, amended: when the ids of the non-static fields are simple (word characters, not
starting with a digit), their labels have no opening brace and no value in the form has a
dollar sign or an opening brace, `renderOutputPreview` returns an output, and the output
contains the placeholder of no non-static field of the blueprint. -/
theorem renderOutputPreview_placeholder_closed (fields : List Field) (form : FormState)
    (hid : ∀ f ∈ fields, f.type ≠ "static-text" → isSimpleId f.id = true)
    (hlabel : ∀ f ∈ fields, f.type ≠ "static-text" → lbrace ∉ f.label.data)
    (hform : ∀ el ∈ form, dollar ∉ el.value.data ∧ lbrace ∉ el.value.data) :
    ∃ out, renderOutputPreview fields form = .ok out ∧
      ∀ f ∈ fields, f.type ≠ "static-text" → ¬ ((placeholder f.id).data <:+: out.data) := by
  have hval : ∀ f ∈ fields, f.type ≠ "static-text" →
      isSimpleId f.id = true ∧ previewValue form f = .ok (valueOrEmpty form f) ∧
        dollar ∉ (valueOrEmpty form f).data ∧ lbrace ∉ (valueOrEmpty form f).data := by
    intro f hf hns
    have hs := hid f hf hns
    have hp := isPlainSelectorText_of_simple f.id hs
    obtain ⟨v, hv, hd⟩ := previewValue_of_plain dollar form f hp (by decide)
      fun el hel => (hform el hel).1
    obtain ⟨w, hw, hl⟩ := previewValue_of_plain lbrace form f hp (by decide)
      fun el hel => (hform el hel).2
    have hvw : v = w := by rw [hv] at hw; exact Except.ok.inj hw
    subst hvw
    rw [valueOrEmpty_spec form f v hv]
    exact ⟨hs, hv, hd, hl⟩
  have hplain := templatePieces_plain fields hid hlabel
  have hrun := substituteFields_pieces form (valueOrEmpty form) fields (templatePieces fields)
    hval hplain
  refine ⟨_, by rw [renderOutputPreview, outputTemplate_eq_mk]; exact hrun, ?_⟩
  have hfree : lbrace ∉ flattenPieces
      ((templatePieces fields).map (Piece.resolve (valueOrEmpty form) fields)) := by
    apply not_mem_flattenPieces
    intro q hq
    obtain ⟨p, hp, rfl⟩ := List.mem_map.mp hq
    rcases mem_templatePieces fields p hp with h | ⟨f, hf, hns, h | h⟩
    · subst h
      exact ⟨_, Piece.resolve_text _ _ _, by decide⟩
    · subst h
      refine ⟨_, Piece.resolve_text _ _ _, ?_⟩
      have := hplain _ hp
      simpa [Piece.plain] using this
    · subst h
      obtain ⟨g, hg, hgs, _, hres⟩ :=
        Piece.resolve_hole (valueOrEmpty form) fields f.id ⟨f, hf, hns, rfl⟩
      exact ⟨_, hres, (hval g hg hgs).2.2.2⟩
  intro f _ _ hinfix
  apply hfree
  apply hinfix.subset
  rw [placeholder_data]
  exact List.mem_cons_self _ _

/-- C2, amended, at a blueprint with a text field, a static text and a checkbox group. -/
theorem renderOutputPreview_placeholder_closed_witness :
    ∃ out,
      renderOutputPreview
          [textField "a" "Name", staticTextField "note" "Read this", checkboxField "k" "Kind" ["x"]]
          [{ kind := .text, name := "a", value := "Ann", checked := false },
            { kind := .checkbox, name := "k", value := "x", checked := true }] = .ok out ∧
        ∀ f ∈ [textField "a" "Name", staticTextField "note" "Read this",
            checkboxField "k" "Kind" ["x"]],
          f.type ≠ "static-text" → ¬ ((placeholder f.id).data <:+: out.data) :=
  renderOutputPreview_placeholder_closed _ _ (by decide) (by decide) (by decide)

/-! ### One pass over an arbitrary text -/

theorem replaceScan_before (pat v : List Char) (hv : dollar ∉ v) (k : Nat)
    (before before2 text : List Char) :
    replaceScan pat v k before text = replaceScan pat v k before2 text := by
  induction text generalizing k before before2 with
  | nil => cases k <;> rfl
  | cons c rest ih =>
    cases k with
    | succ k => rw [replaceScan_succ, replaceScan_succ]; exact ih _ _ _
    | zero =>
      rw [replaceScan_zero, replaceScan_zero]
      split
      · rw [getSubstitution_of_no_dollar _ _ _ _ hv, getSubstitution_of_no_dollar _ _ _ _ hv,
          ih _ (before ++ [c]) (before2 ++ [c])]
      · rw [ih _ (before ++ [c]) (before2 ++ [c])]

theorem placeholder_isPrefix_of_overlap (id : String) (hid : isSimpleId id = true)
    (a b : List Char) (ha : a ≠ [])
    (h : (placeholder id).data <+: a ++ ((placeholder id).data ++ b)) :
    (placeholder id).data <+: a := by
  rw [placeholder_data] at h ⊢
  have hfree : lbrace ∉ id.data ++ [rbrace, rbrace] := by
    simp only [List.mem_append, not_or]
    exact ⟨lbrace_not_mem_of_simple id hid, by decide⟩
  match a, ha with
  | [c], _ =>
    exfalso
    simp only [List.cons_append, List.nil_append, List.cons_prefix_cons] at h
    obtain ⟨_, _, h3⟩ := h
    cases hx : id.data ++ [rbrace, rbrace] with
    | nil => simp at hx
    | cons x xs =>
      rw [hx] at h3 hfree
      have : x = lbrace := (List.cons_prefix_cons.mp h3).1
      exact hfree (by simp [this])
  | c :: d :: a2, _ =>
    simp only [List.cons_append, List.cons_prefix_cons] at h ⊢
    obtain ⟨h1, h2, h3⟩ := h
    refine ⟨h1, h2, ?_⟩
    have hself : a2 <+: a2 ++ (lbrace :: lbrace :: (id.data ++ [rbrace, rbrace]) ++ b) :=
      List.prefix_append _ _
    have h3' : id.data ++ [rbrace, rbrace] <+:
        a2 ++ (lbrace :: lbrace :: (id.data ++ [rbrace, rbrace]) ++ b) := by
      simpa using h3
    rcases List.prefix_or_prefix_of_prefix h3' hself with hp | hp
    · exact hp
    · obtain ⟨u, hu⟩ := hp
      cases u with
      | nil => exact ⟨[], by simpa using hu.symm⟩
      | cons x xs =>
        exfalso
        rw [← hu, List.prefix_append_right_inj] at h3'
        have : x = lbrace := by
          have := (List.cons_prefix_cons.mp (by simpa using h3')).1
          exact this
        apply hfree
        rw [← hu, this]
        simp

theorem replaceScan_around_occurrence (id : String) (v : List Char)
    (hid : isSimpleId id = true) (hv : dollar ∉ v) (a b : List Char) :
    replaceScan (placeholder id).data v 0 [] (a ++ ((placeholder id).data ++ b)) =
      replaceScan (placeholder id).data v 0 [] a ++
        (v ++ replaceScan (placeholder id).data v 0 [] b) := by
  have hP : (placeholder id).data = lbrace :: (lbrace :: (id.data ++ [rbrace, rbrace])) :=
    placeholder_data id
  have hmatch : ∀ t : List Char,
      replaceScan (placeholder id).data v 0 [] ((placeholder id).data ++ t) =
        v ++ replaceScan (placeholder id).data v 0 [] t := by
    intro t
    have hm := replaceScan_match lbrace (lbrace :: (id.data ++ [rbrace, rbrace])) v [] t
    rw [← hP] at hm
    rw [hm, getSubstitution_of_no_dollar _ _ _ _ hv,
      replaceScan_before _ _ hv 0 _ [] t]
  suffices hall : ∀ (n : Nat) (a : List Char), a.length = n →
      replaceScan (placeholder id).data v 0 [] (a ++ ((placeholder id).data ++ b)) =
        replaceScan (placeholder id).data v 0 [] a ++
          (v ++ replaceScan (placeholder id).data v 0 [] b) from hall _ a rfl
  intro n
  induction n using Nat.strong_induction_on with
  | _ n ih =>
    intro a hn
    cases a with
    | nil => simpa [replaceScan] using hmatch b
    | cons c a1 =>
      by_cases hpre : (placeholder id).data.isPrefixOf (c :: a1 ++ ((placeholder id).data ++ b))
          = true
      · have hin := placeholder_isPrefix_of_overlap id hid (c :: a1) b (by simp)
          (List.isPrefixOf_iff_prefix.mp hpre)
        obtain ⟨a2, ha2⟩ := hin
        have hlen : a2.length < n := by
          have := congrArg List.length ha2
          rw [hP] at this
          simp only [List.length_append, List.length_cons, List.length_nil] at this hn
          omega
        rw [← ha2, List.append_assoc, hmatch, hmatch, ih _ hlen a2 rfl, List.append_assoc]
      · have hpre' : (placeholder id).data.isPrefixOf (c :: a1) = false := by
          rw [Bool.eq_false_iff]
          intro h
          apply hpre
          rw [List.isPrefixOf_iff_prefix] at h ⊢
          exact h.trans (List.prefix_append _ _)
        have hpre2 : (placeholder id).data.isPrefixOf
            (c :: (a1 ++ ((placeholder id).data ++ b))) = false := by
          rw [Bool.eq_false_iff]
          exact hpre
        have hlen : a1.length < n := by simp at hn; omega
        rw [List.cons_append, replaceScan_step _ _ _ _ _ hpre2,
          replaceScan_step _ _ _ _ _ hpre', replaceScan_before _ _ hv 0 _ [],
          replaceScan_before _ _ hv 0 ([] ++ [c]) [] a1, ih _ hlen a1 rfl]
        rfl

theorem replaceScan_no_occurrence (pat v before : List Char) (text : List Char)
    (h : ¬ pat <:+: text) : replaceScan pat v 0 before text = text := by
  induction text generalizing before with
  | nil => rfl
  | cons c rest ih =>
    have hpre : pat.isPrefixOf (c :: rest) = false := by
      rw [Bool.eq_false_iff]
      intro hp
      exact h (List.isPrefixOf_iff_prefix.mp hp).isInfix
    rw [replaceScan_step _ _ _ _ _ hpre, ih _ fun hin => h (List.infix_cons hin)]

/-- For a simple id and a value without a dollar sign, the pass of line 463 replaces every
occurrence of the placeholder in any text with the value: it returns a text, it maps a
text around an occurrence to the results for the two sides with the value between them,
and it returns a text without an occurrence as it is. -/
theorem substitutePlaceholder_every_occurrence (id value : String)
    (hid : isSimpleId id = true) (hv : dollar ∉ value.data) :
    ∃ pass : String → String,
      (∀ text, substitutePlaceholder id value text = .ok (pass text)) ∧
      (∀ a b, pass (a ++ placeholder id ++ b) = pass a ++ value ++ pass b) ∧
      (∀ text, ¬ ((placeholder id).data <:+: text.data) → pass text = text) := by
  refine ⟨fun text => String.mk (jsReplaceAll (placeholder id).data value.data text.data),
    ?_, ?_, ?_⟩
  · intro text
    unfold substitutePlaceholder newPlaceholderRegExp
    rw [if_pos hid]
    rfl
  · intro a b
    apply String.ext
    simp only [jsReplaceAll, String.data_append, List.append_assoc]
    exact replaceScan_around_occurrence id value.data hid hv a.data b.data
  · intro text h
    apply String.ext
    simp only [jsReplaceAll]
    exact replaceScan_no_occurrence _ _ _ _ h

/-- Two non-static fields that share a simple id: both template lines show the value that the
pass of the first field substituted. -/
theorem renderOutputPreview_shared_id (f g : Field) (form : FormState) (vf vg : String)
    (hf : f.type ≠ "static-text") (hg : g.type ≠ "static-text")
    (hid : isSimpleId f.id = true) (hsame : g.id = f.id)
    (hlf : lbrace ∉ f.label.data) (hlg : lbrace ∉ g.label.data)
    (hvf : previewValue form f = .ok vf) (hvg : previewValue form g = .ok vg)
    (hdf : dollar ∉ vf.data ∧ lbrace ∉ vf.data) (hdg : dollar ∉ vg.data ∧ lbrace ∉ vg.data) :
    renderOutputPreview [f, g] form =
      .ok (f.label ++ ": " ++ vf ++ "\n" ++ g.label ++ ": " ++ vf) := by
  have hfields : ∀ x ∈ [f, g], x.type ≠ "static-text" → isSimpleId x.id = true := by
    intro x hx _
    simp only [List.mem_cons, List.mem_singleton, List.not_mem_nil, or_false] at hx
    rcases hx with rfl | rfl
    · exact hid
    · rw [hsame]; exact hid
  have hlabels : ∀ x ∈ [f, g], x.type ≠ "static-text" → lbrace ∉ x.label.data := by
    intro x hx _
    simp only [List.mem_cons, List.mem_singleton, List.not_mem_nil, or_false] at hx
    rcases hx with rfl | rfl <;> assumption
  have hvalue : ∀ x ∈ [f, g], x.type ≠ "static-text" →
      isSimpleId x.id = true ∧ previewValue form x = .ok (valueOrEmpty form x) ∧
        dollar ∉ (valueOrEmpty form x).data ∧ lbrace ∉ (valueOrEmpty form x).data := by
    intro x hx hns
    refine ⟨hfields x hx hns, ?_⟩
    simp only [List.mem_cons, List.mem_singleton, List.not_mem_nil, or_false] at hx
    rcases hx with rfl | rfl
    · rw [valueOrEmpty_spec form _ vf hvf]; exact ⟨hvf, hdf⟩
    · rw [valueOrEmpty_spec form _ vg hvg]; exact ⟨hvg, hdg⟩
  have hrun := substituteFields_pieces form (valueOrEmpty form) [f, g] (templatePieces [f, g])
    hvalue (templatePieces_plain [f, g] hfields hlabels)
  have hff : (f.type != "static-text") = true := by simpa using hf
  have hfg : (g.type != "static-text") = true := by simpa using hg
  have hsf : (f.type == "static-text") = false := by simpa using hf
  have hsg : (g.type == "static-text") = false := by simpa using hg
  rw [renderOutputPreview, outputTemplate_eq_mk, hrun]
  congr 1
  apply String.ext
  simp [templatePieces, List.filter, hff, hfg, joinedLinePieces, followingLinePieces,
    linePieces, Piece.resolve, hsf, hsg, Piece.fill, hsame, flattenPieces, Piece.chars,
    String.data_append, valueOrEmpty_spec form f vf hvf]

/-- A label such as `Notes (` derives an id with an opening parenthesis; the expression built
from it has an unterminated group and `renderOutputPreview` throws a `SyntaxError`. -/
theorem renderOutputPreview_unterminated_group :
    toCamelCase "Notes (" = "notes(" ∧
      renderOutputPreview [textField "notes(" "Notes ("] [] = .error .syntaxError := by
  decide

/-! ### Substitution: the value as replacement text (C3, C8) -/

/-- C3, at the failing input: the committed value of the field is two dollar signs, and the
text that replaces its placeholder is one dollar sign. -/
theorem renderOutputPreview_dollar_value :
    previewValue [{ kind := .text, name := "a", value := "$$", checked := false }]
        (textField "a" "Amount") = .ok "$$" ∧
      renderOutputPreview [textField "a" "Amount"]
        [{ kind := .text, name := "a", value := "$$", checked := false }] = .ok "Amount: $" := by
  decide

/-- C8, at the failing input: with the value `$&` the pass of field `a` puts the matched
placeholder back at both occurrences, so no occurrence is replaced with the value. -/
theorem substitutePlaceholder_dollar_ampersand :
    substitutePlaceholder "a" "$&" "\x7b\x7ba\x7d\x7d and \x7b\x7ba\x7d\x7d" =
      .ok "\x7b\x7ba\x7d\x7d and \x7b\x7ba\x7d\x7d" := by
  decide

/-! ### Substitution: later passes read earlier values (C4) -/

theorem isWordChar_ne_dollar (c : Char) (h : isWordChar c = true) : c ≠ dollar := by
  intro hc; subst hc; revert h; decide

theorem dollar_not_mem_placeholder (id : String) (h : isSimpleId id = true) :
    dollar ∉ (placeholder id).data := by
  rw [placeholder_data]
  intro hm
  simp only [List.mem_cons, List.mem_append] at hm
  rcases hm with hm | hm | hm | hm
  · revert hm; decide
  · revert hm; decide
  · exact isWordChar_ne_dollar _ (isSimpleId_word id h _ hm) rfl
  · revert hm; simp; decide

/-- C4, counterexample: field `a` comes before field `b` and its value is the placeholder of
`b`; the pass of `b` replaces that text too, and the output no longer contains it. -/
theorem renderOutputPreview_rescans_earlier_value :
    renderOutputPreview [textField "a" "A", textField "b" "B"]
        [{ kind := .text, name := "a", value := "\x7b\x7bb\x7d\x7d", checked := false },
          { kind := .text, name := "b", value := "x", checked := false }] =
      .ok "A: x\nB: x" ∧
    ¬ ((placeholder "b").data <:+: "A: x\nB: x".data) := by
  refine ⟨by decide, ?_⟩
  intro h
  have hm : lbrace ∈ "A: x\nB: x".data := h.subset (by decide)
  revert hm
  decide

/-- C4, amended: in a blueprint of two non-static fields `a` before `b` with simple, distinct
ids and labels without an opening brace, when the value of `a` is `x`, the placeholder of
`b`, `y` (with `x` and `y` free of dollar signs and opening braces) and the value of `b`
has no dollar sign, the pass of `b` replaces the placeholder inside the value of `a` as
well: the output shows the value `vb` of `b` in its place. -/
theorem renderOutputPreview_later_pass_reads_value (a b : Field) (form : FormState)
    (x y : String)
    (ha : a.type ≠ "static-text") (hb : b.type ≠ "static-text")
    (hida : isSimpleId a.id = true) (hidb : isSimpleId b.id = true) (hne : a.id ≠ b.id)
    (hla : lbrace ∉ a.label.data) (hlb : lbrace ∉ b.label.data)
    (hva : previewValue form a = .ok (x ++ placeholder b.id ++ y))
    (hx : dollar ∉ x.data ∧ lbrace ∉ x.data) (hy : dollar ∉ y.data ∧ lbrace ∉ y.data)
    (vb : String) (hvb : previewValue form b = .ok vb) (hdb : dollar ∉ vb.data) :
    renderOutputPreview [a, b] form =
      .ok (a.label ++ ": " ++ x ++ vb ++ y ++ "\n" ++ b.label ++ ": " ++ vb) := by
  have hsa : (a.type == "static-text") = false := by simpa using ha
  have hsb : (b.type == "static-text") = false := by simpa using hb
  have hfields : ∀ f ∈ [a, b], f.type ≠ "static-text" → isSimpleId f.id = true := by
    intro f hf _
    simp only [List.mem_cons, List.mem_singleton, List.not_mem_nil, or_false] at hf
    rcases hf with rfl | rfl <;> assumption
  have hlabels : ∀ f ∈ [a, b], f.type ≠ "static-text" → lbrace ∉ f.label.data := by
    intro f hf _
    simp only [List.mem_cons, List.mem_singleton, List.not_mem_nil, or_false] at hf
    rcases hf with rfl | rfl <;> assumption
  have hplain := templatePieces_plain [a, b] hfields hlabels
  have hfa : (a.type != "static-text") = true := by simpa using ha
  have hfb : (b.type != "static-text") = true := by simpa using hb
  have htp : templatePieces [a, b] =
      [.text (a.label ++ ": ").data, .hole a.id, .text "\n".data,
        .text (b.label ++ ": ").data, .hole b.id] := by
    simp [templatePieces, List.filter, hfa, hfb, joinedLinePieces, followingLinePieces,
      linePieces]
  have hdva : dollar ∉ (x ++ placeholder b.id ++ y).data := by
    simp only [String.data_append, List.mem_append, not_or]
    exact ⟨⟨hx.1, dollar_not_mem_placeholder _ hidb⟩, hy.1⟩
  -- the pass of `a`
  have h1 := substitutePlaceholder_pieces a.id (x ++ placeholder b.id ++ y)
    (templatePieces [a, b]) hida hdva hplain
  -- the text after the pass of `a`, read again as plain pieces
  let ps1 : List Piece :=
    [.text (a.label ++ ": ").data, .text x.data, .hole b.id, .text y.data, .text "\n".data,
      .text (b.label ++ ": ").data, .hole b.id]
  have hps1 : ∀ p ∈ ps1, p.plain = true := by
    intro p hp
    simp only [ps1, List.mem_cons, List.mem_singleton, List.not_mem_nil, or_false] at hp
    rcases hp with rfl | rfl | rfl | rfl | rfl | rfl | rfl
    · exact hplain _ (by rw [htp]; simp)
    · simpa [Piece.plain] using hx.2
    · exact hidb
    · simpa [Piece.plain] using hy.2
    · decide
    · exact hplain _ (by rw [htp]; simp)
    · exact hidb
  have hflat : flattenPieces ((templatePieces [a, b]).map
      (Piece.fill a.id (x ++ placeholder b.id ++ y).data)) = flattenPieces ps1 := by
    have hba : ¬ b.id = a.id := fun h => hne h.symm
    rw [htp]
    simp [Piece.fill, hba, flattenPieces, Piece.chars, String.data_append, ps1]
  have h2 := substitutePlaceholder_pieces b.id vb ps1 hidb hdb hps1
  rw [renderOutputPreview, outputTemplate_eq_mk]
  simp only [substituteFields, substituteField, hsa, hsb, if_false, Bool.false_eq_true, hva,
    hvb, h1, hflat, h2, pure, Except.pure]
  congr 1
  apply String.ext
  simp [ps1, Piece.fill, flattenPieces, Piece.chars, String.data_append]

/-- C4, amended, at two text fields where the user typed `see`, the placeholder of `b` and
an exclamation mark into field `a`, and `x` into field `b`. -/
theorem renderOutputPreview_later_pass_reads_value_witness :
    renderOutputPreview [textField "a" "A", textField "b" "B"]
        [{ kind := .text, name := "a", value := "see \x7b\x7bb\x7d\x7d!", checked := false },
          { kind := .text, name := "b", value := "x", checked := false }] =
      .ok "A: see x!\nB: x" :=
  (renderOutputPreview_later_pass_reads_value (textField "a" "A") (textField "b" "B")
    [{ kind := .text, name := "a", value := "see \x7b\x7bb\x7d\x7d!", checked := false },
      { kind := .text, name := "b", value := "x", checked := false }]
    "see " "!" (by decide) (by decide) (by decide) (by decide) (by decide) (by decide)
    (by decide) (by decide) (by decide) (by decide) "x" (by decide) (by decide)).trans
    (by decide)

/-! ### The exported document (C5) -/

/-- C5, at the failing input: `generateStandaloneHtml` returns a document for no blueprint
(for a blueprint with one text field it throws the `ReferenceError` of the unescaped
`field.id`), so no embedded `generateOutput` ever runs; and the value resolution written
for it differs from the live one: for a text input that holds two blanks the live preview
substitutes `N/A` and the embedded routine the two blanks. -/
theorem generateStandaloneHtml_never_returns :
    (∀ blueprint : Blueprint, ∃ e, generateStandaloneHtml blueprint = .error e) ∧
      generateStandaloneHtml
          { id := none, formName := "Form", formSubtitle := "", fields := [textField "a" "Name"] } =
        .error (.referenceError "field") ∧
      previewValue [{ kind := .text, name := "a", value := "  ", checked := false }]
          (textField "a" "Name") = .ok "N/A" ∧
      generateOutputValue
          [{ id := "a", name := "a", isCheckbox := false, value := some "  ", checked := false }]
          (textField "a" "Name") = .ok "  " := by
  refine ⟨?_, by decide, by decide, by decide⟩
  intro blueprint
  unfold generateStandaloneHtml
  cases generateFormFieldsHtml blueprint.fields with
  | error e => exact ⟨e, rfl⟩
  | ok html => exact ⟨_, rfl⟩

/-! ### The committed value of a text control (C6) -/

theorem jsTrimChars_eq_nil_iff (s : List Char) :
    jsTrimChars s = [] ↔ s.all isJsWhitespace = true := by
  unfold jsTrimChars
  rw [List.reverse_eq_nil_iff, List.dropWhile_eq_nil_iff]
  constructor
  · intro h
    rw [List.all_eq_true]
    by_contra hall
    have hne : s.dropWhile isJsWhitespace ≠ [] := by
      intro hnil
      rw [List.dropWhile_eq_nil_iff] at hnil
      exact hall hnil
    obtain ⟨c, t, hct⟩ := List.exists_cons_of_ne_nil hne
    have hc : ¬ isJsWhitespace c = true := by
      have := List.head_dropWhile_not isJsWhitespace s hne
      simp only [hct, List.head_cons] at this
      simpa using this
    exact hc (h c (by simp [hct]))
  · intro h x hx
    rw [List.all_eq_true] at h
    have hnil : s.dropWhile isJsWhitespace = [] := by
      rw [List.dropWhile_eq_nil_iff]; exact h
    simp [hnil] at hx

theorem jsTrim_eq_empty_iff (s : String) :
    jsTrim s = "" ↔ s.data.all isJsWhitespace = true := by
  rw [← jsTrimChars_eq_nil_iff]
  constructor
  · intro h
    have := congrArg String.data h
    simpa [jsTrim] using this
  · intro h
    apply String.ext
    simpa [jsTrim] using h

/-- C6: for a field that is neither static text nor a checkbox group, with `inputElement` the
element that the query for the field's id returns (the bound input), the substituted value
is `N/A` when the value of the element is empty or only whitespace, and otherwise the
value itself, untrimmed; that value is what the pass of the field hands to `replace`. -/
theorem previewValue_text_sentinel (form : FormState) (field : Field) (inputElement : Control)
    (hstatic : field.type ≠ "static-text") (hcheckbox : field.type ≠ "checkbox")
    (hbound : querySelectorByName form field.id = .ok (some inputElement)) :
    previewValue form field =
        .ok (if inputElement.value.data.all isJsWhitespace = true then "N/A"
          else inputElement.value) ∧
      ∀ output : String,
        substituteField form output field =
          substitutePlaceholder field.id
            (if inputElement.value.data.all isJsWhitespace = true then "N/A"
              else inputElement.value) output := by
  have hc : (field.type == "checkbox") = false := by simpa using hcheckbox
  have hs : (field.type == "static-text") = false := by simpa using hstatic
  have hv : previewValue form field =
      .ok (if inputElement.value.data.all isJsWhitespace = true then "N/A"
        else inputElement.value) := by
    simp only [previewValue, hc, hbound, Bool.false_eq_true, if_false]
    by_cases hw : inputElement.value.data.all isJsWhitespace = true
    · have := (jsTrim_eq_empty_iff _).mpr hw
      simp [hw, this]
    · have : jsTrim inputElement.value ≠ "" := fun h => hw ((jsTrim_eq_empty_iff _).mp h)
      simp [hw, this]
  refine ⟨hv, fun output => ?_⟩
  simp only [substituteField, hs, Bool.false_eq_true, if_false, hv]

/-- C6 at a text field whose input holds a tab and a blank, and at one whose input holds a
name between blanks. -/
theorem previewValue_text_sentinel_witness :
    previewValue [{ kind := .text, name := "a", value := "\t ", checked := false }]
        (textField "a" "Name") = .ok "N/A" ∧
      previewValue [{ kind := .text, name := "a", value := " Ann ", checked := false }]
        (textField "a" "Name") = .ok " Ann " :=
  ⟨(previewValue_text_sentinel
      [{ kind := .text, name := "a", value := "\t ", checked := false }] (textField "a" "Name")
      { kind := .text, name := "a", value := "\t ", checked := false }
      (by decide) (by decide) (by decide)).1.trans (by decide),
    (previewValue_text_sentinel
      [{ kind := .text, name := "a", value := " Ann ", checked := false }]
      (textField "a" "Name") { kind := .text, name := "a", value := " Ann ", checked := false }
      (by decide) (by decide) (by decide)).1.trans (by decide)⟩

/-! ### The committed value of a checkbox group (C7) -/

theorem mem_jsJoinLoop_of_mem_acc (c : Char) (sep acc : String) (first : Bool)
    (xs : List String) (h : c ∈ acc.data) : c ∈ (jsJoinLoop sep acc first xs).data := by
  induction xs generalizing acc first with
  | nil => simpa [jsJoinLoop] using h
  | cons x xs ih =>
    cases first with
    | true =>
      rw [jsJoinLoop]
      exact ih _ _ (by simp [String.data_append, h])
    | false =>
      rw [jsJoinLoop]
      exact ih _ _ (by simp [String.data_append, h])

theorem comma_mem_jsJoin (x y : String) (rest : List String) :
    Char.ofNat 44 ∈ (jsJoin ", " (x :: y :: rest)).data := by
  rw [jsJoin, jsJoinLoop, jsJoinLoop]
  apply mem_jsJoinLoop_of_mem_acc
  simp [String.data_append]

theorem jsJoin_eq_None_iff (xs : List String) (hne : xs ≠ []) :
    jsJoin ", " xs = "None" ↔ xs = ["None"] := by
  constructor
  · intro h
    match xs, hne with
    | [x], _ =>
      have : x = "None" := by simpa [jsJoin, jsJoinLoop] using h
      rw [this]
    | x :: y :: rest, _ =>
      exfalso
      have hm := comma_mem_jsJoin x y rest
      rw [h] at hm
      revert hm
      decide
  · intro h
    subst h
    decide

/-- C7, counterexample: a checkbox group whose only option has the value `None`; with that
option checked the substituted value is the text `None` although an option is checked. -/
theorem previewValue_checked_None :
    previewValue [{ kind := .checkbox, name := "k", value := "None", checked := true }]
        (checkboxField "k" "Kind" ["None"]) = .ok "None" ∧
      querySelectorAllChecked
          [{ kind := .checkbox, name := "k", value := "None", checked := true }] "k" =
        .ok [{ kind := .checkbox, name := "k", value := "None", checked := true }] := by
  decide

/-- C7, amended: for a checkbox field, with `checked` the checked checkboxes of its group in
document order, the substituted value of the live preview is `None` when there is none,
and otherwise their values joined with a comma and a blank; so it is the text `None`
exactly when no checkbox is checked or the only checked one has the value `None`. -/
theorem previewValue_checkbox (form : FormState) (field : Field) (checked : List Control)
    (hcheckbox : field.type = "checkbox")
    (hquery : querySelectorAllChecked form field.id = .ok checked) :
    previewValue form field =
        .ok (if checked = [] then "None"
          else String.intercalate ", " (checked.map fun cb => cb.value)) ∧
      (previewValue form field = .ok "None" ↔
        checked = [] ∨ (checked.map fun cb => cb.value) = ["None"]) := by
  have hv : previewValue form field =
      .ok (if checked = [] then "None"
        else String.intercalate ", " (checked.map fun cb => cb.value)) := by
    simp only [previewValue, hcheckbox, beq_self_eq_true, if_true, hquery,
      jsJoin_eq_intercalate]
    cases checked with
    | nil => simp
    | cons x xs => simp
  refine ⟨hv, ?_⟩
  rw [hv]
  by_cases hnil : checked = []
  · simp [hnil]
  · have hmap : (checked.map fun cb => cb.value) ≠ [] := by simpa using hnil
    rw [if_neg hnil, ← jsJoin_eq_intercalate]
    constructor
    · intro h
      exact Or.inr ((jsJoin_eq_None_iff _ hmap).mp (Except.ok.inj h))
    · rintro (h | h)
      · exact absurd h hnil
      · rw [(jsJoin_eq_None_iff _ hmap).mpr h]

/-- C7, amended, at a group of three options of which the first and the last are checked. -/
theorem previewValue_checkbox_witness :
    previewValue
        [{ kind := .checkbox, name := "k", value := "red", checked := true },
          { kind := .checkbox, name := "k", value := "green", checked := false },
          { kind := .checkbox, name := "k", value := "blue", checked := true }]
        (checkboxField "k" "Kind" ["red", "green", "blue"]) = .ok "red, blue" :=
  (previewValue_checkbox
    [{ kind := .checkbox, name := "k", value := "red", checked := true },
      { kind := .checkbox, name := "k", value := "green", checked := false },
      { kind := .checkbox, name := "k", value := "blue", checked := true }]
    (checkboxField "k" "Kind" ["red", "green", "blue"])
    [{ kind := .checkbox, name := "k", value := "red", checked := true },
      { kind := .checkbox, name := "k", value := "blue", checked := true }]
    (by decide) (by decide)).1.trans (by decide)

/-- The value that the embedded `generateOutput` resolves for a checkbox field whose id is
plain selector text: the joined values of the checked inputs of the group, or `None` when
that text is empty. -/
theorem generateOutputValue_checkbox (doc : List DocElement) (field : Field)
    (hcheckbox : field.type = "checkbox") (hplain : isPlainSelectorText field.id = true) :
    generateOutputValue doc field =
      .ok (jsOrElse
        (String.intercalate ", "
          ((doc.filter fun el => el.isCheckbox && el.name == field.id && el.checked).map
            fun el => el.value.getD ""))
        "None") := by
  simp only [generateOutputValue, hcheckbox, beq_self_eq_true, if_true, hplain,
    jsJoin_eq_intercalate]

/-- In the embedded `generateOutput` a checked option whose value is the empty string gives
the sentinel, where the live preview gives the empty string. -/
theorem generateOutputValue_empty_option :
    generateOutputValue
        [{ id := "k-", name := "k", isCheckbox := true, value := some "", checked := true }]
        (checkboxField "k" "Kind" [""]) = .ok "None" ∧
      previewValue [{ kind := .checkbox, name := "k", value := "", checked := true }]
        (checkboxField "k" "Kind" [""]) = .ok "" := by
  decide

/-! ### Renderer dispatch (C9) -/

/-- C9, counterexample: for a field of the unknown type `date`, export mode produces the
empty string, which is not the markup of the Text renderer of export mode. -/
theorem exportFieldHtml_drops_unknown_type :
    exportFieldHtml { textField "d" "Date" with type := "date" } = .ok "" ∧
      exportFieldHtml { textField "d" "Date" with type := "date" } ≠
        .ok (exportText { textField "d" "Date" with type := "date" }) := by
  decide

/-- C9, amended: for a field whose type is none of the five tags and is not the name of a
member inherited from `Object.prototype`, live mode renders what the Text renderer
`createPreviewInput` gives, and export mode renders the empty string. -/
theorem renderPreviewField_unknown_type (field : Field)
    (htext : field.type ≠ "text") (htextarea : field.type ≠ "textarea")
    (hdropdown : field.type ≠ "searchable-dropdown") (hcheckbox : field.type ≠ "checkbox")
    (hstatic : field.type ≠ "static-text")
    (hproto : field.type ∉ objectPrototypeKeys) :
    renderPreviewField field = .ok (createPreviewInput field) ∧
      exportFieldHtml field = .ok "" := by
  have hc : objectPrototypeKeys.contains field.type = false := by
    simpa using hproto
  have h1 : field.type ≠ "constructor" := fun h => hproto (by rw [h]; decide)
  have h2 : field.type ≠ "toString" := fun h => hproto (by rw [h]; decide)
  have b1 : (field.type == "text") = false := by simpa using htext
  have b2 : (field.type == "textarea") = false := by simpa using htextarea
  have b3 : (field.type == "searchable-dropdown") = false := by simpa using hdropdown
  have b4 : (field.type == "checkbox") = false := by simpa using hcheckbox
  have b5 : (field.type == "static-text") = false := by simpa using hstatic
  constructor
  · simp only [renderPreviewField, fieldRenderers, List.lookup, b1, b2, b3, b4, b5, hc,
      Bool.false_eq_true, if_false]
  · simp only [exportFieldHtml, exportFieldRenderers, List.lookup, b1, b2, b3, b4, b5, hc,
      h1, h2, Bool.false_eq_true, if_false]

/-- C9, amended, at a field of the unknown type `date`. -/
theorem renderPreviewField_unknown_type_witness :
    renderPreviewField { textField "d" "Date" with type := "date" } =
        .ok (createPreviewInput { textField "d" "Date" with type := "date" }) ∧
      exportFieldHtml { textField "d" "Date" with type := "date" } = .ok "" :=
  renderPreviewField_unknown_type { textField "d" "Date" with type := "date" }
    (by decide) (by decide) (by decide) (by decide) (by decide) (by decide)

/-- The lookup in `fieldRenderers` with the inherited key `constructor` is not the Text
renderer: rendering throws a `TypeError`. -/
theorem renderPreviewField_constructor :
    renderPreviewField { textField "d" "Date" with type := "constructor" } =
      .error .typeError := by
  rfl

/-! ### The add action of a multi-select field (C10) -/

/-- C10, counterexample: with an empty search input the add action changes nothing and
raises no warning, although the empty text is not an option of the field; and when a
checkbox field before the multi-select field has the same id, the text `red`, which is an
option of the checkbox field only, is accepted and committed. -/
theorem addTag_unknown_value_not_rejected :
    addTag
        [{ checkboxField "d" "Fruit" ["pear", "plum"] with
            type := "searchable-dropdown", isMultiSelect := true }]
        "d" { searchValue := "", hiddenValue := "pear", tags := ["pear"], notification := none } =
      .ok { searchValue := "", hiddenValue := "pear", tags := ["pear"], notification := none } ∧
    addTag
        [checkboxField "d" "Colour" ["red"],
          { checkboxField "d" "Fruit" ["pear", "plum"] with
            type := "searchable-dropdown", isMultiSelect := true }]
        "d" { searchValue := "red", hiddenValue := "", tags := [], notification := none } =
      .ok { searchValue := "", hiddenValue := "red", tags := ["red"], notification := none } := by
  decide

/-- C10, amended: when the field id continues a CSS identifier, the search input is not empty
and its trimmed text is the value of no option of the field that the handler finds for the
button's field id (the first field of the blueprint with that id), the add action leaves
the search input, the committed value and the tag list as they were and raises the
warning that names the trimmed text. -/
theorem addTag_rejects_unknown_value (fields : List Field) (fieldId : String)
    (field : Field) (options : List FieldOption) (s : TagSelector)
    (hident : isSelectorIdentText fieldId = true) (hinput : s.searchValue ≠ "")
    (hfind : fields.find? (fun f => f.id == fieldId) = some field)
    (hoptions : field.options = some options)
    (hunknown : ∀ opt ∈ options, opt.value ≠ jsTrim s.searchValue) :
    addTag fields fieldId s =
      .ok { searchValue := s.searchValue, hiddenValue := s.hiddenValue, tags := s.tags,
            notification := some (invalidOptionMessage (jsTrim s.searchValue), true) } := by
  have hany : (options.any fun opt => opt.value == jsTrim s.searchValue) = false := by
    rw [List.any_eq_false]
    intro opt hopt
    simpa using hunknown opt hopt
  simp [addTag, hident, hinput, hfind, hoptions, hany]

/-- C10, amended, at a field with the options pear and plum and the typed text fig. -/
theorem addTag_rejects_unknown_value_witness :
    addTag
        [{ checkboxField "d" "Fruit" ["pear", "plum"] with
            type := "searchable-dropdown", isMultiSelect := true }]
        "d" { searchValue := " fig ", hiddenValue := "pear", tags := ["pear"],
              notification := none } =
      .ok { searchValue := " fig ", hiddenValue := "pear", tags := ["pear"],
            notification := some ("\"fig\" is not a valid option.", true) } :=
  (addTag_rejects_unknown_value
    [{ checkboxField "d" "Fruit" ["pear", "plum"] with
        type := "searchable-dropdown", isMultiSelect := true }]
    "d"
    { checkboxField "d" "Fruit" ["pear", "plum"] with
      type := "searchable-dropdown", isMultiSelect := true }
    [{ group := "General", value := "pear" }, { group := "General", value := "plum" }]
    { searchValue := " fig ", hiddenValue := "pear", tags := ["pear"], notification := none }
    (by decide) (by decide) (by decide) (by decide) (by decide)).trans (by decide)

/-! ### Characters -/

theorem char_cases (P : Char → Prop) (hsmall : ∀ n, n < 128 → P (Char.ofNat n))
    (hbig : ∀ c : Char, 128 ≤ c.toNat → P c) : ∀ c, P c := by
  intro c
  by_cases h : c.toNat < 128
  · have := hsmall c.toNat h
    rwa [Char.ofNat_toNat] at this
  · exact hbig c (by omega)

theorem toUpper_of_big (c : Char) (h : 128 ≤ c.toNat) : c.toUpper = c := by
  unfold Char.toUpper
  simp only []
  rw [if_neg]
  omega

theorem toLower_of_big (c : Char) (h : 128 ≤ c.toNat) : c.toLower = c := by
  unfold Char.toLower
  simp only []
  rw [if_neg]
  omega

theorem isUpper_of_big (c : Char) (h : 128 ≤ c.toNat) : c.isUpper = false := by
  have h2 : ¬ (c.val ≤ 90) := by
    intro hle
    have : c.toNat ≤ 90 := hle
    omega
  simp [Char.isUpper, h2]

theorem isWordChar_of_big (c : Char) (h : 128 ≤ c.toNat) : isWordChar c = false := by
  have h1 : ¬ (c.val ≤ 90) := by
    intro hle
    have : c.toNat ≤ 90 := hle
    omega
  have h2 : ¬ (c.val ≤ 122) := by
    intro hle
    have : c.toNat ≤ 122 := hle
    omega
  have h3 : ¬ (c.val ≤ 57) := by
    intro hle
    have : c.toNat ≤ 57 := hle
    omega
  have h4 : c ≠ Char.ofNat 95 := by
    intro hc; rw [hc] at h; revert h; decide
  simp [isWordChar, Char.isAlphanum, Char.isAlpha, Char.isUpper, Char.isLower, Char.isDigit,
    h1, h2, h3, h4]

set_option maxRecDepth 100000 in
theorem toUpper_toUpper (c : Char) : c.toUpper.toUpper = c.toUpper := by
  revert c
  apply char_cases
  · decide
  · intro c h
    rw [toUpper_of_big c h, toUpper_of_big c h]

set_option maxRecDepth 100000 in
theorem toLower_toLower (c : Char) : c.toLower.toLower = c.toLower := by
  revert c
  apply char_cases
  · decide
  · intro c h
    rw [toLower_of_big c h, toLower_of_big c h]

set_option maxRecDepth 100000 in
theorem isWordChar_toUpper (c : Char) : isWordChar c.toUpper = isWordChar c := by
  revert c
  apply char_cases
  · decide
  · intro c h
    rw [toUpper_of_big c h]

set_option maxRecDepth 100000 in
theorem isWordChar_toLower (c : Char) : isWordChar c.toLower = isWordChar c := by
  revert c
  apply char_cases
  · decide
  · intro c h
    rw [toLower_of_big c h]

set_option maxRecDepth 100000 in
theorem isWordChar_of_isUpper (c : Char) : c.isUpper = true → isWordChar c = true := by
  revert c
  apply char_cases
  · decide
  · intro c h hu
    rw [isUpper_of_big c h] at hu
    exact absurd hu (by decide)

set_option maxRecDepth 100000 in
theorem isWordChar_of_isAlpha (c : Char) : c.isAlpha = true → isWordChar c = true := by
  intro h
  simp only [isWordChar, Char.isAlphanum, h, Bool.true_or]

set_option maxRecDepth 100000 in
theorem not_whitespace_of_isWordChar (c : Char) :
    isWordChar c = true → isJsWhitespace c = false := by
  revert c
  apply char_cases
  · decide
  · intro c h hw
    rw [isWordChar_of_big c h] at hw
    exact absurd hw (by decide)

set_option maxRecDepth 100000 in
theorem toUpper_of_isUpper (c : Char) : c.isUpper = true → c.toUpper = c := by
  revert c
  apply char_cases
  · decide
  · intro c h _
    exact toUpper_of_big c h

set_option maxRecDepth 100000 in
theorem toLower_of_not_isUpper (c : Char) : c.isUpper = false → c.toLower = c := by
  revert c
  apply char_cases
  · decide
  · intro c h _
    exact toLower_of_big c h

set_option maxRecDepth 100000 in
theorem sameUpToCase_toLower (c : Char) : sameUpToCase c.toLower c := by
  revert c
  apply char_cases
  · decide
  · intro c h
    rw [toLower_of_big c h]
    exact Or.inl rfl

set_option maxRecDepth 100000 in
theorem sameUpToCase_toUpper (c : Char) : sameUpToCase c.toUpper c := by
  revert c
  apply char_cases
  · decide
  · intro c h
    rw [toUpper_of_big c h]
    exact Or.inl rfl

/-! ### The identifier deriver -/

theorem camelCaseScan_cons (i : Nat) (prev : Option Char) (c : Char) (l : List Char) :
    camelCaseScan i prev (c :: l) =
      (if (c.isUpper || (isWordChar c && !(prev.any isWordChar))) = true then
          (if (i == 0) = true then c.toLower else c.toUpper)
        else c) :: camelCaseScan (i + 1) (some c) l := by
  rw [camelCaseScan]

theorem camelCaseScan_succ_cons (i : Nat) (prev : Option Char) (c : Char) (l : List Char) :
    camelCaseScan (i + 1) prev (c :: l) =
      (if (c.isUpper || (isWordChar c && !(prev.any isWordChar))) = true then c.toUpper
        else c) :: camelCaseScan (i + 2) (some c) l := by
  rw [camelCaseScan_cons]
  simp

theorem camelCaseScan_succ_index (i j : Nat) (prev : Option Char) (l : List Char) :
    camelCaseScan (i + 1) prev l = camelCaseScan (j + 1) prev l := by
  induction l generalizing i j prev with
  | nil => simp [camelCaseScan]
  | cons c l ih =>
    rw [camelCaseScan_succ_cons, camelCaseScan_succ_cons, ih (i + 1) (j + 1)]

theorem toCamelCase_data (s : String) :
    (toCamelCase s).data =
      (camelCaseScan 0 none s.data).filter fun c => !isJsWhitespace c := by
  unfold toCamelCase
  split
  · next h => subst h; rfl
  · rfl

/-- Inside a word: after a word character, letters are left as they are. -/
theorem camelCaseScan_letters (i : Nat) (p : Char) (cs t : List Char)
    (hp : isWordChar p = true) (hcs : ∀ c ∈ cs, c.isAlpha = true) :
    camelCaseScan (i + 1) (some p) (cs ++ t) =
      cs ++ camelCaseScan (i + 1) (some ((p :: cs).getLast (by simp))) t := by
  induction cs generalizing i p with
  | nil => simp
  | cons c cs ih =>
    have hc := hcs c (List.mem_cons_self _ _)
    have hw := isWordChar_of_isAlpha c hc
    have hrest : ∀ d ∈ cs, d.isAlpha = true := fun d hd => hcs d (List.mem_cons_of_mem _ hd)
    rw [List.cons_append, camelCaseScan_succ_cons, ih (i + 1) c hw hrest,
      camelCaseScan_succ_index (i + 1) i]
    have hhead : (if (c.isUpper || (isWordChar c && !((some p).any isWordChar))) = true
        then c.toUpper else c) = c := by
      by_cases hu : c.isUpper = true
      · simp [hu, toUpper_of_isUpper c hu]
      · simp [hu, hp]
    rw [hhead]
    simp [List.getLast_cons]

theorem filter_letters (cs : List Char) (hcs : ∀ c ∈ cs, c.isAlpha = true) :
    cs.filter (fun c => !isJsWhitespace c) = cs := by
  rw [List.filter_eq_self]
  intro c hc
  simp [not_whitespace_of_isWordChar c (isWordChar_of_isAlpha c (hcs c hc))]

theorem camelCaseScan_later_words (i : Nat) (p : Char) (rest : List (List Char))
    (hrest : ∀ w ∈ rest, w ≠ [] ∧ ∀ c ∈ w, c.isAlpha = true) :
    (camelCaseScan (i + 1) (some p) (rest.flatMap fun w => ' ' :: w)).filter
        (fun c => !isJsWhitespace c) = rest.flatMap upperFirst := by
  induction rest generalizing i p with
  | nil => simp [camelCaseScan]
  | cons w rest ih =>
    obtain ⟨hne, hw⟩ := hrest w (List.mem_cons_self _ _)
    have hrest2 : ∀ v ∈ rest, v ≠ [] ∧ ∀ c ∈ v, c.isAlpha = true :=
      fun v hv => hrest v (List.mem_cons_of_mem _ hv)
    cases w with
    | nil => exact absurd rfl hne
    | cons d ds =>
      have hd := hw d (List.mem_cons_self _ _)
      have hdw := isWordChar_of_isAlpha d hd
      have hds : ∀ c ∈ ds, c.isAlpha = true := fun c hc => hw c (List.mem_cons_of_mem _ hc)
      have hspace : (if ((' ' : Char).isUpper || (isWordChar ' ' &&
          !((some p).any isWordChar))) = true then (' ' : Char).toUpper else ' ') = ' ' := by
        have h1 : (' ' : Char).isUpper = false := by decide
        have h2 : isWordChar ' ' = false := by decide
        simp [h1, h2]
      have hfirst : (if (d.isUpper || (isWordChar d &&
          !((some ' ').any isWordChar))) = true then d.toUpper else d) = d.toUpper := by
        have h2 : isWordChar ' ' = false := by decide
        simp [hdw, h2]
      have hup : isJsWhitespace d.toUpper = false :=
        not_whitespace_of_isWordChar _ (by rw [isWordChar_toUpper]; exact hdw)
      have hsp : isJsWhitespace ' ' = true := by decide
      rw [List.flatMap_cons, List.cons_append, camelCaseScan_succ_cons, hspace,
        List.cons_append, camelCaseScan_succ_cons, hfirst,
        camelCaseScan_letters (i + 2) d ds _ hdw hds]
      simp only [List.filter_cons, hsp, hup, Bool.not_true, Bool.not_false, if_true,
        Bool.false_eq_true, if_false, List.filter_append, filter_letters ds hds]
      rw [ih (i + 2) _ hrest2]
      simp [upperFirst]

/-- C12: for a label made of one or more non-empty words of ASCII letters separated by single
blanks, `toCamelCase` returns the words without the blanks, the first word with its first
letter in lower case, every later word with its first letter in upper case, and every
other letter as it was; and `Caller Name` gives `callerName`. -/
theorem toCamelCase_words (first : List Char) (rest : List (List Char))
    (hwords : ∀ w ∈ first :: rest, w ≠ [] ∧ ∀ c ∈ w, c.isAlpha = true) :
    toCamelCase (String.mk (first ++ rest.flatMap fun w => ' ' :: w)) =
        String.mk (lowerFirst first ++ rest.flatMap upperFirst) ∧
      toCamelCase "Caller Name" = "callerName" := by
  refine ⟨?_, by decide⟩
  obtain ⟨hne, hfirst⟩ := hwords first (List.mem_cons_self _ _)
  have hrest : ∀ w ∈ rest, w ≠ [] ∧ ∀ c ∈ w, c.isAlpha = true :=
    fun w hw => hwords w (List.mem_cons_of_mem _ hw)
  apply String.ext
  rw [toCamelCase_data]
  cases first with
  | nil => exact absurd rfl hne
  | cons c cs =>
    have hc := hfirst c (List.mem_cons_self _ _)
    have hcw := isWordChar_of_isAlpha c hc
    have hcs : ∀ d ∈ cs, d.isAlpha = true := fun d hd => hfirst d (List.mem_cons_of_mem _ hd)
    have hhead : (if (c.isUpper || (isWordChar c && !((none : Option Char).any isWordChar)))
        = true then (if ((0 : Nat) == 0) = true then c.toLower else c.toUpper) else c) =
        c.toLower := by
      simp [hcw]
    have hlow : isJsWhitespace c.toLower = false :=
      not_whitespace_of_isWordChar _ (by rw [isWordChar_toLower]; exact hcw)
    show List.filter _ (camelCaseScan 0 none (c :: cs ++ _)) = _
    rw [List.cons_append, camelCaseScan_cons, hhead, camelCaseScan_letters 0 c cs _ hcw hcs]
    simp only [List.filter_cons, hlow, Bool.not_false, if_true, List.filter_append,
      filter_letters cs hcs]
    rw [camelCaseScan_later_words 0 _ rest hrest]
    simp [lowerFirst]

/-- C12 at the label `Case ID Number`. -/
theorem toCamelCase_words_witness :
    toCamelCase "Case ID Number" = "caseIDNumber" :=
  (toCamelCase_words "Case".data ["ID".data, "Number".data] (by decide)).1.trans (by decide)

theorem camelCaseScan_char (i : Nat) (prev : Option Char) (c : Char) :
    ∃ d, (∀ l, camelCaseScan i prev (c :: l) = d :: camelCaseScan (i + 1) (some c) l) ∧
      sameUpToCase d c ∧ isJsWhitespace d = isJsWhitespace c ∧
      isWordChar d = isWordChar c := by
  refine ⟨_, fun l => camelCaseScan_cons i prev c l, ?_⟩
  split
  · next hm =>
    have hw : isWordChar c = true := by
      simp only [Bool.or_eq_true, Bool.and_eq_true] at hm
      rcases hm with hm | hm
      · exact isWordChar_of_isUpper c hm
      · exact hm.1
    split
    · refine ⟨sameUpToCase_toLower c, ?_, isWordChar_toLower c⟩
      rw [not_whitespace_of_isWordChar c hw,
        not_whitespace_of_isWordChar _ (by rw [isWordChar_toLower]; exact hw)]
    · refine ⟨sameUpToCase_toUpper c, ?_, isWordChar_toUpper c⟩
      rw [not_whitespace_of_isWordChar c hw,
        not_whitespace_of_isWordChar _ (by rw [isWordChar_toUpper]; exact hw)]
  · exact ⟨Or.inl rfl, rfl, rfl⟩

theorem camelCaseScan_sameUpToCase (i : Nat) (prev : Option Char) (l : List Char) :
    List.Forall₂ sameUpToCase
      ((camelCaseScan i prev l).filter fun c => !isJsWhitespace c)
      (l.filter fun c => !isJsWhitespace c) := by
  induction l generalizing i prev with
  | nil => simp [camelCaseScan]
  | cons c l ih =>
    obtain ⟨d, hd, hsame, hws, _⟩ := camelCaseScan_char i prev c
    rw [hd l]
    by_cases hc : isJsWhitespace c = true
    · simp only [List.filter_cons, hws, hc, Bool.not_true, Bool.false_eq_true, if_false]
      exact ih _ _
    · have hc2 : isJsWhitespace c = false := by simpa using hc
      simp only [List.filter_cons, hws, hc2, Bool.not_false, if_true]
      exact List.Forall₂.cons hsame (ih _ _)

/-- C14: for every string, the result of `toCamelCase` contains no whitespace character; it is
the string without its whitespace characters, character by character the same up to the
case of an ASCII letter; and it is empty exactly when the string is empty or consists of
whitespace only. -/
theorem toCamelCase_strips_whitespace (s : String) :
    (∀ c ∈ (toCamelCase s).data, isJsWhitespace c = false) ∧
      List.Forall₂ sameUpToCase (toCamelCase s).data
        (s.data.filter fun c => !isJsWhitespace c) ∧
      (toCamelCase s = "" ↔ s.data.all isJsWhitespace = true) := by
  have hrel := camelCaseScan_sameUpToCase 0 none s.data
  rw [← toCamelCase_data] at hrel
  refine ⟨?_, hrel, ?_⟩
  · intro c hc
    rw [toCamelCase_data, List.mem_filter] at hc
    simpa using hc.2
  · have hlen := hrel.length_eq
    constructor
    · intro h
      rw [h] at hlen
      have hnil : (s.data.filter fun c => !isJsWhitespace c) = [] :=
        List.eq_nil_of_length_eq_zero hlen.symm
      rw [List.filter_eq_nil_iff] at hnil
      rw [List.all_eq_true]
      intro c hc
      simpa using hnil c hc
    · intro h
      have hnil : (s.data.filter fun c => !isJsWhitespace c) = [] := by
        rw [List.filter_eq_nil_iff]
        intro c hc
        rw [List.all_eq_true] at h
        simp [h c hc]
      rw [hnil] at hlen
      exact String.ext (List.eq_nil_of_length_eq_zero hlen)

/-! ### Idempotence of the identifier deriver -/

/-- The second pass over a derived text changes nothing after the first character: a
character that the first pass matched is already in upper case, and one that it did not
match still follows a word character. -/
theorem camelCaseScan_stable (i j : Nat) (prev prev2 : Option Char) (l : List Char)
    (hprev : prev.any isWordChar = true → prev2.any isWordChar = true) :
    camelCaseScan (j + 1) prev2
        ((camelCaseScan (i + 1) prev l).filter fun c => !isJsWhitespace c) =
      (camelCaseScan (i + 1) prev l).filter fun c => !isJsWhitespace c := by
  induction l generalizing i j prev prev2 with
  | nil => simp [camelCaseScan]
  | cons c l ih =>
    rw [camelCaseScan_succ_cons]
    by_cases hws : isJsWhitespace c = true
    · have hw : isWordChar c = false := by
        cases h : isWordChar c with
        | false => rfl
        | true => rw [not_whitespace_of_isWordChar c h] at hws; exact absurd hws (by decide)
      have hu : c.isUpper = false := by
        cases h : c.isUpper with
        | false => rfl
        | true => rw [isWordChar_of_isUpper c h] at hw; exact absurd hw (by decide)
      simp only [hu, hw, Bool.false_and, Bool.or_false, Bool.false_eq_true, if_false,
        List.filter_cons, hws, Bool.not_true]
      exact ih (i + 1) j (some c) prev2 (by simp [hw])
    · have hws2 : isJsWhitespace c = false := by simpa using hws
      by_cases hm : (c.isUpper || (isWordChar c && !(prev.any isWordChar))) = true
      · have hw : isWordChar c = true := by
          simp only [Bool.or_eq_true, Bool.and_eq_true] at hm
          rcases hm with hm | hm
          · exact isWordChar_of_isUpper c hm
          · exact hm.1
        have hwu : isWordChar c.toUpper = true := by rw [isWordChar_toUpper]; exact hw
        have hwsu : isJsWhitespace c.toUpper = false := not_whitespace_of_isWordChar _ hwu
        simp only [hm, if_true, List.filter_cons, hwsu, Bool.not_false]
        rw [camelCaseScan_succ_cons, ih (i + 1) (j + 1) (some c) (some c.toUpper)
          (by simp [hwu])]
        congr 1
        split
        · exact toUpper_toUpper c
        · rfl
      · simp only [hm, Bool.false_eq_true, if_false, List.filter_cons, hws2, Bool.not_false,
          if_true]
        rw [camelCaseScan_succ_cons, ih (i + 1) (j + 1) (some c) (some c) (fun h => h)]
        congr 1
        rw [if_neg]
        intro hm2
        apply hm
        simp only [Bool.or_eq_true, Bool.and_eq_true] at hm hm2 ⊢
        rcases hm2 with hm2 | ⟨hw, hp2⟩
        · exact Or.inl hm2
        · right
          refine ⟨hw, ?_⟩
          cases hp : prev.any isWordChar with
          | false => rfl
          | true => rw [hprev hp] at hp2; exact absurd hp2 (by decide)

/-- For a text that does not begin with whitespace, deriving the identifier of a derived
identifier changes nothing. -/
theorem toCamelCase_stable_of_head (s : String)
    (hhead : ∀ c, s.data.head? = some c → isJsWhitespace c = false) :
    toCamelCase (toCamelCase s) = toCamelCase s := by
  apply String.ext
  rw [toCamelCase_data (toCamelCase s), toCamelCase_data s]
  cases hs : s.data with
  | nil => simp [camelCaseScan]
  | cons c l =>
    have hc : isJsWhitespace c = false := hhead c (by simp [hs])
    rw [camelCaseScan_cons]
    -- the first character of the first pass
    by_cases hm : (c.isUpper || (isWordChar c && !((none : Option Char).any isWordChar))) = true
    · have hw : isWordChar c = true := by
        simp only [Bool.or_eq_true, Bool.and_eq_true] at hm
        rcases hm with hm | hm
        · exact isWordChar_of_isUpper c hm
        · exact hm.1
      have hwl : isWordChar c.toLower = true := by rw [isWordChar_toLower]; exact hw
      have hwsl : isJsWhitespace c.toLower = false := not_whitespace_of_isWordChar _ hwl
      simp only [hm, if_true, beq_self_eq_true, List.filter_cons, hwsl, Bool.not_false]
      rw [camelCaseScan_cons]
      have hm2 : (c.toLower.isUpper || (isWordChar c.toLower &&
          !((none : Option Char).any isWordChar))) = true := by simp [hwl]
      simp only [hm2, if_true, beq_self_eq_true, List.filter_cons, toLower_toLower, hwsl,
        Bool.not_false]
      rw [camelCaseScan_stable 0 0 (some c) (some c.toLower) l (by simp [hwl])]
      rw [List.filter_filter]
      simp
    · simp only [hm, Bool.false_eq_true, if_false, List.filter_cons, hc, Bool.not_false,
        if_true]
      rw [camelCaseScan_cons]
      simp only [hm, Bool.false_eq_true, if_false, List.filter_cons, hc, Bool.not_false,
        if_true]
      rw [camelCaseScan_stable 0 0 (some c) (some c) l (fun h => h)]
      rw [List.filter_filter]
      simp

/-- C13, counterexample: for a blank followed by `a` the derived identifier is `A`, and the
identifier derived from `A` is `a`. -/
theorem toCamelCase_not_idempotent :
    toCamelCase " a" = "A" ∧ toCamelCase (toCamelCase " a") = "a" := by
  decide

/-- C13, amended: for every string whose first character is not whitespace,
`toCamelCase (toCamelCase s) = toCamelCase s`; and for every string at all, a derived
identifier is stable: deriving from `toCamelCase t` once more gives `toCamelCase t`'s own
derivation again. -/
theorem toCamelCase_idempotent (s : String)
    (hhead : ∀ c, s.data.head? = some c → isJsWhitespace c = false) :
    toCamelCase (toCamelCase s) = toCamelCase s ∧
      ∀ t : String,
        toCamelCase (toCamelCase (toCamelCase t)) = toCamelCase (toCamelCase t) := by
  refine ⟨toCamelCase_stable_of_head s hhead, fun t => ?_⟩
  apply toCamelCase_stable_of_head
  intro c hc
  have hmem : c ∈ (toCamelCase t).data := List.mem_of_mem_head? hc
  rw [toCamelCase_data, List.mem_filter] at hmem
  simpa using hmem.2

/-- C13, amended, at the label `Caller Name`. -/
theorem toCamelCase_idempotent_witness :
    toCamelCase (toCamelCase "Caller Name") = toCamelCase "Caller Name" :=
  (toCamelCase_idempotent "Caller Name" (by decide)).1

/-! ### Joining and splitting on commas -/

theorem jsJoinLoop_data (sep acc : String) (xs : List String) :
    (jsJoinLoop sep acc false xs).data =
      acc.data ++ xs.flatMap fun x => sep.data ++ x.data := by
  induction xs generalizing acc with
  | nil => simp [jsJoinLoop]
  | cons x xs ih => simp [jsJoinLoop, ih, String.data_append]

theorem jsJoin_cons_data (sep x : String) (xs : List String) :
    (jsJoin sep (x :: xs)).data = x.data ++ xs.flatMap fun y => sep.data ++ y.data := by
  simp [jsJoin, jsJoinLoop, jsJoinLoop_data, String.data_append]

theorem jsSplitChars_ne_nil (sep : Char) (l : List Char) : jsSplitChars sep l ≠ [] := by
  cases l with
  | nil => simp [jsSplitChars]
  | cons c l =>
    rw [jsSplitChars]
    split
    · simp
    · split <;> simp

theorem jsSplitChars_free (sep : Char) (a : List Char) (ha : sep ∉ a) :
    jsSplitChars sep a = [a] := by
  induction a with
  | nil => rfl
  | cons c a ih =>
    have hc : c ≠ sep := fun h => ha (by simp [h])
    rw [jsSplitChars, if_neg hc, ih fun h => ha (List.mem_cons_of_mem _ h)]

theorem jsSplitChars_append (sep : Char) (a rest : List Char) (ha : sep ∉ a) :
    jsSplitChars sep (a ++ sep :: rest) = a :: jsSplitChars sep rest := by
  induction a with
  | nil => simp [jsSplitChars]
  | cons c a ih =>
    have hc : c ≠ sep := fun h => ha (by simp [h])
    rw [List.cons_append, jsSplitChars, if_neg hc, ih fun h => ha (List.mem_cons_of_mem _ h)]

theorem jsSplitChars_joined (x : String) (xs : List String)
    (hfree : ∀ t ∈ x :: xs, comma ∉ t.data) :
    jsSplitChars comma (x.data ++ xs.flatMap fun y => comma :: y.data) =
      (x :: xs).map String.data := by
  induction xs generalizing x with
  | nil =>
    simpa using jsSplitChars_free comma x.data (hfree x (List.mem_cons_self _ _))
  | cons y ys ih =>
    have hx := hfree x (List.mem_cons_self _ _)
    have hrest : ∀ t ∈ y :: ys, comma ∉ t.data := fun t ht => hfree t (List.mem_cons_of_mem _ ht)
    rw [List.flatMap_cons, List.cons_append, jsSplitChars_append comma _ _ hx, ih y hrest]
    simp

theorem jsSplit_jsJoin (tags : List String) (hne : tags ≠ [])
    (hfree : ∀ t ∈ tags, comma ∉ t.data) :
    jsSplit comma (jsJoin "," tags) = tags := by
  cases tags with
  | nil => exact absurd rfl hne
  | cons x xs =>
    have hsep : (fun y : String => ",".data ++ y.data) = fun y => comma :: y.data := by
      funext y; rfl
    rw [jsSplit, jsJoin_cons_data, hsep, jsSplitChars_joined x xs hfree, List.map_map]
    have : String.mk ∘ String.data = id := by funext s; rfl
    rw [this, List.map_id]

theorem jsJoin_eq_empty_iff (tags : List String) (hne : ∀ t ∈ tags, t ≠ "") :
    jsJoin "," tags = "" ↔ tags = [] := by
  constructor
  · intro h
    cases tags with
    | nil => rfl
    | cons x xs =>
      exfalso
      have hx := hne x (List.mem_cons_self _ _)
      have hd := congrArg String.data h
      rw [jsJoin_cons_data] at hd
      have hd2 : x.data ++ (xs.flatMap fun y => ",".data ++ y.data) = [] := hd
      exact hx (String.ext (List.append_eq_nil.mp hd2).1)
  · intro h
    subst h
    rfl

/-- The committed values that the add action reads back from the hidden input are the tags,
when the hidden input holds the tags joined with commas and no tag is empty or contains a
comma. -/
theorem currentValues_eq_tags (tags : List String)
    (hplain : ∀ t ∈ tags, t ≠ "" ∧ comma ∉ t.data) :
    (if jsJoin "," tags = "" then [] else jsSplit (Char.ofNat 44) (jsJoin "," tags)) = tags := by
  by_cases hnil : tags = []
  · subst hnil; rfl
  · have hne : jsJoin "," tags ≠ "" := fun h =>
      hnil ((jsJoin_eq_empty_iff tags fun t ht => (hplain t ht).1).mp h)
    rw [if_neg hne]
    exact jsSplit_jsJoin tags hnil fun t ht => (hplain t ht).2

/-! ### The committed value of a multi-select field (C11) -/

theorem addTag_cases (fields : List Field) (fieldId : String) (field : Field)
    (options : List FieldOption) (s : TagSelector)
    (hident : isSelectorIdentText fieldId = true)
    (hfind : fields.find? (fun f => f.id == fieldId) = some field)
    (hoptions : field.options = some options)
    (hmarkup : ∀ opt ∈ options, Char.ofNat 60 ∉ opt.value.data)
    (hinv : s.hiddenValue = jsJoin "," s.tags)
    (hplain : ∀ t ∈ s.tags, t ≠ "" ∧ comma ∉ t.data) :
    addTag fields fieldId s =
      .ok (if s.searchValue = "" then s
        else if (options.any fun opt => opt.value == jsTrim s.searchValue) = false then
          { s with notification := some (invalidOptionMessage (jsTrim s.searchValue), true) }
        else if jsTrim s.searchValue ∈ s.tags then { s with searchValue := "" }
        else
          { s with
            tags := s.tags ++ [jsTrim s.searchValue]
            hiddenValue := jsJoin "," (s.tags ++ [jsTrim s.searchValue])
            searchValue := "" }) := by
  have hcur := currentValues_eq_tags s.tags hplain
  rw [← hinv] at hcur
  unfold addTag
  simp only [hident, Bool.not_true, Bool.false_eq_true, if_false, hfind, hoptions]
  by_cases h1 : s.searchValue = ""
  · simp [h1]
  · simp only [h1, if_false]
    by_cases h2 : (options.any fun opt => opt.value == jsTrim s.searchValue) = false
    · simp [h2]
    · have h2t : (options.any fun opt => opt.value == jsTrim s.searchValue) = true := by
        simpa using h2
      have hno : (jsTrim s.searchValue).data.contains (Char.ofNat 60) = false := by
        rw [List.any_eq_true] at h2t
        obtain ⟨opt, hopt, hb⟩ := h2t
        have hv : opt.value = jsTrim s.searchValue := by simpa using hb
        have := hmarkup opt hopt
        rw [hv] at this
        simpa using this
      simp only [h2t, Bool.not_true, Bool.false_eq_true, if_false, hcur,
        List.contains_eq_any_beq]
      by_cases h3 : jsTrim s.searchValue ∈ s.tags
      · have : (s.tags.any fun x => jsTrim s.searchValue == x) = true := by
          rw [List.any_eq_true]; exact ⟨_, h3, by simp⟩
        simp [h3, this]
      · have : (s.tags.any fun x => jsTrim s.searchValue == x) = false := by
          rw [List.any_eq_false]
          intro x hx hb
          exact h3 (by rw [beq_iff_eq] at hb; rw [hb]; exact hx)
        rw [List.contains_eq_any_beq] at hno
        simp [h3, this, hno]

theorem addTags_invariant (fields : List Field) (fieldId : String) (field : Field)
    (options : List FieldOption)
    (hident : isSelectorIdentText fieldId = true)
    (hfind : fields.find? (fun f => f.id == fieldId) = some field)
    (hoptions : field.options = some options)
    (hvalues : ∀ opt ∈ options,
      opt.value ≠ "" ∧ comma ∉ opt.value.data ∧ Char.ofNat 60 ∉ opt.value.data)
    (inputs : List String) (s : TagSelector)
    (hinv : s.hiddenValue = jsJoin "," s.tags)
    (htags : ∀ t ∈ s.tags, ∃ opt ∈ options, opt.value = t) :
    ∃ last, addTags fields fieldId inputs s = .ok last ∧
      last.hiddenValue = jsJoin "," last.tags ∧
      (∀ t ∈ last.tags, ∃ opt ∈ options, opt.value = t) := by
  induction inputs generalizing s with
  | nil => exact ⟨s, rfl, hinv, htags⟩
  | cons typed rest ih =>
    have hplain : ∀ t ∈ s.tags, t ≠ "" ∧ comma ∉ t.data := by
      intro t ht
      obtain ⟨opt, hopt, rfl⟩ := htags t ht
      exact ⟨(hvalues opt hopt).1, (hvalues opt hopt).2.1⟩
    have hstep := addTag_cases fields fieldId field options { s with searchValue := typed }
      hident hfind hoptions (fun opt hopt => (hvalues opt hopt).2.2) hinv hplain
    simp only [addTags, hstep]
    apply ih
    · split
      · exact hinv
      · split
        · exact hinv
        · split
          · exact hinv
          · rfl
    · split
      · exact htags
      · split
        · exact htags
        · split
          · exact htags
          · next h2 _ =>
            intro t ht
            simp only [List.mem_append, List.mem_singleton] at ht
            rcases ht with ht | ht
            · exact htags t ht
            · have h2t : (options.any fun opt => opt.value == jsTrim typed) = true := by
                simpa using h2
              rw [List.any_eq_true] at h2t
              obtain ⟨opt, hopt, hb⟩ := h2t
              exact ⟨opt, hopt, by rw [ht]; simpa using hb⟩

/-- C11, counterexample: the field has the options `Sales, EU` and `Sales`.  After `Sales, EU`
was added, adding `Sales`, an option that is not an accepted tag, appends nothing: the
committed value is read back by splitting at commas, and `Sales` is one of its pieces. -/
theorem addTag_comma_option_not_appended :
    addTag
        [{ checkboxField "team" "Team" ["Sales, EU", "Sales"] with
            type := "searchable-dropdown", isMultiSelect := true }]
        "team" { emptyTagSelector with searchValue := "Sales, EU" } =
      .ok { searchValue := "", hiddenValue := "Sales, EU", tags := ["Sales, EU"],
            notification := none } ∧
    addTag
        [{ checkboxField "team" "Team" ["Sales, EU", "Sales"] with
            type := "searchable-dropdown", isMultiSelect := true }]
        "team" { searchValue := "Sales", hiddenValue := "Sales, EU", tags := ["Sales, EU"],
                 notification := none } =
      .ok { searchValue := "", hiddenValue := "Sales, EU", tags := ["Sales, EU"],
            notification := none } := by
  decide

/-- C11, amended: let the field id consist of ASCII letters, digits, underscores and
hyphens, let the field be the first field of the blueprint with that id (the field that
the handler finds), and let it have an option list none of whose values is empty or
contains a comma or a `<`.  In every state whose committed value is the tags joined with
commas and whose tags are option values, adding a typed text whose trimmed form is an
option value and not yet a tag appends that value as the last tag and commits the new tag
list joined with commas; and after any sequence of add actions from the empty state the
committed value is the tags, in the order they were accepted, joined with commas, and
every tag is an option value. -/
theorem addTag_appends_accepted (fields : List Field) (fieldId : String) (field : Field)
    (options : List FieldOption) (s : TagSelector)
    (hident : isSelectorIdentText fieldId = true)
    (hfind : fields.find? (fun f => f.id == fieldId) = some field)
    (hoptions : field.options = some options)
    (hvalues : ∀ opt ∈ options,
      opt.value ≠ "" ∧ comma ∉ opt.value.data ∧ Char.ofNat 60 ∉ opt.value.data)
    (hinv : s.hiddenValue = jsJoin "," s.tags)
    (htags : ∀ t ∈ s.tags, ∃ opt ∈ options, opt.value = t)
    (hvalid : ∃ opt ∈ options, opt.value = jsTrim s.searchValue)
    (hnew : jsTrim s.searchValue ∉ s.tags) :
    addTag fields fieldId s =
        .ok { searchValue := "", hiddenValue := jsJoin "," (s.tags ++ [jsTrim s.searchValue]),
              tags := s.tags ++ [jsTrim s.searchValue], notification := s.notification } ∧
      ∀ inputs : List String,
        ∃ last, addTags fields fieldId inputs emptyTagSelector = .ok last ∧
          last.hiddenValue = jsJoin "," last.tags ∧
          ∀ t ∈ last.tags, ∃ opt ∈ options, opt.value = t := by
  constructor
  · have hplain : ∀ t ∈ s.tags, t ≠ "" ∧ comma ∉ t.data := by
      intro t ht
      obtain ⟨opt, hopt, rfl⟩ := htags t ht
      exact ⟨(hvalues opt hopt).1, (hvalues opt hopt).2.1⟩
    rw [addTag_cases fields fieldId field options s hident hfind hoptions
      (fun opt hopt => (hvalues opt hopt).2.2) hinv hplain]
    have hany : (options.any fun opt => opt.value == jsTrim s.searchValue) = true := by
      rw [List.any_eq_true]
      obtain ⟨opt, hopt, hv⟩ := hvalid
      exact ⟨opt, hopt, by simp [hv]⟩
    have hinput : s.searchValue ≠ "" := by
      intro hempty
      obtain ⟨opt, hopt, hv⟩ := hvalid
      rw [hempty] at hv
      exact (hvalues opt hopt).1 (hv.trans (by decide))
    simp [hinput, hany, hnew]
  · intro inputs
    exact addTags_invariant fields fieldId field options hident hfind hoptions hvalues inputs
      emptyTagSelector rfl (by simp [emptyTagSelector])

/-- C11, amended, at a field with the options pear and plum: plum is added after pear. -/
theorem addTag_appends_accepted_witness :
    addTag
        [{ checkboxField "d" "Fruit" ["pear", "plum"] with
            type := "searchable-dropdown", isMultiSelect := true }]
        "d" { searchValue := " plum", hiddenValue := "pear", tags := ["pear"],
              notification := none } =
      .ok { searchValue := "", hiddenValue := "pear,plum", tags := ["pear", "plum"],
            notification := none } :=
  (addTag_appends_accepted
    [{ checkboxField "d" "Fruit" ["pear", "plum"] with
        type := "searchable-dropdown", isMultiSelect := true }]
    "d"
    { checkboxField "d" "Fruit" ["pear", "plum"] with
      type := "searchable-dropdown", isMultiSelect := true }
    [{ group := "General", value := "pear" }, { group := "General", value := "plum" }]
    { searchValue := " plum", hiddenValue := "pear", tags := ["pear"], notification := none }
    (by decide) (by decide) (by decide) (by decide) (by decide) (by decide) (by decide)
    (by decide)).1.trans (by decide)

/-! ### The passes of the markdown-lite parser -/

theorem replaceChar_append (c : Char) (r a b : List Char) :
    replaceChar c r (a ++ b) = replaceChar c r a ++ replaceChar c r b := by
  simp [replaceChar, List.flatMap_append]

theorem escapeHtml_append (a b : List Char) :
    escapeHtml (a ++ b) = escapeHtml a ++ escapeHtml b := by
  simp [escapeHtml, List.flatMap_append]

theorem escapeHtml_cons (c : Char) (a : List Char) :
    escapeHtml (c :: a) = escapeChar c ++ escapeHtml a := by
  simp [escapeHtml, List.flatMap_cons]

/-- The three escaping passes of the source, one after the other, are the escaping of
every character on its own. -/
theorem escaping_passes (text : List Char) :
    replaceChar (Char.ofNat 62) "&gt;".data
      (replaceChar (Char.ofNat 60) "&lt;".data
        (replaceChar ampersand "&amp;".data text)) = escapeHtml text := by
  induction text with
  | nil => rfl
  | cons c rest ih =>
    have hc : replaceChar ampersand "&amp;".data (c :: rest) =
        (if c = ampersand then "&amp;".data else [c]) ++
          replaceChar ampersand "&amp;".data rest := by
      simp [replaceChar, List.flatMap_cons]
    rw [hc, replaceChar_append, replaceChar_append, ih, escapeHtml_cons]
    congr 1
    unfold escapeChar
    by_cases h1 : c = ampersand
    · subst h1; decide
    · by_cases h2 : c = lessThan
      · subst h2; decide
      · by_cases h3 : c = greaterThan
        · subst h3; decide
        · have h2a : c ≠ Char.ofNat 60 := h2
          have h3a : c ≠ Char.ofNat 62 := h3
          simp [h1, h2, h3, replaceChar, h2a, h3a]

theorem parseSimpleMarkdown_data (text : String) :
    (parseSimpleMarkdown text).data =
      expandLinks 0
        (expandDelimited (Char.ofNat 95) "<em>".data "</em>".data 0
          (expandDelimited (Char.ofNat 42) "<strong>".data "</strong>".data 0
            (escapeHtml text.data))) := by
  unfold parseSimpleMarkdown
  by_cases h : text = ""
  · subst h; decide
  · simp only [h, if_false]
    rw [escaping_passes]

theorem lazyUntil_spec (close : Char) (l inner after : List Char)
    (h : lazyUntil close l = some (inner, after)) :
    l = inner ++ close :: after ∧ ∀ c ∈ inner, isLineTerminator c = false := by
  induction l generalizing inner with
  | nil => simp [lazyUntil] at h
  | cons c rest ih =>
    unfold lazyUntil at h
    by_cases hc : c = close
    · simp only [hc, if_true, Option.some.injEq, Prod.mk.injEq] at h
      obtain ⟨rfl, rfl⟩ := h
      simp [hc]
    · simp only [hc, if_false] at h
      by_cases hl : isLineTerminator c = true
      · simp [hl] at h
      · simp only [hl, if_false, Bool.false_eq_true] at h
        cases hr : lazyUntil close rest with
        | none => simp [hr] at h
        | some r =>
          simp only [hr, Option.map_some', Option.some.injEq, Prod.mk.injEq] at h
          obtain ⟨rfl, rfl⟩ := h
          obtain ⟨h1, h2⟩ := ih r.1 (by simp [hr])
          refine ⟨by rw [h1]; simp, ?_⟩
          intro d hd
          simp only [List.mem_cons] at hd
          rcases hd with rfl | hd
          · simpa using hl
          · exact h2 d hd

theorem lazyUntil_append (close : Char) (inner after : List Char)
    (hclose : close ∉ inner) (hline : ∀ c ∈ inner, isLineTerminator c = false) :
    lazyUntil close (inner ++ close :: after) = some (inner, after) := by
  induction inner with
  | nil => simp [lazyUntil]
  | cons c rest ih =>
    have hc : c ≠ close := fun h => hclose (by simp [h])
    have hl : isLineTerminator c = false := hline c (by simp)
    have := ih (fun h => hclose (by simp [h])) (fun d hd => hline d (by simp [hd]))
    simp [lazyUntil, hc, hl, this]

theorem expandDelimited_skip (delim : Char) (o c : List Char) (k : Nat) (l : List Char) :
    expandDelimited delim o c k l = expandDelimited delim o c 0 (l.drop k) := by
  induction k generalizing l with
  | zero => simp
  | succ k ih =>
    cases l with
    | nil => simp [expandDelimited]
    | cons d rest => simp [expandDelimited, ih]

theorem expandLinks_skip (k : Nat) (l : List Char) :
    expandLinks k l = expandLinks 0 (l.drop k) := by
  induction k generalizing l with
  | zero => simp
  | succ k ih =>
    cases l with
    | nil => simp [expandLinks]
    | cons d rest => simp [expandLinks, ih]

theorem expandDelimited_free (delim : Char) (o c : List Char) (s t : List Char)
    (hfree : delim ∉ s) :
    expandDelimited delim o c 0 (s ++ t) = s ++ expandDelimited delim o c 0 t := by
  induction s with
  | nil => rfl
  | cons d rest ih =>
    have hd : d ≠ delim := fun h => hfree (by simp [h])
    have := ih (fun h => hfree (by simp [h]))
    simp [expandDelimited, hd, this]

theorem expandDelimited_nil (delim : Char) (o c : List Char) (k : Nat) :
    expandDelimited delim o c k [] = [] := by
  cases k <;> rfl

theorem expandDelimited_of_free (delim : Char) (o c : List Char) (s : List Char)
    (hfree : delim ∉ s) : expandDelimited delim o c 0 s = s := by
  have := expandDelimited_free delim o c s [] hfree
  simpa [expandDelimited_nil] using this

theorem expandDelimited_match (delim : Char) (o c inner after : List Char)
    (hclose : delim ∉ inner) (hline : ∀ d ∈ inner, isLineTerminator d = false) :
    expandDelimited delim o c 0 (delim :: (inner ++ delim :: after)) =
      o ++ inner ++ c ++ expandDelimited delim o c 0 after := by
  have h := lazyUntil_append delim inner after hclose hline
  have hdrop : (inner ++ delim :: after).drop (inner.length + 1) = after := by
    rw [show inner ++ delim :: after = (inner ++ [delim]) ++ after by simp]
    rw [List.drop_left' (by simp)]
  rw [expandDelimited]
  simp only [if_true, h]
  rw [expandDelimited_skip, hdrop]

theorem expandLinks_free (s t : List Char) (hfree : Char.ofNat 91 ∉ s) :
    expandLinks 0 (s ++ t) = s ++ expandLinks 0 t := by
  induction s with
  | nil => rfl
  | cons d rest ih =>
    have hd : d ≠ Char.ofNat 91 := fun h => hfree (by simp [h])
    have := ih (fun h => hfree (by simp [h]))
    simp [expandLinks, hd, this]

theorem expandLinks_nil (k : Nat) : expandLinks k [] = [] := by
  cases k <;> rfl

theorem expandLinks_of_free (s : List Char) (hfree : Char.ofNat 91 ∉ s) :
    expandLinks 0 s = s := by
  have := expandLinks_free s [] hfree
  simpa [expandLinks_nil] using this

theorem mem_escapeHtml (c : Char) (text : List Char) (h : c ∈ escapeHtml text) :
    c ∈ text ∨ c ∈ "&amp;ltg".data := by
  induction text with
  | nil => simp [escapeHtml] at h
  | cons d rest ih =>
    rw [escapeHtml_cons, List.mem_append] at h
    rcases h with h | h
    · unfold escapeChar at h
      split at h
      · right; revert h; simp only [String.data, List.mem_cons]; tauto
      · split at h
        · right; revert h; simp only [String.data, List.mem_cons]; tauto
        · split at h
          · right; revert h; simp only [String.data, List.mem_cons]; tauto
          · left; simp only [List.mem_singleton] at h; simp [h]
    · rcases ih h with h | h
      · left; simp [h]
      · right; exact h

theorem escapeHtml_free (d : Char) (text : List Char) (hd : d ∉ "&amp;ltg".data)
    (hfree : d ∉ text) : d ∉ escapeHtml text := by
  intro h
  rcases mem_escapeHtml d text h with h | h
  · exact hfree h
  · exact hd h

theorem escapeHtml_line (text : List Char) (hline : ∀ c ∈ text, isLineTerminator c = false) :
    ∀ c ∈ escapeHtml text, isLineTerminator c = false := by
  intro c hc
  rcases mem_escapeHtml c text hc with h | h
  · exact hline c h
  · have hall : ∀ d ∈ "&amp;ltg".data, isLineTerminator d = false := by decide
    exact hall c h

theorem escapeHtml_of_plain (text : List Char)
    (hplain : ∀ c ∈ text, c ≠ ampersand ∧ c ≠ lessThan ∧ c ≠ greaterThan) :
    escapeHtml text = text := by
  induction text with
  | nil => rfl
  | cons c rest ih =>
    obtain ⟨h1, h2, h3⟩ := hplain c (by simp)
    rw [escapeHtml_cons, ih (fun d hd => hplain d (by simp [hd]))]
    simp [escapeChar, h1, h2, h3]

theorem linkBody_append (text url after : List Char)
    (htext : Char.ofNat 93 ∉ text) (htextLine : ∀ c ∈ text, isLineTerminator c = false)
    (hurl : Char.ofNat 41 ∉ url) (hurlLine : ∀ c ∈ url, isLineTerminator c = false) :
    linkBody (text ++ Char.ofNat 93 :: Char.ofNat 40 :: (url ++ Char.ofNat 41 :: after)) =
      some (text, url, text.length + url.length + 3) := by
  induction text with
  | nil =>
    have h := lazyUntil_append (Char.ofNat 41) url after hurl hurlLine
    simp [linkBody, h]
  | cons c rest ih =>
    have hc : c ≠ Char.ofNat 93 := fun h => htext (by simp [h])
    have hl : isLineTerminator c = false := htextLine c (by simp)
    have := ih (fun h => htext (by simp [h])) (fun d hd => htextLine d (by simp [hd]))
    simp only [List.cons_append, linkBody, hc, if_false, hl, this, Option.map_some',
      Bool.false_eq_true, List.length_cons]
    rw [show rest.append (Char.ofNat 93 :: Char.ofNat 40 :: (url ++ Char.ofNat 41 :: after)) =
      rest ++ Char.ofNat 93 :: Char.ofNat 40 :: (url ++ Char.ofNat 41 :: after) from rfl, this]
    simp only [Option.map_some', Option.some.injEq, Prod.mk.injEq, true_and]
    omega

theorem expandLinks_match (text url after : List Char)
    (htext : Char.ofNat 93 ∉ text) (htextLine : ∀ c ∈ text, isLineTerminator c = false)
    (hurl : Char.ofNat 41 ∉ url) (hurlLine : ∀ c ∈ url, isLineTerminator c = false) :
    expandLinks 0
        (Char.ofNat 91 ::
          (text ++ Char.ofNat 93 :: Char.ofNat 40 :: (url ++ Char.ofNat 41 :: after))) =
      "<a href=\"".data ++ url ++ "\" target=\"_blank\" rel=\"noopener noreferrer\">".data ++
        text ++ "</a>".data ++ expandLinks 0 after := by
  have h := linkBody_append text url after htext htextLine hurl hurlLine
  have hdrop : (text ++ Char.ofNat 93 :: Char.ofNat 40 :: (url ++ Char.ofNat 41 :: after)).drop
      (text.length + url.length + 3) = after := by
    rw [show text ++ Char.ofNat 93 :: Char.ofNat 40 :: (url ++ Char.ofNat 41 :: after) =
      (text ++ Char.ofNat 93 :: Char.ofNat 40 :: (url ++ [Char.ofNat 41])) ++ after by simp]
    rw [List.drop_left' (by simp; omega)]
  rw [expandLinks]
  simp only [if_true, h]
  rw [expandLinks_skip, hdrop]

/-- C15: for all texts a, t and b without a star, an underscore or an opening bracket,
t without a line terminator, the parser turns a, a star, t, a star, b into the escaped
a, the escaped t inside a strong element, and the escaped b; the text `<b>*hi*</b>`
becomes `&lt;b&gt;<strong>hi</strong>&lt;/b&gt;`. -/
theorem parseSimpleMarkdown_bold (a t b : String)
    (ha : ∀ c ∈ a.data, c ∉ "*_[".data)
    (ht : ∀ c ∈ t.data, c ∉ "*_[".data)
    (hb : ∀ c ∈ b.data, c ∉ "*_[".data)
    (hline : ∀ c ∈ t.data, isLineTerminator c = false) :
    parseSimpleMarkdown (a ++ "*" ++ t ++ "*" ++ b) =
        esc a ++ "<strong>" ++ esc t ++ "</strong>" ++ esc b ∧
      parseSimpleMarkdown "<b>*hi*</b>" = "&lt;b&gt;<strong>hi</strong>&lt;/b&gt;" := by
  refine ⟨?_, by decide⟩
  have hfree : ∀ (d : Char) (s : String), d ∈ "*_[".data → (∀ c ∈ s.data, c ∉ "*_[".data) →
      d ∉ escapeHtml s.data := by
    intro d s hd hs
    apply escapeHtml_free
    · revert d; decide
    · intro hmem; exact hs d hmem hd
  have hstar : Char.ofNat 42 ∈ "*_[".data := by decide
  have hunder : Char.ofNat 95 ∈ "*_[".data := by decide
  have hbracket : Char.ofNat 91 ∈ "*_[".data := by decide
  apply String.ext
  rw [parseSimpleMarkdown_data]
  have hin : (a ++ "*" ++ t ++ "*" ++ b).data =
      a.data ++ Char.ofNat 42 :: (t.data ++ Char.ofNat 42 :: b.data) := by
    simp only [String.data_append]
    simp [show "*".data = [Char.ofNat 42] from rfl]
  have hesc : escapeHtml (a.data ++ Char.ofNat 42 :: (t.data ++ Char.ofNat 42 :: b.data)) =
      escapeHtml a.data ++
        Char.ofNat 42 :: (escapeHtml t.data ++ Char.ofNat 42 :: escapeHtml b.data) := by
    have hs : escapeChar (Char.ofNat 42) = [Char.ofNat 42] := by decide
    simp [escapeHtml_append, escapeHtml_cons, hs]
  rw [hin, hesc]
  rw [expandDelimited_free _ _ _ _ _ (hfree _ a hstar ha)]
  rw [expandDelimited_match _ _ _ _ _ (hfree _ t hstar ht) (escapeHtml_line _ hline)]
  rw [expandDelimited_of_free _ _ _ _ (hfree _ b hstar hb)]
  have hout : (esc a ++ "<strong>" ++ esc t ++ "</strong>" ++ esc b).data =
      escapeHtml a.data ++ ("<strong>".data ++ escapeHtml t.data ++ "</strong>".data ++
        escapeHtml b.data) := by
    simp only [String.data_append, esc]
    simp
  rw [hout]
  have hno : ∀ d ∈ "*_[".data, d ∉ "<strong>".data ++ "</strong>".data → d ∉
      escapeHtml a.data ++ ("<strong>".data ++ escapeHtml t.data ++ "</strong>".data ++
        escapeHtml b.data) := by
    intro d hd htag hmem
    simp only [List.mem_append] at hmem htag
    rcases hmem with h | (((h | h) | h) | h)
    · exact hfree d a hd ha h
    · exact htag (Or.inl h)
    · exact hfree d t hd ht h
    · exact htag (Or.inr h)
    · exact hfree d b hd hb h
  rw [expandDelimited_of_free _ _ _ _ (hno _ hunder (by decide))]
  rw [expandLinks_of_free _ (hno _ hbracket (by decide))]

/-- C15, at a text with an ampersand before the stars and a newline after them. -/
theorem parseSimpleMarkdown_bold_witness :
    parseSimpleMarkdown ("a&" ++ "*" ++ "<i>" ++ "*" ++ "\n>") =
      esc "a&" ++ "<strong>" ++ esc "<i>" ++ "</strong>" ++ esc "\n>" :=
  (parseSimpleMarkdown_bold "a&" "<i>" "\n>" (by decide) (by decide) (by decide)
    (by decide)).1

/-- C18: for every text and url without an ampersand, an angle bracket, a star, an
underscore, a square bracket, a parenthesis or a line terminator, the parser turns the
link written as the text in square brackets and the url in parentheses into an anchor
element whose href is the url, that opens in a new context without opener or referrer,
and whose content is the text. -/
theorem parseSimpleMarkdown_link (text url : String)
    (htext : ∀ c ∈ text.data, c ∉ "&<>*_[]()".data ∧ isLineTerminator c = false)
    (hurl : ∀ c ∈ url.data, c ∉ "&<>*_[]()".data ∧ isLineTerminator c = false) :
    parseSimpleMarkdown ("[" ++ text ++ "](" ++ url ++ ")") =
      "<a href=\"" ++ url ++ "\" target=\"_blank\" rel=\"noopener noreferrer\">" ++ text ++
        "</a>" := by
  have hfree : ∀ (d : Char) (s : String), d ∈ "&<>*_[]()".data →
      (∀ c ∈ s.data, c ∉ "&<>*_[]()".data ∧ isLineTerminator c = false) → d ∉ s.data := by
    intro d s hd hs hmem
    exact (hs d hmem).1 hd
  have hin : ("[" ++ text ++ "](" ++ url ++ ")").data =
      Char.ofNat 91 ::
        (text.data ++ Char.ofNat 93 :: Char.ofNat 40 :: (url.data ++ Char.ofNat 41 :: [])) := by
    simp only [String.data_append]
    simp [show "[".data = [Char.ofNat 91] from rfl,
      show "](".data = [Char.ofNat 93, Char.ofNat 40] from rfl,
      show ")".data = [Char.ofNat 41] from rfl]
  have hno : ∀ d ∈ "&<>*_[]()".data, d ∉ "[]()".data → d ∉ Char.ofNat 91 ::
      (text.data ++ Char.ofNat 93 :: Char.ofNat 40 :: (url.data ++ Char.ofNat 41 :: [])) := by
    intro d hd hnot hmem
    simp only [List.mem_cons, List.mem_append, List.not_mem_nil, or_false] at hmem
    rcases hmem with h | h | h | h | h | h
    · exact hnot (by rw [h]; decide)
    · exact hfree d text hd htext h
    · exact hnot (by rw [h]; decide)
    · exact hnot (by rw [h]; decide)
    · exact hfree d url hd hurl h
    · exact hnot (by rw [h]; decide)
  apply String.ext
  rw [parseSimpleMarkdown_data, hin]
  rw [escapeHtml_of_plain _ (fun c hc =>
    ⟨fun h => hno c (by rw [h]; decide) (by rw [h]; decide) hc,
     fun h => hno c (by rw [h]; decide) (by rw [h]; decide) hc,
     fun h => hno c (by rw [h]; decide) (by rw [h]; decide) hc⟩)]
  rw [expandDelimited_of_free _ _ _ _ (hno _ (by decide) (by decide))]
  rw [expandDelimited_of_free _ _ _ _ (hno _ (by decide) (by decide))]
  rw [expandLinks_match _ _ _ (hfree _ text (by decide) htext) (fun c hc => (htext c hc).2)
    (hfree _ url (by decide) hurl) (fun c hc => (hurl c hc).2)]
  simp only [String.data_append]
  simp [expandLinks_nil]

/-- C18, at the text docs and the url of a page with a query. -/
theorem parseSimpleMarkdown_link_witness :
    parseSimpleMarkdown ("[" ++ "docs" ++ "](" ++ "https://example.com/a?b=1" ++ ")") =
      "<a href=\"" ++ "https://example.com/a?b=1" ++
        "\" target=\"_blank\" rel=\"noopener noreferrer\">" ++ "docs" ++ "</a>" :=
  parseSimpleMarkdown_link "docs" "https://example.com/a?b=1" (by decide) (by decide)

/-- C17, failing input: the url part of a link holds a double quote.  The parser copies it
into the href attribute unescaped, so the attribute value ends at that quote and the rest
of the url becomes a second attribute of the anchor. -/
theorem parseSimpleMarkdown_quote_in_href :
    parseSimpleMarkdown "[a](b\" c=\"d)" =
      "<a href=\"b\" c=\"d\" target=\"_blank\" rel=\"noopener noreferrer\">a</a>" := by
  decide

/-! ### Texts made of harmless characters and whole segments (C16) -/

theorem Segmented.mono {segs segs2 : List (List Char)} (hsub : ∀ s ∈ segs, s ∈ segs2)
    {l : List Char} (h : Segmented segs l) : Segmented segs2 l := by
  induction h with
  | nil => exact .nil
  | char c rest h1 h2 _ ih => exact .char c rest h1 h2 ih
  | seg s rest hs _ ih => exact .seg s rest (hsub s hs) ih

theorem Segmented.append {segs : List (List Char)} {l m : List Char}
    (h1 : Segmented segs l) (h2 : Segmented segs m) : Segmented segs (l ++ m) := by
  induction h1 with
  | nil => exact h2
  | char c rest hc1 hc2 _ ih => exact .char c (rest ++ m) hc1 hc2 ih
  | seg s rest hs _ ih =>
    rw [List.append_assoc]
    exact .seg s (rest ++ m) hs ih

theorem Segmented.of_seg {segs : List (List Char)} {s : List Char} (hs : s ∈ segs) :
    Segmented segs s := by
  have := Segmented.seg s [] hs .nil
  simpa using this

theorem Segmented.split {segs : List (List Char)} (d : Char) (hd : ∀ s ∈ segs, d ∉ s)
    {l : List Char} (h : Segmented segs l) :
    ∀ x y, l = x ++ d :: y → Segmented segs x ∧ Segmented segs y := by
  induction h with
  | nil => intro x y hxy; simp at hxy
  | char c rest hc1 hc2 hrest ih =>
    intro x y hxy
    cases x with
    | nil =>
      simp only [List.nil_append, List.cons.injEq] at hxy
      exact ⟨.nil, hxy.2 ▸ hrest⟩
    | cons a x2 =>
      simp only [List.cons_append, List.cons.injEq] at hxy
      obtain ⟨h1, h2⟩ := ih x2 y hxy.2
      exact ⟨hxy.1 ▸ .char c x2 hc1 hc2 h1, h2⟩
  | seg s rest hs hrest ih =>
    intro x y hxy
    rcases List.append_eq_append_iff.mp hxy with ⟨a, hx, hr⟩ | ⟨b, hsx, hb⟩
    · obtain ⟨h1, h2⟩ := ih a y hr
      exact ⟨hx ▸ .seg s a hs h1, h2⟩
    · cases b with
      | nil =>
        simp only [List.nil_append] at hb
        simp only [List.append_nil] at hsx
        obtain ⟨_, h2⟩ := ih [] y (by simp [hb])
        exact ⟨hsx ▸ Segmented.of_seg hs, h2⟩
      | cons e b2 =>
        simp only [List.cons_append, List.cons.injEq] at hb
        exact absurd (by rw [hsx, hb.1]; simp) (hd s hs)

theorem Segmented.of_escapeHtml (segs : List (List Char)) (text : List Char) :
    Segmented segs (escapeHtml text) := by
  induction text with
  | nil => exact .nil
  | cons c rest ih =>
    rw [escapeHtml_cons]
    unfold escapeChar
    split
    · exact .char _ _ (by decide) (by decide) (.char _ _ (by decide) (by decide)
        (.char _ _ (by decide) (by decide) (.char _ _ (by decide) (by decide)
          (.char _ _ (by decide) (by decide) ih))))
    · split
      · exact .char _ _ (by decide) (by decide) (.char _ _ (by decide) (by decide)
          (.char _ _ (by decide) (by decide) (.char _ _ (by decide) (by decide) ih)))
      · split
        · exact .char _ _ (by decide) (by decide) (.char _ _ (by decide) (by decide)
            (.char _ _ (by decide) (by decide) (.char _ _ (by decide) (by decide) ih)))
        · next h2 h3 => exact .char _ _ h2 h3 ih

theorem Segmented.of_expandDelimited {segs : List (List Char)} (delim : Char)
    (o c : List Char) (hd : ∀ s ∈ segs, delim ∉ s) :
    ∀ (n : Nat) (l : List Char), l.length ≤ n → Segmented segs l →
      Segmented (o :: c :: segs) (Taco.expandDelimited delim o c 0 l) := by
  have hsub : ∀ s ∈ segs, s ∈ o :: c :: segs := fun s hs => by simp [hs]
  intro n
  induction n with
  | zero =>
    intro l hl _
    have : l = [] := List.length_eq_zero.mp (Nat.le_zero.mp hl)
    subst this
    exact .nil
  | succ n ihn =>
    intro l hl h
    induction h with
    | nil => exact .nil
    | char a rest hc1 hc2 hrest ih =>
      have hlen : rest.length ≤ n := by simp at hl; omega
      have hkeep : Segmented (o :: c :: segs) (a :: Taco.expandDelimited delim o c 0 rest) :=
        .char a _ hc1 hc2 (ih (by omega))
      rw [Taco.expandDelimited]
      by_cases ha : a = delim
      · simp only [ha, if_true]
        cases hlz : lazyUntil delim rest with
        | none => simpa [ha] using hkeep
        | some r =>
          obtain ⟨inner, after⟩ := r
          obtain ⟨hrest2, _⟩ := lazyUntil_spec delim rest inner after hlz
          obtain ⟨hinner, hafter⟩ := Segmented.split delim hd hrest inner after hrest2
          have hdrop : rest.drop (inner.length + 1) = after := by
            rw [hrest2, show inner ++ delim :: after = (inner ++ [delim]) ++ after by simp]
            rw [List.drop_left' (by simp)]
          have hafterLen : after.length ≤ n := by
            have : rest.length = inner.length + (after.length + 1) := by rw [hrest2]; simp
            omega
          simp only []
          rw [expandDelimited_skip, hdrop, List.append_assoc, List.append_assoc]
          exact .seg o _ (by simp) (Segmented.append (hinner.mono hsub)
            (.seg c _ (by simp) (ihn after hafterLen hafter)))
      · simpa [ha] using hkeep
    | seg s rest hs hrest ih =>
      rw [expandDelimited_free _ _ _ _ _ (hd s hs)]
      exact .seg s _ (hsub s hs) (ih (by simp at hl; omega))

theorem linkBody_spec (l text url : List Char) (len : Nat)
    (h : linkBody l = some (text, url, len)) :
    ∃ after, l = text ++ Char.ofNat 93 :: Char.ofNat 40 :: (url ++ Char.ofNat 41 :: after) ∧
      len = text.length + url.length + 3 := by
  induction l generalizing text len with
  | nil => simp [linkBody] at h
  | cons c rest ih =>
    unfold linkBody at h
    simp only [] at h
    split at h
    · next r hhere =>
      split at hhere
      · next hc =>
        split at hhere
        · next d more =>
          split at hhere
          · next hdd =>
            cases hlz : lazyUntil (Char.ofNat 41) more with
            | none => simp [hlz] at hhere
            | some q =>
              obtain ⟨inner, after⟩ := q
              obtain ⟨hmore, _⟩ := lazyUntil_spec _ _ _ _ hlz
              simp only [hlz, Option.map_some', Option.some.injEq] at hhere
              rw [← hhere] at h
              simp only [Option.some.injEq, Prod.mk.injEq] at h
              obtain ⟨rfl, rfl, rfl⟩ := h
              exact ⟨after, by simp [hc, hdd, hmore], by simp⟩
          · simp at hhere
        · simp at hhere
      · simp at hhere
    · split at h
      · simp at h
      · cases hrec : linkBody rest with
        | none => simp [hrec] at h
        | some q =>
          obtain ⟨t2, u2, n2⟩ := q
          simp only [hrec, Option.map_some', Option.some.injEq, Prod.mk.injEq] at h
          obtain ⟨rfl, rfl, rfl⟩ := h
          obtain ⟨after, h1, h2⟩ := ih t2 n2 hrec
          exact ⟨after, by simp [h1], by simp [h2]; omega⟩

theorem Segmented.of_expandLinks {segs : List (List Char)}
    (hd : ∀ s ∈ segs, ∀ d ∈ "[]()".data, d ∉ s) :
    ∀ (n : Nat) (l : List Char), l.length ≤ n → Segmented segs l →
      Segmented ("<a href=\"".data :: anchorTail :: "</a>".data :: segs)
        (Taco.expandLinks 0 l) := by
  have hsub : ∀ s ∈ segs, s ∈ "<a href=\"".data :: anchorTail :: "</a>".data :: segs :=
    fun s hs => by simp [hs]
  intro n
  induction n with
  | zero =>
    intro l hl _
    have : l = [] := List.length_eq_zero.mp (Nat.le_zero.mp hl)
    subst this
    exact .nil
  | succ n ihn =>
    intro l hl h
    induction h with
    | nil => exact .nil
    | char a rest hc1 hc2 hrest ih =>
      have hlen : rest.length ≤ n := by simp at hl; omega
      have hkeep : Segmented ("<a href=\"".data :: anchorTail :: "</a>".data :: segs)
          (a :: Taco.expandLinks 0 rest) :=
        .char a _ hc1 hc2 (ih (by omega))
      rw [Taco.expandLinks]
      by_cases ha : a = Char.ofNat 91
      · simp only [ha, if_true]
        cases hlb : linkBody rest with
        | none => simpa [ha] using hkeep
        | some r =>
          obtain ⟨text, url, len⟩ := r
          obtain ⟨after, hrest2, hlen2⟩ := linkBody_spec rest text url len hlb
          obtain ⟨htext, htail⟩ := Segmented.split (Char.ofNat 93)
            (fun s hs => hd s hs _ (by decide)) hrest text _ hrest2
          obtain ⟨_, htail2⟩ := Segmented.split (Char.ofNat 40)
            (fun s hs => hd s hs _ (by decide)) htail [] _ rfl
          obtain ⟨hurl, hafter⟩ := Segmented.split (Char.ofNat 41)
            (fun s hs => hd s hs _ (by decide)) htail2 url after rfl
          have hdrop : rest.drop len = after := by
            rw [hrest2, hlen2,
              show text ++ Char.ofNat 93 :: Char.ofNat 40 :: (url ++ Char.ofNat 41 :: after) =
                (text ++ Char.ofNat 93 :: Char.ofNat 40 :: (url ++ [Char.ofNat 41])) ++ after
                by simp]
            rw [List.drop_left' (by simp; omega)]
          have hafterLen : after.length ≤ n := by
            have : rest.length = text.length + (url.length + (after.length + 1) + 2) := by
              rw [hrest2]; simp
            omega
          simp only []
          rw [expandLinks_skip, hdrop]
          simp only [List.append_assoc]
          exact .seg _ _ (by simp) (Segmented.append (hurl.mono hsub)
            (.seg anchorTail _ (by simp) (Segmented.append (htext.mono hsub)
              (.seg _ _ (by simp) (ihn after hafterLen hafter)))))
      · simpa [ha] using hkeep
    | seg s rest hs hrest ih =>
      rw [expandLinks_free _ _ (hd s hs _ (by decide))]
      exact .seg s _ (hsub s hs) (ih (by simp at hl; omega))

/-- An angle bracket of a segmented text lies inside one of its segments. -/
theorem Segmented.occurrence {segs : List (List Char)} (c : Char)
    (hc : c = lessThan ∨ c = greaterThan) {l : List Char} (h : Segmented segs l) :
    ∀ pre post, l = pre ++ c :: post →
      ∃ s ∈ segs, ∃ u v p r, s = u ++ c :: v ∧ pre = p ++ u ∧ post = v ++ r := by
  induction h with
  | nil => intro pre post hl; simp at hl
  | char a rest hc1 hc2 _ ih =>
    intro pre post hl
    cases pre with
    | nil =>
      simp only [List.nil_append, List.cons.injEq] at hl
      rcases hc with hc | hc
      · exact absurd (hl.1.trans hc) hc1
      · exact absurd (hl.1.trans hc) hc2
    | cons b pre2 =>
      simp only [List.cons_append, List.cons.injEq] at hl
      obtain ⟨s, hs, u, v, p, r, h1, h2, h3⟩ := ih pre2 post hl.2
      exact ⟨s, hs, u, v, b :: p, r, h1, by simp [h2], h3⟩
  | seg s rest hs _ ih =>
    intro pre post hl
    rcases List.append_eq_append_iff.mp hl with ⟨a, hx, hr⟩ | ⟨b, hsx, hb⟩
    · obtain ⟨s2, hs2, u, v, p, r, h1, h2, h3⟩ := ih a post hr
      exact ⟨s2, hs2, u, v, s ++ p, r, h1, by simp [hx, h2], h3⟩
    · cases b with
      | nil =>
        simp only [List.nil_append] at hb
        simp only [List.append_nil] at hsx
        obtain ⟨s2, hs2, u, v, p, r, h1, h2, h3⟩ := ih [] post (by simp [hb])
        exact ⟨s2, hs2, u, v, s ++ p, r, h1, by rw [List.append_assoc, ← h2, hsx]; simp, h3⟩
      | cons e b2 =>
        simp only [List.cons_append, List.cons.injEq] at hb
        exact ⟨s, hs, pre, b2, [], rest, by rw [hsx, hb.1], by simp, hb.2⟩

theorem eq_nil_of_not_mem_tail (c : Char) (s u v : List Char) (hs : s = u ++ c :: v)
    (hc : c ∉ s.tail) : u = [] := by
  cases u with
  | nil => rfl
  | cons a u2 => exact absurd (by rw [hs]; simp) hc

/-- The output of the parser is made of harmless characters and whole segments written
by the parser. -/
theorem parseSimpleMarkdown_segmented (text : String) :
    Segmented
      ["<a href=\"".data, anchorTail, "</a>".data, "<em>".data, "</em>".data,
       "<strong>".data, "</strong>".data]
      (parseSimpleMarkdown text).data := by
  rw [parseSimpleMarkdown_data]
  have h0 : Segmented [] (escapeHtml text.data) := Segmented.of_escapeHtml [] _
  have h1 := Segmented.of_expandDelimited (Char.ofNat 42) "<strong>".data "</strong>".data
    (by simp) _ _ (Nat.le_refl _) h0
  have h2 := Segmented.of_expandDelimited (Char.ofNat 95) "<em>".data "</em>".data
    (by decide) _ _ (Nat.le_refl _) h1
  exact Segmented.of_expandLinks (by decide) _ _ (Nat.le_refl _) h2

/-- C16: for every input text, every opening angle bracket of the output of the parser
is the first character of one of the tags of the parser, and every closing angle bracket
is the last character of one of these tags or of the end of the anchor's opening tag; no
angle bracket of the input survives. -/
theorem parseSimpleMarkdown_tags_only (text : String) :
    (∀ pre post, (parseSimpleMarkdown text).data = pre ++ lessThan :: post →
      ∃ tag ∈ parserTags, tag <+: lessThan :: post) ∧
    (∀ pre post, (parseSimpleMarkdown text).data = pre ++ greaterThan :: post →
      ∃ tag ∈ anchorTail :: parserTags, tag <:+ pre ++ [greaterThan]) := by
  have hseg := parseSimpleMarkdown_segmented text
  constructor
  · intro pre post hout
    obtain ⟨s, hs, u, v, p, r, h1, _, h3⟩ := hseg.occurrence lessThan (Or.inl rfl) pre post hout
    have hcheck : ∀ s ∈ ["<a href=\"".data, anchorTail, "</a>".data, "<em>".data,
        "</em>".data, "<strong>".data, "</strong>".data],
        lessThan ∉ s.tail ∧ (s.head? = some lessThan → s ∈ parserTags) := by decide
    have hu := eq_nil_of_not_mem_tail lessThan s u v h1 (hcheck s hs).1
    subst hu
    refine ⟨s, (hcheck s hs).2 (by rw [h1]; rfl), r, ?_⟩
    rw [h1, h3]; simp
  · intro pre post hout
    obtain ⟨s, hs, u, v, p, r, h1, h2, _⟩ :=
      hseg.occurrence greaterThan (Or.inr rfl) pre post hout
    have hcheck : ∀ s ∈ ["<a href=\"".data, anchorTail, "</a>".data, "<em>".data,
        "</em>".data, "<strong>".data, "</strong>".data],
        greaterThan ∉ s.reverse.tail ∧
          (s.reverse.head? = some greaterThan → s ∈ anchorTail :: parserTags) := by decide
    have hrev : s.reverse = v.reverse ++ greaterThan :: u.reverse := by rw [h1]; simp
    have hv := eq_nil_of_not_mem_tail greaterThan _ _ _ hrev (hcheck s hs).1
    have hv2 : v = [] := by simpa using hv
    subst hv2
    refine ⟨s, (hcheck s hs).2 (by rw [hrev]; rfl), p, ?_⟩
    rw [h1, h2]; simp

/-! ### Export and import as JSON (C19, C20) -/

theorem handleFileImport_loaded (renderFields : List JsonValue → Except Stop Unit)
    (state : BuilderState) (members : List (String × JsonValue)) (formName : String)
    (fields : List JsonValue)
    (hname : members.lookup "formName" = some (.string formName))
    (hfields : members.lookup "fields" = some (.array fields)) :
    (handleFileImport renderFields (.ok (.object members)) state).formBlueprint =
      .object
        [("id", .null),
         ("formName", .string formName),
         ("formSubtitle",
           if isTruthy (members.lookup "formSubtitle") then
             (members.lookup "formSubtitle").getD .null
           else .string defaultSubtitle),
         ("fields", .array fields)] := by
  simp only [handleFileImport, importedMember, hname, hfields]
  cases updateAfterImport renderFields fields <;> rfl

theorem handleFileImport_rejected (renderFields : List JsonValue → Except Stop Unit)
    (parsed : Except Stop JsonValue) (state : BuilderState)
    (hshape : ¬ ∃ members formName fields, parsed = .ok (.object members) ∧
      members.lookup "formName" = some (.string formName) ∧
      members.lookup "fields" = some (.array fields)) :
    handleFileImport renderFields parsed state =
      { state with notification := some (importFailed, true) } := by
  unfold handleFileImport
  split
  · rfl
  · next importedData =>
    split
    · next formName hname =>
      split
      · next fields hfields =>
        exfalso
        apply hshape
        cases importedData with
        | object members =>
          simp only [importedMember, Except.ok.injEq] at hname hfields
          exact ⟨members, formName, fields, rfl, hname, hfields⟩
        | null => simp [importedMember] at hname
        | bool b => simp [importedMember] at hname
        | number n => simp [importedMember] at hname
        | string s => simp [importedMember] at hname
        | array items => simp [importedMember] at hname
      · rfl
    · rfl

theorem exported_lookup (b : Blueprint) :
    ∃ members, exportAsJson b.toJson = .object members ∧
      members.lookup "formName" = some (.string b.formName) ∧
      members.lookup "fields" = some (.array (b.fields.map Field.toJson)) ∧
      members.lookup "formSubtitle" = some (.string b.formSubtitle) := by
  refine ⟨[("formName", .string b.formName), ("formSubtitle", .string b.formSubtitle),
    ("fields", .array (b.fields.map Field.toJson))], ?_, ?_, ?_, ?_⟩
  · simp [exportAsJson, Blueprint.toJson, deleteMember, List.filter]
  · simp [List.lookup]
  · simp [List.lookup]
  · simp [List.lookup]

/-- C19, counterexample: a blueprint with the empty subtitle.  The import of its exported
document has the default subtitle, not the empty one. -/
theorem import_replaces_empty_subtitle :
    (handleFileImport (fun _ => .ok ())
        (.ok (exportAsJson
          (Blueprint.toJson
            { id := some 7, formName := "Calls", formSubtitle := "",
              fields := [textField "caller" "Caller"] })))
        { formBlueprint := .null, notification := none }).formBlueprint =
      Blueprint.toJson
        { id := none, formName := "Calls",
          formSubtitle := "A custom-built template for call outputs.",
          fields := [textField "caller" "Caller"] } := by
  rfl

/-- C19, amended: for every blueprint whose subtitle is not empty, whatever its title and
fields, importing the document that `exportAsJson` writes for it makes the blueprint in
memory the same blueprint with a null id: the same formName, the same formSubtitle and
the same fields. -/
theorem export_import_round_trip (renderFields : List JsonValue → Except Stop Unit)
    (b : Blueprint) (state : BuilderState) (hsubtitle : b.formSubtitle ≠ "") :
    (handleFileImport renderFields (.ok (exportAsJson b.toJson)) state).formBlueprint =
      Blueprint.toJson { b with id := none } := by
  obtain ⟨members, hdoc, hname, hfields, hsub⟩ := exported_lookup b
  rw [hdoc, handleFileImport_loaded renderFields state members _ _ hname hfields, hsub]
  simp [isTruthy, hsubtitle, Blueprint.toJson]

/-- C19, amended, at a saved blueprint with two fields. -/
theorem export_import_round_trip_witness :
    (handleFileImport (fun _ => .ok ())
        (.ok (exportAsJson
          (Blueprint.toJson
            { id := some 7, formName := "Calls", formSubtitle := "Daily log",
              fields := [textField "caller" "Caller",
                         checkboxField "team" "Team" ["Sales"]] })))
        { formBlueprint := .null, notification := none }).formBlueprint =
      Blueprint.toJson
        { id := none, formName := "Calls", formSubtitle := "Daily log",
          fields := [textField "caller" "Caller", checkboxField "team" "Team" ["Sales"]] } :=
  export_import_round_trip (fun _ => .ok ())
    { id := some 7, formName := "Calls", formSubtitle := "Daily log",
      fields := [textField "caller" "Caller", checkboxField "team" "Team" ["Sales"]] }
    { formBlueprint := .null, notification := none } (by decide)

/-- C20, counterexample: a document whose formSubtitle is the number 5 is accepted, and
the blueprint in memory then has that number as its subtitle; a document whose fields
are a number and a string replaces the blueprint in memory as well. -/
theorem handleFileImport_accepts_other_shapes :
    handleFileImport (fun _ => .error .typeError)
        (.ok (.object [("formName", .string "x"), ("formSubtitle", .number 5),
                       ("fields", .array [])]))
        { formBlueprint := Blueprint.toJson
            { id := some 7, formName := "Calls", formSubtitle := "Daily log", fields := [] },
          notification := none } =
      { formBlueprint :=
          .object [("id", .null), ("formName", .string "x"), ("formSubtitle", .number 5),
                   ("fields", .array [])],
        notification := some (importSucceeded, false) } ∧
    (handleFileImport (fun _ => .ok ())
        (.ok (.object [("formName", .string "x"),
                       ("fields", .array [.number 1, .string "two"])]))
        { formBlueprint := Blueprint.toJson
            { id := some 7, formName := "Calls", formSubtitle := "Daily log", fields := [] },
          notification := none }).formBlueprint =
      .object [("id", .null), ("formName", .string "x"),
               ("formSubtitle", .string defaultSubtitle),
               ("fields", .array [.number 1, .string "two"])] := by
  exact ⟨rfl, rfl⟩

/-- C20, amended: a parsed document that is an object whose formName is a string and
whose fields is an array replaces the blueprint in memory by the blueprint with a null
id, that formName, those fields, and the document's formSubtitle if it is truthy, the
default subtitle otherwise; every other outcome of parsing, a text that is not JSON and
the document null included, leaves the blueprint in memory exactly as it was and shows
the failure notification. -/
theorem handleFileImport_basic_validation
    (renderFields : List JsonValue → Except Stop Unit) (state : BuilderState)
    (members : List (String × JsonValue)) (formName : String) (fields : List JsonValue)
    (hname : members.lookup "formName" = some (.string formName))
    (hfields : members.lookup "fields" = some (.array fields)) :
    (handleFileImport renderFields (.ok (.object members)) state).formBlueprint =
        .object
          [("id", .null),
           ("formName", .string formName),
           ("formSubtitle",
             if isTruthy (members.lookup "formSubtitle") then
               (members.lookup "formSubtitle").getD .null
             else .string defaultSubtitle),
           ("fields", .array fields)] ∧
      ∀ parsed : Except Stop JsonValue,
        (¬ ∃ members formName fields, parsed = .ok (.object members) ∧
          members.lookup "formName" = some (.string formName) ∧
          members.lookup "fields" = some (.array fields)) →
        handleFileImport renderFields parsed state =
          { state with notification := some (importFailed, true) } :=
  ⟨handleFileImport_loaded renderFields state members formName fields hname hfields,
   fun parsed hshape => handleFileImport_rejected renderFields parsed state hshape⟩

/-- C20, amended, at a document with a title and one field, and at a document whose
fields member is a string. -/
theorem handleFileImport_basic_validation_witness :
    (handleFileImport (fun _ => .ok ())
        (.ok (.object [("formName", .string "x"),
                       ("fields", .array [Field.toJson (textField "caller" "Caller")])]))
        { formBlueprint := .null, notification := none }).formBlueprint =
      .object [("id", .null), ("formName", .string "x"),
               ("formSubtitle", .string defaultSubtitle),
               ("fields", .array [Field.toJson (textField "caller" "Caller")])] ∧
    handleFileImport (fun _ => .ok ())
        (.ok (.object [("formName", .string "x"), ("fields", .string "none")]))
        { formBlueprint := .null, notification := none } =
      { formBlueprint := .null, notification := some (importFailed, true) } :=
  have h := handleFileImport_basic_validation (fun _ => .ok ())
    { formBlueprint := .null, notification := none }
    [("formName", .string "x"),
     ("fields", .array [Field.toJson (textField "caller" "Caller")])]
    "x" [Field.toJson (textField "caller" "Caller")] rfl rfl
  ⟨h.1, h.2 _ (by
    rintro ⟨members, formName, fields, hdoc, _, hf⟩
    simp only [Except.ok.injEq, JsonValue.object.injEq] at hdoc
    subst hdoc
    simp [List.lookup] at hf)⟩


/-! ### The tag list of a multi-select field under add, remove and clear (C30) -/

theorem filter_ne_eq_eraseIdx (l : List String) (i : Nat) (v : String)
    (hnodup : l.Nodup) (hget : l.get? i = some v) :
    (l.filter fun x => x != v) = l.eraseIdx i := by
  induction l generalizing i with
  | nil => simp at hget
  | cons a rest ih =>
    rw [List.nodup_cons] at hnodup
    cases i with
    | zero =>
      simp only [List.get?_cons_zero, Option.some.injEq] at hget
      subst hget
      simp only [List.eraseIdx_cons_zero]
      rw [List.filter_cons]
      simp only [bne_self_eq_false, Bool.false_eq_true, if_false]
      rw [List.filter_eq_self]
      intro x hx
      have : x ≠ a := fun h => hnodup.1 (h ▸ hx)
      simpa using this
    | succ j =>
      simp only [List.get?_cons_succ] at hget
      have hmem : v ∈ rest := List.get?_mem hget
      have hav : a ≠ v := fun h => hnodup.1 (h ▸ hmem)
      simp only [List.eraseIdx_cons_succ]
      rw [List.filter_cons]
      have : (a != v) = true := by simpa using hav
      simp only [this, if_true]
      rw [ih j hnodup.2 hget]

theorem removeTag_cases (fieldId : String) (index : Nat) (s : TagSelector)
    (hident : isSelectorIdentText fieldId = true)
    (hinv : s.hiddenValue = jsJoin "," s.tags)
    (hplain : ∀ t ∈ s.tags, t ≠ "" ∧ comma ∉ t.data)
    (hnodup : s.tags.Nodup) :
    removeTag fieldId index s =
      .ok { s with
        tags := s.tags.eraseIdx index
        hiddenValue := jsJoin "," (s.tags.eraseIdx index) } := by
  have hcur := currentValues_eq_tags s.tags hplain
  rw [← hinv] at hcur
  unfold removeTag
  simp only [hident, Bool.not_true, Bool.false_eq_true, if_false]
  cases hget : s.tags.get? index with
  | none =>
    have hlen : s.tags.length ≤ index := List.get?_eq_none.mp hget
    simp only [List.eraseIdx_of_length_le hlen, ← hinv]
  | some v =>
    simp only [hcur, filter_ne_eq_eraseIdx s.tags index v hnodup hget]

theorem tagActions_invariant (fields : List Field) (fieldId : String) (field : Field)
    (options : List FieldOption)
    (hident : isSelectorIdentText fieldId = true)
    (hfind : fields.find? (fun f => f.id == fieldId) = some field)
    (hoptions : field.options = some options)
    (hvalues : ∀ opt ∈ options,
      opt.value ≠ "" ∧ comma ∉ opt.value.data ∧ Char.ofNat 60 ∉ opt.value.data)
    (actions : List TagAction) (s : TagSelector)
    (hinv : s.hiddenValue = jsJoin "," s.tags)
    (hnodup : s.tags.Nodup)
    (htags : ∀ t ∈ s.tags, ∃ opt ∈ options, opt.value = t) :
    ∃ last, tagActions fields fieldId actions s = .ok last ∧
      last.hiddenValue = jsJoin "," last.tags ∧ last.tags.Nodup ∧
      (∀ t ∈ last.tags, ∃ opt ∈ options, opt.value = t) := by
  induction actions generalizing s with
  | nil => exact ⟨s, rfl, hinv, hnodup, htags⟩
  | cons action rest ih =>
    have hplain : ∀ t ∈ s.tags, t ≠ "" ∧ comma ∉ t.data := by
      intro t ht
      obtain ⟨opt, hopt, rfl⟩ := htags t ht
      exact ⟨(hvalues opt hopt).1, (hvalues opt hopt).2.1⟩
    cases action with
    | add typed =>
      have hstep := addTag_cases fields fieldId field options { s with searchValue := typed }
        hident hfind hoptions (fun opt hopt => (hvalues opt hopt).2.2) hinv hplain
      simp only [tagActions, tagAction, hstep]
      apply ih
      · split
        · exact hinv
        · split
          · exact hinv
          · split
            · exact hinv
            · rfl
      · split
        · exact hnodup
        · split
          · exact hnodup
          · split
            · exact hnodup
            · next _ _ hnew =>
              show (s.tags ++ [jsTrim typed]).Nodup
              rw [List.nodup_append]
              refine ⟨hnodup, List.nodup_singleton _, ?_⟩
              intro a ha hb
              simp only [List.mem_singleton] at hb
              exact hnew (hb ▸ ha)
      · split
        · exact htags
        · split
          · exact htags
          · split
            · exact htags
            · next h2 _ =>
              intro t ht
              simp only [List.mem_append, List.mem_singleton] at ht
              rcases ht with ht | ht
              · exact htags t ht
              · have h2t : (options.any fun opt => opt.value == jsTrim typed) = true := by
                  simpa using h2
                rw [List.any_eq_true] at h2t
                obtain ⟨opt, hopt, hb⟩ := h2t
                exact ⟨opt, hopt, by rw [ht]; simpa using hb⟩
    | remove index =>
      have hstep := removeTag_cases fieldId index s hident hinv hplain hnodup
      simp only [tagActions, tagAction, hstep]
      apply ih
      · rfl
      · exact hnodup.sublist (List.eraseIdx_sublist _ _)
      · intro t ht
        exact htags t ((List.eraseIdx_sublist _ _).subset ht)
    | removeAll =>
      simp only [tagActions, tagAction, removeAllTags, hident, Bool.not_true,
        Bool.false_eq_true, if_false]
      apply ih
      · rfl
      · exact List.nodup_nil
      · intro t ht; simp at ht

/-- C30, counterexample: a checkbox field with the option red comes before the multi-select
field with the same id, whose options are pear and plum.  The add action checks the typed
text against the options of the first field with that id, so red becomes a tag and the
committed value of the multi-select field, of which it is not an option. -/
theorem tagActions_commits_other_fields_option :
    tagActions
        [checkboxField "d" "Colour" ["red"],
          { checkboxField "d" "Fruit" ["pear", "plum"] with
            type := "searchable-dropdown", isMultiSelect := true }]
        "d" [.add "red"] emptyTagSelector =
      .ok { searchValue := "", hiddenValue := "red", tags := ["red"], notification := none } ∧
    (∀ opt ∈ optionsOrEmpty
        { checkboxField "d" "Fruit" ["pear", "plum"] with
          type := "searchable-dropdown", isMultiSelect := true },
      opt.value ≠ "" ∧ comma ∉ opt.value.data ∧ opt.value ≠ "red") := by
  decide

/-- C30, amended: let the field id consist of ASCII letters, digits, underscores and
hyphens, let the field be the first field of the blueprint with that id (the field that
the handler finds), and let it have an option list none of whose values is empty or
contains a comma or a `<`.  Then after every sequence of add, remove and clear-all actions
from the empty state the committed value, read as the handlers read it (the empty text as
no value, any other text split at commas), is the list of the displayed tags, it is the
displayed tags joined with commas, the displayed tags have no duplicate, and each is the
value of one of the field's options. -/
theorem tagActions_tag_list (fields : List Field) (fieldId : String) (field : Field)
    (options : List FieldOption)
    (hident : isSelectorIdentText fieldId = true)
    (hfind : fields.find? (fun f => f.id == fieldId) = some field)
    (hoptions : field.options = some options)
    (hvalues : ∀ opt ∈ options,
      opt.value ≠ "" ∧ comma ∉ opt.value.data ∧ Char.ofNat 60 ∉ opt.value.data)
    (actions : List TagAction) :
    ∃ last, tagActions fields fieldId actions emptyTagSelector = .ok last ∧
      (if last.hiddenValue = "" then [] else jsSplit comma last.hiddenValue) = last.tags ∧
      last.hiddenValue = jsJoin "," last.tags ∧
      last.tags.Nodup ∧
      ∀ t ∈ last.tags, ∃ opt ∈ options, opt.value = t := by
  obtain ⟨last, hrun, hinv, hnodup, htags⟩ :=
    tagActions_invariant fields fieldId field options hident hfind hoptions hvalues actions
      emptyTagSelector rfl List.nodup_nil (by simp [emptyTagSelector])
  refine ⟨last, hrun, ?_, hinv, hnodup, htags⟩
  have hcur := currentValues_eq_tags last.tags (fun t ht => by
    obtain ⟨opt, hopt, rfl⟩ := htags t ht
    exact ⟨(hvalues opt hopt).1, (hvalues opt hopt).2.1⟩)
  rw [← hinv] at hcur
  exact hcur

/-- C30, amended, at a field with the options pear and plum and a sequence of five
actions. -/
theorem tagActions_tag_list_witness :
    (∃ last,
      tagActions
          [{ checkboxField "d" "Fruit" ["pear", "plum"] with
              type := "searchable-dropdown", isMultiSelect := true }]
          "d" [.add "pear", .add " plum", .add "pear", .remove 0, .add "fig"]
          emptyTagSelector = .ok last ∧
        (if last.hiddenValue = "" then [] else jsSplit comma last.hiddenValue) = last.tags ∧
        last.hiddenValue = jsJoin "," last.tags ∧
        last.tags.Nodup ∧
        ∀ t ∈ last.tags, ∃ opt ∈
          [({ group := "General", value := "pear" } : FieldOption),
           { group := "General", value := "plum" }], opt.value = t) ∧
    tagActions
        [{ checkboxField "d" "Fruit" ["pear", "plum"] with
            type := "searchable-dropdown", isMultiSelect := true }]
        "d" [.add "pear", .add " plum", .add "pear", .remove 0, .add "fig"]
        emptyTagSelector =
      .ok { searchValue := "fig", hiddenValue := "plum", tags := ["plum"],
            notification := some (invalidOptionMessage "fig", true) } :=
  ⟨tagActions_tag_list
    [{ checkboxField "d" "Fruit" ["pear", "plum"] with
        type := "searchable-dropdown", isMultiSelect := true }]
    "d"
    { checkboxField "d" "Fruit" ["pear", "plum"] with
      type := "searchable-dropdown", isMultiSelect := true }
    [{ group := "General", value := "pear" }, { group := "General", value := "plum" }]
    (by decide) (by decide) (by decide) (by decide)
    [.add "pear", .add " plum", .add "pear", .remove 0, .add "fig"],
   by decide⟩

/-! ### The save action of the add/edit dialog (C24, C25, C26, C29) -/

theorem editedField_label_id (modal : EditModal) (newLabel : String) :
    (editedField modal newLabel).label = newLabel ∧
      (editedField modal newLabel).id = toCamelCase newLabel ∧
      (editedField modal newLabel).type = modal.currentlyEditingField.type ∧
      (editedField modal newLabel).required = modal.inputs.required := by
  unfold editedField
  simp only []
  split_ifs <;> exact ⟨rfl, rfl, rfl, rfl⟩

/-- C24, failing input: the dialog is opened for a new static-text field, the label Note is
typed and the required box is ticked.  The committed field is required. -/
theorem modalSave_static_text_required :
    (addNewField
        { label := "", required := false, isMultiSelect := false, hoverInfo := "",
          placeholder := "" }
        "static-text").inputs.required = false ∧
    modalSave []
        { addNewField
            { label := "", required := false, isMultiSelect := false, hoverInfo := "",
              placeholder := "" }
            "static-text" with
          inputs :=
            { label := "Note", required := true, isMultiSelect := false, hoverInfo := "",
              placeholder := "" } }
        [] =
      .ok { fields := [{ staticTextField "note" "Note" with required := true }],
            alert := none, modal := none } := by
  decide

/-- C25: for every blueprint and every state of the dialog whose label input is empty or
holds whitespace only, the save action raises the alert and leaves the field list of the
blueprint exactly as it was; the dialog stays as it was, too. -/
theorem modalSave_empty_label (form : FormState) (modal : EditModal) (fields : List Field)
    (hlabel : modal.inputs.label.data.all isJsWhitespace = true) :
    modalSave form modal fields =
      .ok { fields := fields, alert := some "Field Label cannot be empty.",
            modal := some modal } := by
  have h : jsTrim modal.inputs.label = "" := (jsTrim_eq_empty_iff _).mpr hlabel
  simp [modalSave, h]

/-- C25, at a dialog on the second field of a blueprint with a label of two blanks and a
tab. -/
theorem modalSave_empty_label_witness :
    modalSave
        [{ kind := .text, name := "a", value := "", checked := false },
         { kind := .text, name := "b", value := "", checked := false }]
        { currentlyEditingField := textField "b" "B"
          currentlyEditingIndex := some 1
          inputs :=
            { label := "  \t", required := true, isMultiSelect := true, hoverInfo := "x",
              placeholder := "y" }
          sharedWith := [] }
        [textField "a" "A", textField "b" "B"] =
      .ok { fields := [textField "a" "A", textField "b" "B"],
            alert := some "Field Label cannot be empty.",
            modal := some
              { currentlyEditingField := textField "b" "B"
                currentlyEditingIndex := some 1
                inputs :=
                  { label := "  \t", required := true, isMultiSelect := true,
                    hoverInfo := "x", placeholder := "y" }
                sharedWith := [] } } :=
  modalSave_empty_label _ _ _ (by decide)

/-- C26, failing input: the blueprint has the field A, and a new text field is saved with
the label `Notes (`.  The save pushes the object under edit; `render()` throws on the
regular expression of the id `notes(`, so the dialog stays open on the pushed object.
The label is changed to `Notes` and Save is pressed again: the element pushed before is
rewritten in place and pushed once more.  The second save changes a field other than
the one it commits. -/
theorem modalSave_rewrites_pushed_field :
    modalSave
        [{ kind := .text, name := "a", value := "", checked := false },
         { kind := .text, name := "notes(", value := "", checked := false }]
        { addNewField
            { label := "", required := false, isMultiSelect := false, hoverInfo := "",
              placeholder := "" }
            "text" with
          inputs :=
            { label := "Notes (", required := true, isMultiSelect := false, hoverInfo := "",
              placeholder := "" } }
        [textField "a" "A"] =
      .ok { fields := [textField "a" "A",
                       { textField "notes(" "Notes (" with required := true }],
            alert := none,
            modal := some
              { currentlyEditingField := { textField "notes(" "Notes (" with required := true }
                currentlyEditingIndex := none
                inputs :=
                  { label := "Notes (", required := true, isMultiSelect := false,
                    hoverInfo := "", placeholder := "" }
                sharedWith := [1] } } ∧
    modalSave
        [{ kind := .text, name := "a", value := "", checked := false },
         { kind := .text, name := "notes", value := "", checked := false },
         { kind := .text, name := "notes", value := "", checked := false }]
        { currentlyEditingField := { textField "notes(" "Notes (" with required := true }
          currentlyEditingIndex := none
          inputs :=
            { label := "Notes", required := true, isMultiSelect := false, hoverInfo := "",
              placeholder := "" }
          sharedWith := [1] }
        [textField "a" "A", { textField "notes(" "Notes (" with required := true }] =
      .ok { fields := [textField "a" "A",
                       { textField "notes" "Notes" with required := true },
                       { textField "notes" "Notes" with required := true }],
            alert := none, modal := none } := by
  decide

theorem jsTrimChars_head (s : List Char) (c : Char)
    (h : (jsTrimChars s).head? = some c) : isJsWhitespace c = false := by
  unfold jsTrimChars at h
  have hsplit := List.takeWhile_append_dropWhile isJsWhitespace
    (s.dropWhile isJsWhitespace).reverse
  have hrev : s.dropWhile isJsWhitespace =
      ((s.dropWhile isJsWhitespace).reverse.dropWhile isJsWhitespace).reverse ++
        ((s.dropWhile isJsWhitespace).reverse.takeWhile isJsWhitespace).reverse := by
    rw [← List.reverse_append, hsplit, List.reverse_reverse]
  cases hr : ((s.dropWhile isJsWhitespace).reverse.dropWhile isJsWhitespace).reverse with
  | nil => rw [hr] at h; simp at h
  | cons a rest =>
    rw [hr] at h hrev
    simp only [List.head?_cons, Option.some.injEq] at h
    subst h
    have hhead := List.head?_dropWhile_not isJsWhitespace s
    rw [hrev] at hhead
    simpa using hhead

theorem jsTrimChars_of_no_whitespace (l : List Char)
    (h : ∀ c ∈ l, isJsWhitespace c = false) : jsTrimChars l = l := by
  have hdrop : ∀ m : List Char, (∀ c ∈ m, isJsWhitespace c = false) →
      m.dropWhile isJsWhitespace = m := by
    intro m hm
    cases m with
    | nil => rfl
    | cons a rest => simp [List.dropWhile_cons, hm a (by simp)]
  unfold jsTrimChars
  rw [hdrop l h, hdrop l.reverse (fun c hc => h c (List.mem_reverse.mp hc)),
    List.reverse_reverse]

theorem toCamelCase_no_whitespace (s : String) :
    ∀ c ∈ (toCamelCase s).data, isJsWhitespace c = false := by
  intro c hc
  rw [toCamelCase_data, List.mem_filter] at hc
  simpa using hc.2

theorem jsTrim_toCamelCase (s : String) : jsTrim (toCamelCase s) = toCamelCase s := by
  apply String.ext
  simp only [jsTrim]
  exact jsTrimChars_of_no_whitespace _ (toCamelCase_no_whitespace s)

/-- C29: for every string whose first character is not whitespace, deriving the identifier
of its identifier gives the identifier again; every trimmed label is such a string; and a
save whose label input holds the identifier of such a string commits that identifier as the
id. -/
theorem toCamelCase_idempotent_on_labels (s : String)
    (hhead : ∀ c, s.data.head? = some c → isJsWhitespace c = false) :
    toCamelCase (toCamelCase s) = toCamelCase s ∧
      (∀ label : String,
        toCamelCase (toCamelCase (jsTrim label)) = toCamelCase (jsTrim label)) ∧
      ∀ modal : EditModal, modal.inputs.label = toCamelCase s →
        (editedField modal (jsTrim modal.inputs.label)).id = modal.inputs.label := by
  refine ⟨toCamelCase_stable_of_head s hhead, ?_, ?_⟩
  · intro label
    exact toCamelCase_stable_of_head _ (fun c hc => jsTrimChars_head label.data c hc)
  · intro modal hmodal
    rw [(editedField_label_id modal _).2.1, hmodal, jsTrim_toCamelCase]
    exact toCamelCase_stable_of_head s hhead

/-- C29, at the label Case ID 2. -/
theorem toCamelCase_idempotent_on_labels_witness :
    toCamelCase (toCamelCase "Case ID 2") = toCamelCase "Case ID 2" :=
  (toCamelCase_idempotent_on_labels "Case ID 2" (by decide)).1

/-! ### The output of a well-formed blueprint, line by line (C28) -/

set_option maxRecDepth 100000 in
theorem isDigit_of_isAlpha (c : Char) : c.isAlpha = true → c.isDigit = false := by
  revert c
  apply char_cases
  · decide
  · intro c h hc
    have hw := isWordChar_of_big c h
    have : c.isAlphanum = false := by
      simp only [isWordChar, Bool.or_eq_false_iff] at hw
      exact hw.1
    simp only [Char.isAlphanum, Bool.or_eq_false_iff] at this
    exact this.2

theorem isSimpleId_of_alphanumeric (id : String)
    (hall : id.data.all Char.isAlphanum = true)
    (hhead : id.data.head?.any Char.isAlpha = true) : isSimpleId id = true := by
  unfold isSimpleId
  rw [Bool.and_eq_true]
  constructor
  · rw [List.all_eq_true] at hall ⊢
    intro c hc
    simp [isWordChar, hall c hc]
  · cases hd : id.data.head? with
    | none => rfl
    | some c =>
      rw [hd] at hhead
      simp only [Option.any_some] at hhead ⊢
      simp [isDigit_of_isAlpha c hhead]

theorem Piece.resolve_hole_of_nodup (value : Field → String) (fields : List Field)
    (hdistinct :
      ((fields.filter fun field => field.type != "static-text").map fun f => f.id).Nodup)
    (f : Field) (hf : f ∈ fields) (hns : f.type ≠ "static-text") :
    Piece.resolve value fields (.hole f.id) = .text (value f).data := by
  obtain ⟨g, hg, hgns, hgid, hres⟩ := Piece.resolve_hole value fields f.id ⟨f, hf, hns, rfl⟩
  have hmem : ∀ h : Field, h ∈ fields → h.type ≠ "static-text" →
      h ∈ fields.filter fun field => field.type != "static-text" := by
    intro h hh hhns
    rw [List.mem_filter]
    exact ⟨hh, by simpa using hhns⟩
  have hgf : g = f :=
    List.inj_on_of_nodup_map hdistinct (hmem g hg hgns) (hmem f hf hns) hgid
  rw [hres, hgf]

theorem flattenPieces_following_resolved (value : Field → String) (fields gs : List Field)
    (hres : ∀ f ∈ gs, Piece.resolve value fields (.hole f.id) = .text (value f).data) :
    flattenPieces ((followingLinePieces gs).map (Piece.resolve value fields)) =
      gs.flatMap fun f => "\n".data ++ (f.label ++ ": " ++ value f).data := by
  induction gs with
  | nil => rfl
  | cons g rest ih =>
    have hrest := ih (fun f hf => hres f (List.mem_cons_of_mem _ hf))
    have hstep : followingLinePieces (g :: rest) =
        .text "\n".data :: .text (g.label ++ ": ").data :: .hole g.id ::
          followingLinePieces rest := rfl
    rw [hstep]
    simp only [List.map_cons, flattenPieces, Piece.resolve_text,
      hres g (List.mem_cons_self _ _), Piece.chars, hrest, List.flatMap_cons,
      String.data_append, List.append_assoc]

theorem flattenPieces_joined_resolved (value : Field → String) (fields gs : List Field)
    (hres : ∀ f ∈ gs, Piece.resolve value fields (.hole f.id) = .text (value f).data) :
    flattenPieces ((joinedLinePieces gs).map (Piece.resolve value fields)) =
      (jsJoin "\n" (gs.map fun f => f.label ++ ": " ++ value f)).data := by
  cases gs with
  | nil => rfl
  | cons g rest =>
    have hrest := flattenPieces_following_resolved value fields rest
      (fun f hf => hres f (List.mem_cons_of_mem _ hf))
    have hstep : joinedLinePieces (g :: rest) =
        .text (g.label ++ ": ").data :: .hole g.id :: followingLinePieces rest := rfl
    rw [List.map_cons, jsJoin_cons_data, hstep]
    simp only [List.map_cons, flattenPieces, Piece.resolve_text,
      hres g (List.mem_cons_self _ _), Piece.chars, hrest, String.data_append,
      List.append_assoc, List.flatMap_map]

/-- C28: for every blueprint whose non-static fields have pairwise distinct ids that begin
with an ASCII letter and consist of ASCII letters and digits, whose labels have no opening
brace and no dollar sign, and for every assignment of values without an opening brace or a
dollar sign that the fields have in the form, the output of `renderOutputPreview` is the
lines label, colon, blank, value of the non-static fields, in field order, joined with line
feeds. -/
theorem renderOutputPreview_lines (fields : List Field) (form : FormState)
    (value : Field → String)
    (hid : ∀ f ∈ fields, f.type ≠ "static-text" →
      f.id.data.all Char.isAlphanum = true ∧ f.id.data.head?.any Char.isAlpha = true)
    (hdistinct :
      ((fields.filter fun field => field.type != "static-text").map fun f => f.id).Nodup)
    (hlabel : ∀ f ∈ fields, f.type ≠ "static-text" →
      lbrace ∉ f.label.data ∧ dollar ∉ f.label.data)
    (hvalue : ∀ f ∈ fields, f.type ≠ "static-text" →
      previewValue form f = .ok (value f) ∧
        lbrace ∉ (value f).data ∧ dollar ∉ (value f).data) :
    renderOutputPreview fields form =
      .ok (jsJoin "\n"
        ((fields.filter fun field => field.type != "static-text").map
          fun f => f.label ++ ": " ++ value f)) := by
  have hsimple : ∀ f ∈ fields, f.type ≠ "static-text" → isSimpleId f.id = true :=
    fun f hf hns => isSimpleId_of_alphanumeric f.id (hid f hf hns).1 (hid f hf hns).2
  have hplain := templatePieces_plain fields hsimple (fun f hf hns => (hlabel f hf hns).1)
  have hrun := substituteFields_pieces form value fields (templatePieces fields)
    (fun f hf hns =>
      ⟨hsimple f hf hns, (hvalue f hf hns).1, (hvalue f hf hns).2.2, (hvalue f hf hns).2.1⟩)
    hplain
  rw [renderOutputPreview, outputTemplate_eq_mk, hrun]
  congr 1
  apply String.ext
  show flattenPieces ((templatePieces fields).map (Piece.resolve value fields)) = _
  unfold templatePieces
  apply flattenPieces_joined_resolved
  intro f hf
  rw [List.mem_filter] at hf
  exact Piece.resolve_hole_of_nodup value fields hdistinct f hf.1 (by simpa using hf.2)

/-- C28, at a blueprint with a text field, a static text and a checkbox group, and a form
in which the text is typed and two boxes are checked. -/
theorem renderOutputPreview_lines_witness :
    renderOutputPreview
        [textField "caseId" "Case ID", staticTextField "note" "Read this",
         checkboxField "team2" "Team" ["Sales", "Support"]]
        [{ kind := .text, name := "caseId", value := "123", checked := false },
         { kind := .checkbox, name := "team2", value := "Sales", checked := true },
         { kind := .checkbox, name := "team2", value := "Support", checked := true }] =
      .ok (jsJoin "\n"
        (([textField "caseId" "Case ID", staticTextField "note" "Read this",
           checkboxField "team2" "Team" ["Sales", "Support"]].filter
            fun field => field.type != "static-text").map
          fun f => f.label ++ ": " ++ (if f.id = "caseId" then "123" else "Sales, Support"))) :=
  renderOutputPreview_lines
    [textField "caseId" "Case ID", staticTextField "note" "Read this",
     checkboxField "team2" "Team" ["Sales", "Support"]]
    [{ kind := .text, name := "caseId", value := "123", checked := false },
     { kind := .checkbox, name := "team2", value := "Sales", checked := true },
     { kind := .checkbox, name := "team2", value := "Support", checked := true }]
    (fun f => if f.id = "caseId" then "123" else "Sales, Support")
    (by decide) (by decide) (by decide) (by decide)

/-! ### Duplication (C21) -/

/-- C21: for every loaded blueprint, one whose id is not null, `handleDuplicateBlueprint`
makes the current blueprint the one with a null id, the formName followed by ` (Copy)`, the
same formSubtitle and the same fields, whatever the rendering that follows does; and for
every blueprint with a null id it leaves the blueprint as it is and shows the notification
that asks for a loaded blueprint. -/
theorem handleDuplicateBlueprint_copy (renderFields : List JsonValue → Except Stop Unit)
    (b : Blueprint) (notification : Option (String × Bool)) (key : Nat)
    (hid : b.id = some key) :
    (∃ after,
      handleDuplicateBlueprint renderFields
          { formBlueprint := b.toJson, notification := notification } = .ok after ∧
        after.formBlueprint =
          Blueprint.toJson { b with id := none, formName := b.formName ++ " (Copy)" }) ∧
      ∀ unsaved : Blueprint, unsaved.id = none →
        handleDuplicateBlueprint renderFields
            { formBlueprint := unsaved.toJson, notification := notification } =
          .ok { formBlueprint := unsaved.toJson,
                notification := some (duplicateNeedsBlueprint, true) } := by
  constructor
  · have hnew : setMember "formName" (.string (b.formName ++ " (Copy)"))
        (setMember "id" .null
          [("id", .number key), ("formName", .string b.formName),
           ("formSubtitle", .string b.formSubtitle),
           ("fields", .array (b.fields.map Field.toJson))]) =
        [("id", .null), ("formName", .string (b.formName ++ " (Copy)")),
         ("formSubtitle", .string b.formSubtitle),
         ("fields", .array (b.fields.map Field.toJson))] := by
      simp [setMember]
    cases hr : renderBlueprint renderFields
        [("id", .null), ("formName", .string (b.formName ++ " (Copy)")),
         ("formSubtitle", .string b.formSubtitle),
         ("fields", .array (b.fields.map Field.toJson))] with
    | ok u =>
      refine ⟨BuilderState.mk
        (Blueprint.toJson { b with id := none, formName := b.formName ++ " (Copy)" })
        (some (duplicated, false)), ?_, rfl⟩
      simp only [handleDuplicateBlueprint, Blueprint.toJson, hid, List.lookup,
        templateText]
      simp only [show ("id" == "id") = true from rfl,
        show ("formName" == "id") = false from by decide,
        show ("formName" == "formName") = true from rfl, hnew, hr]
    | error e =>
      refine ⟨BuilderState.mk
        (Blueprint.toJson { b with id := none, formName := b.formName ++ " (Copy)" })
        notification, ?_, rfl⟩
      simp only [handleDuplicateBlueprint, Blueprint.toJson, hid, List.lookup,
        templateText]
      simp only [show ("id" == "id") = true from rfl,
        show ("formName" == "id") = false from by decide,
        show ("formName" == "formName") = true from rfl, hnew, hr]
  · intro unsaved hnone
    simp only [handleDuplicateBlueprint, Blueprint.toJson, hnone, List.lookup]
    simp only [show ("id" == "id") = true from rfl]

/-- C21, at a saved blueprint with two fields. -/
theorem handleDuplicateBlueprint_copy_witness :
    ∃ after,
      handleDuplicateBlueprint (fun _ => .ok ())
          { formBlueprint :=
              Blueprint.toJson
                { id := some 7, formName := "Calls", formSubtitle := "Daily log",
                  fields := [textField "caller" "Caller",
                             checkboxField "team" "Team" ["Sales"]] },
            notification := none } = .ok after ∧
        after.formBlueprint =
          Blueprint.toJson
            { id := none, formName := "Calls" ++ " (Copy)", formSubtitle := "Daily log",
              fields := [textField "caller" "Caller",
                         checkboxField "team" "Team" ["Sales"]] } :=
  (handleDuplicateBlueprint_copy (fun _ => .ok ())
    { id := some 7, formName := "Calls", formSubtitle := "Daily log",
      fields := [textField "caller" "Caller", checkboxField "team" "Team" ["Sales"]] }
    none 7 rfl).1

/-! ### The CSV export (C22, C23) -/

theorem logCells_spec (log : LogEntry) (fields : List Field)
    (hkeys : ∀ f ∈ fields, f.type ≠ "static-text" →
      (log.data.lookup f.id).isSome = true ∨ objectPrototypeKeys.contains f.id = false) :
    logCells log fields =
      .ok ((fields.filter fun f => f.type != "static-text").map fun f =>
        csvQuote (((log.data.lookup f.id).map LogValue.asText).getD "")) := by
  induction fields with
  | nil => rfl
  | cons f rest ih =>
    have hrest := ih (fun g hg => hkeys g (List.mem_cons_of_mem _ hg))
    by_cases hst : f.type = "static-text"
    · simp [logCells, hst, hrest]
    · have hbne : (f.type != "static-text") = true := by simpa using hst
      have hbeq : (f.type == "static-text") = false := by simpa using hst
      have htext : recordedText log f.id =
          .ok (((log.data.lookup f.id).map LogValue.asText).getD "") := by
        unfold recordedText
        cases hl : log.data.lookup f.id with
        | some v => rfl
        | none =>
          rcases hkeys f (List.mem_cons_self _ _) hst with h | h
          · rw [hl] at h; simp at h
          · simp only [h, Bool.false_eq_true, if_false, Option.map_none', Option.getD_none]
      simp only [logCells, hbeq, Bool.false_eq_true, if_false, htext, hrest,
        List.filter_cons, hbne, if_true, List.map_cons]

/-- C22, counterexample: the blueprint has the Text field Case ID and the log entry has the
value 123 and the output `Case ID: 123`.  The row begins with the timestamp as it is, not
with the timestamp between double quotes. -/
theorem logRow_timestamp_not_quoted :
    logRow [textField "caseId" "Case ID"]
        { blueprintId := 1, timestamp := "2024-05-01T10:00:00.000Z",
          data := [("caseId", .text "123")], fullOutput := "Case ID: 123" } =
      .ok "2024-05-01T10:00:00.000Z,\"123\",\"Case ID: 123\"" ∧
    logRow [textField "caseId" "Case ID"]
        { blueprintId := 1, timestamp := "2024-05-01T10:00:00.000Z",
          data := [("caseId", .text "123")], fullOutput := "Case ID: 123" } ≠
      .ok "\"2024-05-01T10:00:00.000Z\",\"123\",\"Case ID: 123\"" := by
  decide

/-- C22, amended: for every blueprint and every log entry that has a recorded value for
the id of each non-static field, or whose missing ids are not names that every object
inherits, the row is the comma-join of the timestamp as it is, then one double-quoted cell
per non-static field in blueprint order holding the text of the value recorded for the
field's id (empty when none is recorded), then the double-quoted full output. -/
theorem logRow_cells (fields : List Field) (log : LogEntry)
    (hkeys : ∀ f ∈ fields, f.type ≠ "static-text" →
      (log.data.lookup f.id).isSome = true ∨ objectPrototypeKeys.contains f.id = false) :
    logRow fields log =
      .ok (jsJoin ","
        ([log.timestamp] ++
          ((fields.filter fun f => f.type != "static-text").map fun f =>
            csvQuote (((log.data.lookup f.id).map LogValue.asText).getD "")) ++
          [csvQuote log.fullOutput])) := by
  simp only [logRow, logCells_spec log fields hkeys]

/-- C22, amended, at a blueprint with a text field, a static text, a checkbox group and a
field added after the entry was logged. -/
theorem logRow_cells_witness :
    logRow
        [textField "caseId" "Case ID", staticTextField "note" "Read this",
         checkboxField "team" "Team" ["Sales", "Support"], textField "later" "Later"]
        { blueprintId := 1, timestamp := "2024-05-01T10:00:00.000Z",
          data := [("caseId", .text "12\"3"), ("team", .list ["Sales", "Support"])],
          fullOutput := "Case ID: 12\"3\nTeam: Sales, Support" } =
      .ok ("2024-05-01T10:00:00.000Z,\"12\"\"3\",\"Sales; Support\",\"\"," ++
        "\"Case ID: 12\"\"3\nTeam: Sales, Support\"") :=
  (logRow_cells
    [textField "caseId" "Case ID", staticTextField "note" "Read this",
     checkboxField "team" "Team" ["Sales", "Support"], textField "later" "Later"]
    { blueprintId := 1, timestamp := "2024-05-01T10:00:00.000Z",
      data := [("caseId", .text "12\"3"), ("team", .list ["Sales", "Support"])],
      fullOutput := "Case ID: 12\"3\nTeam: Sales, Support" }
    (by decide)).trans (by decide)

theorem csvUnquoteBody_quoted (v : List Char) :
    csvUnquoteBody
        (replaceChar (Char.ofNat 34) "\"\"".data v ++ [Char.ofNat 34]) = some v := by
  induction v with
  | nil => rfl
  | cons c rest ih =>
    have hcons : replaceChar (Char.ofNat 34) "\"\"".data (c :: rest) =
        (if c = Char.ofNat 34 then "\"\"".data else [c]) ++
          replaceChar (Char.ofNat 34) "\"\"".data rest := by
      simp [replaceChar, List.flatMap_cons]
    rw [hcons]
    by_cases hc : c = Char.ofNat 34
    · subst hc
      simp only [if_true]
      show csvUnquoteBody (Char.ofNat 34 :: Char.ofNat 34 ::
        (replaceChar (Char.ofNat 34) "\"\"".data rest ++ [Char.ofNat 34])) = _
      rw [csvUnquoteBody]
      simp [ih]
    · simp only [hc, if_false]
      cases htail : replaceChar (Char.ofNat 34) "\"\"".data rest ++ [Char.ofNat 34] with
      | nil => simp at htail
      | cons d more =>
        rw [htail] at ih
        show csvUnquoteBody (c :: (replaceChar (Char.ofNat 34) "\"\"".data rest ++
          [Char.ofNat 34])) = _
        rw [htail, csvUnquoteBody]
        simp [hc, ih]

theorem csvUnquote_csvQuote (v : String) : csvUnquote (csvQuote v) = some v := by
  have hdata : (csvQuote v).data =
      Char.ofNat 34 :: (replaceChar (Char.ofNat 34) "\"\"".data v.data ++ [Char.ofNat 34]) := by
    simp only [csvQuote, String.data_append]
    rfl
  unfold csvUnquote
  rw [hdata]
  show (if Char.ofNat 34 = Char.ofNat 34 then
      (csvUnquoteBody (replaceChar (Char.ofNat 34) "\"\"".data v.data ++
        [Char.ofNat 34])).map String.mk
    else none) = some v
  rw [if_pos rfl, csvUnquoteBody_quoted]
  rfl

/-- C23: for every field value recorded in a log entry, a string or a sequence of strings
that is first joined with a semicolon and a blank, and for the full output, the cell that
the export writes is the text with every double quote doubled, between double quotes; and
for every text the unquoting of its quoted cell gives the text back, whatever commas,
quotes and line feeds it contains. -/
theorem csvQuote_round_trip (log : LogEntry) (field : Field) (value : LogValue)
    (hfield : field.type ≠ "static-text")
    (hrecorded : log.data.lookup field.id = some value) :
    logCells log [field] = .ok [csvQuote value.asText] ∧
      (∀ s, value = .text s → value.asText = s) ∧
      (∀ items, value = .list items → value.asText = jsJoin "; " items) ∧
      (∀ fields cells, logCells log fields = .ok cells →
        logRow fields log =
          .ok (jsJoin "," ([log.timestamp] ++ cells ++ [csvQuote log.fullOutput]))) ∧
      ∀ v : String,
        (csvQuote v).data =
            Char.ofNat 34 ::
              (replaceChar (Char.ofNat 34) [Char.ofNat 34, Char.ofNat 34] v.data ++
                [Char.ofNat 34]) ∧
          csvUnquote (csvQuote v) = some v := by
  refine ⟨?_, ?_, ?_, fun fields cells h => by simp only [logRow, h], ?_⟩
  · have h := logCells_spec log [field] (fun f hf _ => by
      simp only [List.mem_singleton] at hf
      subst hf
      left; rw [hrecorded]; rfl)
    have hbne : (field.type != "static-text") = true := by simpa using hfield
    rw [h]
    simp [List.filter_cons, hbne, hrecorded]
  · intro s hs; subst hs; rfl
  · intro items hi; subst hi; rfl
  · intro v
    refine ⟨?_, csvUnquote_csvQuote v⟩
    simp only [csvQuote, String.data_append]
    rfl

/-- C23, at a value with a comma, two quotes and a line feed. -/
theorem csvQuote_round_trip_witness :
    logCells
        { blueprintId := 1, timestamp := "2024-05-01T10:00:00.000Z",
          data := [("caseId", .text "a, \"b\"\nc")], fullOutput := "x" }
        [textField "caseId" "Case ID"] =
      .ok ["\"a, \"\"b\"\"\nc\""] ∧
    csvUnquote "\"a, \"\"b\"\"\nc\"" = some "a, \"b\"\nc" :=
  have h := csvQuote_round_trip
    { blueprintId := 1, timestamp := "2024-05-01T10:00:00.000Z",
      data := [("caseId", .text "a, \"b\"\nc")], fullOutput := "x" }
    (textField "caseId" "Case ID") (.text "a, \"b\"\nc") (by decide) (by decide)
  ⟨h.1.trans (by decide), by decide⟩

/-! ### One full output for the pane, the clipboard and the log (C27) -/

/-- C27: for every run of `logCase` that ends with the notification of success, one entry
was added to the log, and its fullOutput, the text on the clipboard and the text that the
preview pane showed when the case was logged are the same string; when that pane was up to
date, it is the output of `renderOutputPreview` for the form. -/
theorem logCase_one_output (blueprint : Blueprint) (env : LogEnvironment)
    (state after : CaseState)
    (hrun : logCase blueprint env state = .ok after)
    (hsuccess : after.notification = some (loggedMessage, false)) :
    ∃ entry, after.caseLogs = state.caseLogs ++ [entry] ∧
      entry.fullOutput = state.previewOutput ∧
      after.clipboard = some state.previewOutput ∧
      ∀ output, renderOutputPreview blueprint.fields state.form = .ok output →
        state.previewOutput = output →
        entry.fullOutput = output ∧ after.clipboard = some output := by
  unfold logCase at hrun
  split at hrun
  · simp only [Except.ok.injEq] at hrun
    subst hrun
    simp [loggedMessage] at hsuccess
  · next blueprintId _ =>
    simp only [] at hrun
    split at hrun
    · simp only [Except.ok.injEq] at hrun
      subst hrun
      simp [loggedMessage] at hsuccess
    · split at hrun
      · simp at hrun
      · next data _ =>
        split at hrun
        · simp only [Except.ok.injEq] at hrun
          subst hrun
          simp [loggedMessage, logErrorMessage] at hsuccess
        · split at hrun
          · simp only [Except.ok.injEq] at hrun
            subst hrun
            simp [loggedMessage, logErrorMessage] at hsuccess
          · split at hrun
            · simp only [Except.ok.injEq] at hrun
              subst hrun
              simp [loggedMessage, logErrorMessage] at hsuccess
            · split at hrun
              · simp only [Except.ok.injEq] at hrun
                subst hrun
                simp [loggedMessage, logErrorMessage] at hsuccess
              · simp only [Except.ok.injEq] at hrun
                subst hrun
                exact ⟨_, rfl, rfl, rfl, fun output _ h => ⟨h, by rw [h]⟩⟩

/-- C27, at a saved blueprint with one text field and the value 123 in the form. -/
theorem logCase_one_output_witness :
    ∃ entry,
      [({ blueprintId := 7, timestamp := "2024-05-01T10:00:00.000Z",
          data := [("caseId", .text "123")], fullOutput := "Case ID: 123" } : LogEntry)] =
        [] ++ [entry] ∧
      entry.fullOutput = "Case ID: 123" ∧
      (some "Case ID: 123" : Option String) = some "Case ID: 123" ∧
      ∀ output,
        renderOutputPreview [textField "caseId" "Case ID"]
            [{ kind := .text, name := "caseId", value := "123", checked := false }] =
          .ok output →
        "Case ID: 123" = output →
        entry.fullOutput = output ∧ (some "Case ID: 123" : Option String) = some output :=
  logCase_one_output
    { id := some 7, formName := "Calls", formSubtitle := "Daily log",
      fields := [textField "caseId" "Case ID"] }
    { now := "2024-05-01T10:00:00.000Z", addSucceeds := true, writeSucceeds := true,
      reloadSucceeds := true }
    { previewOutput := "Case ID: 123",
      form := [{ kind := .text, name := "caseId", value := "123", checked := false }],
      caseLogs := [], clipboard := none, notification := none }
    { previewOutput := "Case ID: N/A",
      form := [{ kind := .text, name := "caseId", value := "", checked := false }],
      caseLogs := [{ blueprintId := 7, timestamp := "2024-05-01T10:00:00.000Z",
                     data := [("caseId", .text "123")], fullOutput := "Case ID: 123" }],
      clipboard := some "Case ID: 123", notification := some (loggedMessage, false) }
    (by decide) (by decide)


end Taco
